import Mathlib

/-!
LArContent: truth attribution, association-graph resolution, hit consolidation.

A shallow embedding of three source files of the repository

* `larpandoracontent/LArHelpers/LArMonitoringHelper.cc`
* `src/LArThreeDReco/LArCosmicRay/DeltaRayIdentificationAlgorithm.cc`
* `larpandoracontent/LArTwoDReco/LArClusterSplitting/TrackConsolidationAlgorithm.cc`

Conventions of the embedding.

* Objects handled through pointers (hits, clusters, particle-flow objects, truth particles)
  are records carrying an `id` that stands for the address, or a bare number; pointer
  equality is equality of the record.
* `std::unordered_map` / `std::map` are association lists (`Map`): a lookup returns the first
  entry of a key, a new key is appended at the end, and the list order is the enumeration
  order of the container.
* A `float` value is the rational number it stands for, and every `float` operation of the
  code is the exact operation followed by the rounding `roundToFloat` to single precision
  (round to nearest, ties to even, with gradual underflow); an overflow gives
  `FLT_INFINITY`, which stands for the infinity. `std::numeric_limits<float>::max()` and
  `epsilon()` are the constants `FLT_MAX` and `FLT_EPSILON`. The products `0.5f * x` and
  `2.f * x` and the counter `sumViews` (steps of `1.f`) are kept exact: they are exact in
  single precision, underflow and overflow and counts of `2^24` or more apart.
* A thrown `StatusCodeException` is `Except.error`; a loop that may run forever takes a fuel
  argument and returns `none` when the fuel is used up.
* Collaborators that are not part of the three files (comparators, geometry queries, the
  framework API) are parameters of the functions that call them.
-/

namespace LArContent

/-! ## Data model -/

/-- Pandora status codes carried by a `StatusCodeException`. -/
inductive StatusCode where
  | STATUS_CODE_SUCCESS
  | STATUS_CODE_FAILURE
  | STATUS_CODE_NOT_FOUND
  | STATUS_CODE_NOT_INITIALIZED
  | STATUS_CODE_ALREADY_INITIALIZED
  | STATUS_CODE_ALREADY_PRESENT
  | STATUS_CODE_OUT_OF_RANGE
  | STATUS_CODE_NOT_ALLOWED
  | STATUS_CODE_INVALID_PARAMETER
  | STATUS_CODE_UNCHANGED
  deriving DecidableEq, Repr

/-- Pandora hit types: the 2-D projection planes and the 3-D composite type. -/
inductive HitType where
  | TRACKER
  | ECAL
  | HCAL
  | MUON
  | TPC_VIEW_U
  | TPC_VIEW_V
  | TPC_VIEW_W
  | TPC_3D
  | HIT_CUSTOM
  deriving DecidableEq, Repr

/-- Largest finite `float`, the value of `std::numeric_limits<float>::max()`. -/
def FLT_MAX : ℚ := 340282346638528859811704183484516925440

/-- Machine epsilon of `float`, the value of `std::numeric_limits<float>::epsilon()`. -/
def FLT_EPSILON : ℚ := 1 / 8388608

/-! ## Single-precision arithmetic -/

/-- Stand-in for the single-precision infinity: `2 ^ 128`, the first power of two above
`FLT_MAX`. It compares above every `float`. -/
def FLT_INFINITY : ℚ := 340282366920938463463374607431768211456

/-- The power `2 ^ k` for an integer exponent `k`. -/
def twoPow (k : Int) : ℚ :=
  if 0 ≤ k then ((2 ^ k.toNat : Nat) : ℚ) else 1 / ((2 ^ (-k).toNat : Nat) : ℚ)

/-- The absolute value of a rational number. -/
def magnitude (x : ℚ) : ℚ := if 0 ≤ x then x else -x

/-- Number of halvings that bring `n` below `2`, with a bound on the number of steps. -/
def log2Fuel : Nat → Nat → Nat
  | 0, _ => 0
  | fuel + 1, n => if n < 2 then 0 else log2Fuel fuel (n / 2) + 1

/-- The integer part of the binary logarithm of `n` (`0` for `n = 0`). -/
def natLog2 (n : Nat) : Nat := log2Fuel n n

/-- The binary exponent of a non-zero rational `x`: the integer `e` with
`2 ^ e ≤ |x| < 2 ^ (e + 1)`. -/
def binaryExponent (x : ℚ) : Int :=
  if magnitude x < twoPow ((natLog2 x.num.natAbs : Int) - (natLog2 x.den : Int)) then
    (natLog2 x.num.natAbs : Int) - (natLog2 x.den : Int) - 1
  else
    (natLog2 x.num.natAbs : Int) - (natLog2 x.den : Int)

/-- The integer nearest to a non-negative rational; a tie goes to the even neighbour. -/
def roundHalfEven (x : ℚ) : Nat :=
  if 2 * (x.num.natAbs % x.den) < x.den then x.num.natAbs / x.den
  else if x.den < 2 * (x.num.natAbs % x.den) then x.num.natAbs / x.den + 1
  else if (x.num.natAbs / x.den) % 2 = 0 then x.num.natAbs / x.den
  else x.num.natAbs / x.den + 1

/-- The spacing of the single-precision numbers around a non-zero rational `x`: `2 ^ (e - 23)`
for the binary exponent `e` of `x`, and `2 ^ (-149)` in the subnormal range (`e < -126`). -/
def floatQuantum (x : ℚ) : ℚ := twoPow (max (binaryExponent x) (-126) - 23)

/-- Rounding of a real result to single precision (IEEE 754 binary32, round to nearest, ties
to even): the multiple of `floatQuantum x` nearest to `x`; a result of magnitude `2 ^ 128`
or more is the infinity, `FLT_INFINITY` or `-FLT_INFINITY`. -/
def roundToFloat (x : ℚ) : ℚ :=
  if x = 0 then 0
  else if FLT_INFINITY ≤ (roundHalfEven (magnitude x / floatQuantum x) : ℚ) * floatQuantum x then
    (if 0 < x then FLT_INFINITY else -FLT_INFINITY)
  else if 0 < x then (roundHalfEven (magnitude x / floatQuantum x) : ℚ) * floatQuantum x
  else -((roundHalfEven (magnitude x / floatQuantum x) : ℚ) * floatQuantum x)

/-- The `float` sum `a + b`. -/
def floatAdd (a b : ℚ) : ℚ := roundToFloat (a + b)

/-- The `float` difference `a - b`. -/
def floatSub (a b : ℚ) : ℚ := roundToFloat (a - b)

/-- The `float` product `a * b`. -/
def floatMul (a b : ℚ) : ℚ := roundToFloat (a * b)

/-- The `float` quotient `a / b` for a divisor `b` that is not zero (the code divides by
counts of at least one only); the quotient of an infinity by a positive number is that
infinity. -/
def floatDiv (a b : ℚ) : ℚ :=
  if FLT_INFINITY ≤ a ∧ 0 < b then FLT_INFINITY
  else if a ≤ -FLT_INFINITY ∧ 0 < b then -FLT_INFINITY
  else roundToFloat (a / b)

/-- Position vector with the three coordinates of `pandora::CartesianVector`. -/
structure CartesianVector where
  x : ℚ
  y : ℚ
  z : ℚ
  deriving DecidableEq

/-- Difference of two position vectors (`operator-`), component by component in `float`. -/
def CartesianVector.sub (a b : CartesianVector) : CartesianVector :=
  ⟨floatSub a.x b.x, floatSub a.y b.y, floatSub a.z b.z⟩

/-- Squared magnitude of a vector (`GetMagnitudeSquared`): the `float` expression
`x * x + y * y + z * z`, evaluated from left to right. -/
def CartesianVector.GetMagnitudeSquared (a : CartesianVector) : ℚ :=
  floatAdd (floatAdd (floatMul a.x a.x) (floatMul a.y a.y)) (floatMul a.z a.z)

/-- A calorimeter hit. `id` stands for the address of the object; `volumeIds` is
`some (tpcVolume, subVolume)` exactly when the hit is a `LArCaloHit` (the `dynamic_cast`
succeeds). -/
structure CaloHit where
  id : Nat
  hitType : HitType
  position : CartesianVector
  volumeIds : Option (Nat × Nat)
  deriving DecidableEq

/-- A cluster. `hitType` is the value of `GetClusterHitType`, `lengthSquared` the value of
`LArClusterHelper::GetLengthSquared`, `orderedCaloHitList` the flattened ordered hit list. -/
structure Cluster where
  id : Nat
  hitType : HitType
  lengthSquared : ℚ
  orderedCaloHitList : List CaloHit
  deriving DecidableEq

/-- A reconstructed particle-flow object owning a list of clusters. -/
structure ParticleFlowObject where
  id : Nat
  clusterList : List Cluster
  deriving DecidableEq

/-- A truth particle, identified by its address. -/
abbrev MCParticle := Nat

/-! ## Association lists standing for the map containers -/

/-- An association list standing for a map container. -/
abbrev Map (α β : Type) := List (α × β)

/-- The keys of a map in enumeration order. -/
def mapKeys {α β : Type} (m : Map α β) : List α := m.map Prod.fst

/-- Lookup of a key (`find`): the value of the first entry with that key. -/
def mapFind {α β : Type} [DecidableEq α] : Map α β → α → Option β
  | [], _ => none
  | (k', v) :: rest, k => if k' = k then some v else mapFind rest k

/-- Update in place of `m[k]`: the entry of `k` becomes `f` of its value; an absent key is
first created with the value `d` (the default-constructed value of `operator[]`). -/
def mapUpdate {α β : Type} [DecidableEq α] : Map α β → α → (β → β) → β → Map α β
  | [], k, f, d => [(k, f d)]
  | (k', v) :: rest, k, f, d =>
    if k' = k then (k', f v) :: rest else (k', v) :: mapUpdate rest k f d

/-- Appends `x` to the list stored under `k` (`m[k].push_back(x)`). -/
def mapPushBack {α γ : Type} [DecidableEq α] (m : Map α (List γ)) (k : α) (x : γ) :
    Map α (List γ) :=
  mapUpdate m k (fun l => l ++ [x]) []

/-- Assignment `m[k] = v`. -/
def mapAssign {α β : Type} [DecidableEq α] (m : Map α β) (k : α) (v : β) : Map α β :=
  mapUpdate m k (fun _ => v) v

/-- Insertion `m.insert(value_type(k, v))`: an existing entry of `k` is kept. -/
def mapInsert {α β : Type} [DecidableEq α] (m : Map α β) (k : α) (v : β) : Map α β :=
  mapUpdate m k (fun old => old) v

/-- Access `m.at(k)` for a list-valued map. The callers only pass keys taken from `m`
itself, so the absent case (an out-of-range exception) is never reached; it yields `[]`. -/
def mapAt {α γ : Type} [DecidableEq α] (m : Map α (List γ)) (k : α) : List γ :=
  (mapFind m k).getD []

/-- Sorting of a list with a comparator (`std::list::sort`, a stable sort): an element is
placed before the first element that does not compare less than it. -/
def listSort {α : Type} (comp : α → α → Bool) (l : List α) : List α :=
  List.insertionSort (fun a b => ¬ comp b a = true) l

/-! ## LArMonitoringHelper -/

/-- Map from a reconstructed object to the hits it contributed. -/
abbrev PfoContributionMap := Map ParticleFlowObject (List CaloHit)

/-- Map from a truth particle to the hits it contributed. -/
abbrev MCContributionMap := Map MCParticle (List CaloHit)

/-- Map from a truth particle to a reconstructed object. -/
abbrev MCToPfoMap := Map MCParticle ParticleFlowObject

/-- Map from a hit to a truth particle. -/
abbrev CaloHitToMCMap := Map CaloHit MCParticle

/-- Map from a truth particle to one truth particle (its primary ancestor). -/
abbrev MCRelationMap := Map MCParticle MCParticle

/-- Three-level table: truth particle, candidate object, contributed hits. -/
abbrev MCToPfoMatchingMap := Map MCParticle PfoContributionMap

/-- Inner loop of `GetMCParticleToPfoMatches` (lines 223-238): the hits of one object. -/
def fillPfoHits (caloHitSet : List CaloHit) (hitToPrimaryMCMap : CaloHitToMCMap)
    (pPfo : ParticleFlowObject) :
    List CaloHit → MCToPfoMatchingMap → Except StatusCode MCToPfoMatchingMap
  | [], full => Except.ok full
  | pCaloHit :: rest, full =>
    if pCaloHit.hitType = HitType.TPC_3D then
      Except.error StatusCode.STATUS_CODE_INVALID_PARAMETER
    else if pCaloHit ∉ caloHitSet then
      fillPfoHits caloHitSet hitToPrimaryMCMap pPfo rest full
    else
      match mapFind hitToPrimaryMCMap pCaloHit with
      | none => fillPfoHits caloHitSet hitToPrimaryMCMap pPfo rest full
      | some pPrimaryParticle =>
        fillPfoHits caloHitSet hitToPrimaryMCMap pPfo rest
          (mapUpdate full pPrimaryParticle (fun inner => mapPushBack inner pPfo pCaloHit) [])

/-- Outer loop of `GetMCParticleToPfoMatches` (lines 219-239) over the sorted objects. -/
def fillMatchingMap (caloHitSet : List CaloHit) (pfoToHitListMap : PfoContributionMap)
    (hitToPrimaryMCMap : CaloHitToMCMap) :
    List ParticleFlowObject → MCToPfoMatchingMap → Except StatusCode MCToPfoMatchingMap
  | [], full => Except.ok full
  | pPfo :: rest, full =>
    match fillPfoHits caloHitSet hitToPrimaryMCMap pPfo (mapAt pfoToHitListMap pPfo) full with
    | Except.error e => Except.error e
    | Except.ok full1 => fillMatchingMap caloHitSet pfoToHitListMap hitToPrimaryMCMap rest full1

/-- Best-match scan of `GetMCParticleToPfoMatches` (lines 255-264) for one truth particle:
the state is `(pBestMatchPfo, bestMatchCaloHitList)`. -/
def selectBestMatch (pfoContributionMap : PfoContributionMap) :
    List ParticleFlowObject → Option ParticleFlowObject × List CaloHit →
      Option ParticleFlowObject × List CaloHit
  | [], st => st
  | pPfo :: rest, st =>
    if (mapAt pfoContributionMap pPfo).length > st.2.length then
      selectBestMatch pfoContributionMap rest (some pPfo, mapAt pfoContributionMap pPfo)
    else
      selectBestMatch pfoContributionMap rest st

/-- Best match of one truth particle: its candidates are sorted with `SortByNHits` and
scanned, starting from a null object and an empty hit list (lines 247-264). -/
def bestMatchOf (SortByNHits : ParticleFlowObject → ParticleFlowObject → Bool)
    (mcToFullPfoMatchingMap : MCToPfoMatchingMap) (pPrimaryParticle : MCParticle) :
    Option ParticleFlowObject × List CaloHit :=
  selectBestMatch ((mapFind mcToFullPfoMatchingMap pPrimaryParticle).getD [])
    (listSort SortByNHits (mapKeys ((mapFind mcToFullPfoMatchingMap pPrimaryParticle).getD [])))
    (none, [])

/-- Resolution loop of `GetMCParticleToPfoMatches` (lines 245-271) over the sorted truth
particles; the state is `(mcToBestPfoMap, mcToBestPfoHitsMap)`. -/
def resolveBestMatches (SortByNHits : ParticleFlowObject → ParticleFlowObject → Bool)
    (mcToFullPfoMatchingMap : MCToPfoMatchingMap) :
    List MCParticle → MCToPfoMap × MCContributionMap → MCToPfoMap × MCContributionMap
  | [], out => out
  | pPrimaryParticle :: rest, out =>
    match bestMatchOf SortByNHits mcToFullPfoMatchingMap pPrimaryParticle with
    | (some pBestMatchPfo, bestMatchCaloHitList) =>
      resolveBestMatches SortByNHits mcToFullPfoMatchingMap rest
        (mapAssign out.1 pPrimaryParticle pBestMatchPfo,
          mapAssign out.2 pPrimaryParticle bestMatchCaloHitList)
    | (none, _) => resolveBestMatches SortByNHits mcToFullPfoMatchingMap rest out

/-- The outputs of `GetMCParticleToPfoMatches`. -/
structure PfoMatches where
  mcToBestPfoMap : MCToPfoMap
  mcToBestPfoHitsMap : MCContributionMap
  mcToFullPfoMatchingMap : MCToPfoMatchingMap
  deriving DecidableEq

/-- `LArMonitoringHelper::GetMCParticleToPfoMatches` (lines 209-272). The comparators
`SortByNHits` and `SortByMomentum` are collaborators; the last argument holds the three
output maps as the caller passes them in. -/
def GetMCParticleToPfoMatches (SortByNHits : ParticleFlowObject → ParticleFlowObject → Bool)
    (SortByMomentum : MCParticle → MCParticle → Bool) (pCaloHitList : List CaloHit)
    (pfoToHitListMap : PfoContributionMap) (hitToPrimaryMCMap : CaloHitToMCMap)
    (out : PfoMatches) : Except StatusCode PfoMatches :=
  match fillMatchingMap pCaloHitList pfoToHitListMap hitToPrimaryMCMap
      (listSort SortByNHits (mapKeys pfoToHitListMap)) out.mcToFullPfoMatchingMap with
  | Except.error e => Except.error e
  | Except.ok full =>
    let res := resolveBestMatches SortByNHits full (listSort SortByMomentum (mapKeys full))
      (out.mcToBestPfoMap, out.mcToBestPfoHitsMap)
    Except.ok ⟨res.1, res.2, full⟩

/-- The empty outputs a caller starts from. -/
def PfoMatches.empty : PfoMatches := ⟨[], [], []⟩

/-- `LArMonitoringHelper::GetMCParticleToCaloHitMatches` (lines 128-152), as a loop over the
hit list with the two output maps `(hitToPrimaryMCMap, mcToTrueHitListMap)` as state.
`GetMainMCParticle` is the dominant-contributor lookup `MCParticleHelper::GetMainMCParticle`,
which returns a truth particle or throws a status code. The `catch` block rethrows only
`STATUS_CODE_FAILURE`; after any other status the loop goes on with the next hit. -/
def GetMCParticleToCaloHitMatches (GetMainMCParticle : CaloHit → Except StatusCode MCParticle)
    (mcToPrimaryMCMap : MCRelationMap) :
    List CaloHit → CaloHitToMCMap × MCContributionMap →
      Except StatusCode (CaloHitToMCMap × MCContributionMap)
  | [], out => Except.ok out
  | pCaloHit :: rest, out =>
    match GetMainMCParticle pCaloHit with
    | Except.error statusCode =>
      if StatusCode.STATUS_CODE_FAILURE = statusCode then
        Except.error statusCode
      else
        GetMCParticleToCaloHitMatches GetMainMCParticle mcToPrimaryMCMap rest out
    | Except.ok pHitParticle =>
      match mapFind mcToPrimaryMCMap pHitParticle with
      | none => GetMCParticleToCaloHitMatches GetMainMCParticle mcToPrimaryMCMap rest out
      | some pPrimaryParticle =>
        GetMCParticleToCaloHitMatches GetMainMCParticle mcToPrimaryMCMap rest
          (mapAssign out.1 pCaloHit pPrimaryParticle,
            mapPushBack out.2 pPrimaryParticle pCaloHit)

/-- An entry of a contribution map copied into the vector that is sorted. -/
abbrev MCParticleCaloHitPair := MCParticle × List CaloHit

/-- The comparator of `GetOrderedMCParticleVector` (lines 329-336): more hits first, then
the order of the addresses of the truth particles. -/
def sortByHitsDescending (a b : MCParticleCaloHitPair) : Bool :=
  if a.2.length ≠ b.2.length then decide (a.2.length > b.2.length) else decide (a.1 < b.1)

/-- `std::unique`: of every run of equal adjacent elements only one element is kept. -/
def listUnique {α : Type} [DecidableEq α] : List α → List α
  | [] => []
  | [a] => [a]
  | a :: b :: rest => if a = b then listUnique (b :: rest) else a :: listUnique (b :: rest)

/-- Loop of `GetOrderedMCParticleVector` (lines 320-345): the keys of each map, sorted, are
appended to the output vector. -/
def appendOrderedMCParticles :
    List MCContributionMap → List MCParticle → List MCParticle
  | [], orderedMCParticleVector => orderedMCParticleVector
  | mcParticleToGoodHitsMap :: rest, orderedMCParticleVector =>
    appendOrderedMCParticles rest
      (orderedMCParticleVector ++
        (listSort sortByHitsDescending mcParticleToGoodHitsMap).map Prod.fst)

/-- `LArMonitoringHelper::GetOrderedMCParticleVector` (lines 318-351). The final check
compares the length left by `std::unique` with the length of the vector. -/
def GetOrderedMCParticleVector (selectedMCParticleToGoodHitsMaps : List MCContributionMap)
    (orderedMCParticleVector : List MCParticle) : Except StatusCode (List MCParticle) :=
  if (listUnique (appendOrderedMCParticles selectedMCParticleToGoodHitsMaps
        orderedMCParticleVector)).length ≠
      (appendOrderedMCParticles selectedMCParticleToGoodHitsMaps
        orderedMCParticleVector).length then
    Except.error StatusCode.STATUS_CODE_ALREADY_PRESENT
  else
    Except.ok (appendOrderedMCParticles selectedMCParticleToGoodHitsMaps orderedMCParticleVector)

/-- The primary truth particle recorded for a hit by `GetMCParticleToCaloHitMatches` (lines
135-142): the primary-ancestor entry of the hit's dominant truth particle, if the lookup
succeeds and the entry exists. -/
def resolvePrimary (GetMainMCParticle : CaloHit → Except StatusCode MCParticle)
    (mcToPrimaryMCMap : MCRelationMap) (pCaloHit : CaloHit) : Option MCParticle :=
  match GetMainMCParticle pCaloHit with
  | Except.error _ => none
  | Except.ok pHitParticle => mapFind mcToPrimaryMCMap pHitParticle

/-- The collaborators of `LArMonitoringHelper` on reconstructed objects, from `LArPfoHelper`
and the object itself: the final-state and neutrino tests, the parent and daughter lists, the
two overloads of `GetAllDownstreamPfos` (each takes the output list and returns it extended)
and the 2-D clusters of an object (`GetTwoDClusterList` called on an empty list). -/
structure PfoHelpers where
  IsFinalState : ParticleFlowObject → Bool
  IsNeutrino : ParticleFlowObject → Bool
  GetParentPfoList : ParticleFlowObject → List ParticleFlowObject
  GetDaughterPfoList : ParticleFlowObject → List ParticleFlowObject
  GetAllDownstreamPfos : List ParticleFlowObject → List ParticleFlowObject →
    List ParticleFlowObject
  GetAllDownstreamPfosOf : ParticleFlowObject → List ParticleFlowObject →
    List ParticleFlowObject
  GetTwoDClusterList : ParticleFlowObject → List Cluster

/-- First branch of `ExtractTargetPfos` (lines 35-45): the loop over the input objects when
`primaryPfosOnly` is set. -/
def extractPrimaryPfos (helpers : PfoHelpers) :
    List ParticleFlowObject → List ParticleFlowObject → List ParticleFlowObject
  | [], outputPfoList => outputPfoList
  | pPfo :: rest, outputPfoList =>
    if helpers.IsFinalState pPfo = true then
      extractPrimaryPfos helpers rest (outputPfoList ++ [pPfo])
    else if (helpers.GetParentPfoList pPfo).isEmpty = true ∧ helpers.IsNeutrino pPfo = true then
      extractPrimaryPfos helpers rest (outputPfoList ++ helpers.GetDaughterPfoList pPfo)
    else
      extractPrimaryPfos helpers rest outputPfoList

/-- Second loop of `ExtractTargetPfos` (lines 51-60): for every neutrino-type object of the
input list, its first occurrence in the output list is erased. -/
def eraseInputNeutrinos (helpers : PfoHelpers) :
    List ParticleFlowObject → List ParticleFlowObject → List ParticleFlowObject
  | [], outputPfoList => outputPfoList
  | pPfo :: rest, outputPfoList =>
    if helpers.IsNeutrino pPfo = true then
      eraseInputNeutrinos helpers rest (outputPfoList.erase pPfo)
    else
      eraseInputNeutrinos helpers rest outputPfoList

/-- `LArMonitoringHelper::ExtractTargetPfos` (lines 31-62). -/
def ExtractTargetPfos (helpers : PfoHelpers) (inputPfoList : List ParticleFlowObject)
    (primaryPfosOnly : Bool) (outputPfoList : List ParticleFlowObject) :
    List ParticleFlowObject :=
  if primaryPfosOnly = true then
    extractPrimaryPfos helpers inputPfoList outputPfoList
  else
    eraseInputNeutrinos helpers inputPfoList
      (helpers.GetAllDownstreamPfos inputPfoList outputPfoList)

/-- Loop of `CollectCaloHits` for one object (lines 281-288) over its 2-D clusters.
`GetIsolatedCaloHitList` gives the isolated hits of a cluster. -/
def collectClusterHits (GetIsolatedCaloHitList : Cluster → List CaloHit) :
    List Cluster → List CaloHit → Except StatusCode (List CaloHit)
  | [], caloHitList => Except.ok caloHitList
  | pCluster :: rest, caloHitList =>
    if HitType.TPC_3D = pCluster.hitType then
      Except.error StatusCode.STATUS_CODE_FAILURE
    else
      collectClusterHits GetIsolatedCaloHitList rest
        (caloHitList ++ pCluster.orderedCaloHitList ++ GetIsolatedCaloHitList pCluster)

/-- `LArMonitoringHelper::CollectCaloHits` for a list of objects (lines 293-299), each
object handled as in lines 276-289. -/
def CollectCaloHits (helpers : PfoHelpers) (GetIsolatedCaloHitList : Cluster → List CaloHit) :
    List ParticleFlowObject → List CaloHit → Except StatusCode (List CaloHit)
  | [], caloHitList => Except.ok caloHitList
  | pPfo :: rest, caloHitList =>
    match collectClusterHits GetIsolatedCaloHitList (helpers.GetTwoDClusterList pPfo)
        caloHitList with
    | Except.error e => Except.error e
    | Except.ok caloHitList1 =>
      CollectCaloHits helpers GetIsolatedCaloHitList rest caloHitList1

/-- Hit loop of `GetNeutrinoMatches` (lines 84-101) filling `inputContributionMap`.
`GetParentMCParticle` and `IsNeutrinoMC` are `LArMCParticleHelper::GetParentMCParticle` and
`LArMCParticleHelper::IsNeutrino`. -/
def fillNeutrinoContributions (caloHitSet : List CaloHit) (hitToPrimaryMCMap : CaloHitToMCMap)
    (GetParentMCParticle : MCParticle → MCParticle) (IsNeutrinoMC : MCParticle → Bool) :
    List CaloHit → MCContributionMap → MCContributionMap
  | [], inputContributionMap => inputContributionMap
  | pCaloHit :: rest, inputContributionMap =>
    if pCaloHit ∉ caloHitSet then
      fillNeutrinoContributions caloHitSet hitToPrimaryMCMap GetParentMCParticle IsNeutrinoMC
        rest inputContributionMap
    else
      match mapFind hitToPrimaryMCMap pCaloHit with
      | none =>
        fillNeutrinoContributions caloHitSet hitToPrimaryMCMap GetParentMCParticle IsNeutrinoMC
          rest inputContributionMap
      | some pFinalStateParticle =>
        if IsNeutrinoMC (GetParentMCParticle pFinalStateParticle) = false then
          fillNeutrinoContributions caloHitSet hitToPrimaryMCMap GetParentMCParticle
            IsNeutrinoMC rest inputContributionMap
        else
          fillNeutrinoContributions caloHitSet hitToPrimaryMCMap GetParentMCParticle
            IsNeutrinoMC rest
            (mapPushBack inputContributionMap (GetParentMCParticle pFinalStateParticle)
              pCaloHit)

/-- Scan of `GetNeutrinoMatches` for the biggest contributor (lines 110-119); the state is
`(biggestContributor, biggestHitList)`. -/
def selectBiggestContributor (inputContributionMap : MCContributionMap) :
    List MCParticle → Option MCParticle × List CaloHit → Option MCParticle × List CaloHit
  | [], st => st
  | pMCParticle :: rest, st =>
    if (mapAt inputContributionMap pMCParticle).length > st.2.length then
      selectBiggestContributor inputContributionMap rest
        (some pMCParticle, mapAt inputContributionMap pMCParticle)
    else
      selectBiggestContributor inputContributionMap rest st

/-- `LArMonitoringHelper::GetNeutrinoMatches` (lines 66-124) as a loop over the list of
reconstructed neutrinos, with the output map as state. -/
def GetNeutrinoMatches (helpers : PfoHelpers) (GetIsolatedCaloHitList : Cluster → List CaloHit)
    (GetParentMCParticle : MCParticle → MCParticle) (IsNeutrinoMC : MCParticle → Bool)
    (SortByMomentum : MCParticle → MCParticle → Bool) (pCaloHitList : List CaloHit)
    (hitToPrimaryMCMap : CaloHitToMCMap) :
    List ParticleFlowObject → MCToPfoMap → Except StatusCode MCToPfoMap
  | [], outputPrimaryMap => Except.ok outputPrimaryMap
  | pNeutrinoPfo :: rest, outputPrimaryMap =>
    if helpers.IsNeutrino pNeutrinoPfo = false then
      Except.error StatusCode.STATUS_CODE_INVALID_PARAMETER
    else
      match CollectCaloHits helpers GetIsolatedCaloHitList
          (helpers.GetAllDownstreamPfosOf pNeutrinoPfo []) [] with
      | Except.error e => Except.error e
      | Except.ok clusterHits =>
        match (selectBiggestContributor
            (fillNeutrinoContributions pCaloHitList hitToPrimaryMCMap GetParentMCParticle
              IsNeutrinoMC clusterHits [])
            (listSort SortByMomentum (mapKeys
              (fillNeutrinoContributions pCaloHitList hitToPrimaryMCMap GetParentMCParticle
                IsNeutrinoMC clusterHits [])))
            (none, [])).1 with
        | some biggestContributor =>
          GetNeutrinoMatches helpers GetIsolatedCaloHitList GetParentMCParticle IsNeutrinoMC
            SortByMomentum pCaloHitList hitToPrimaryMCMap rest
            (mapAssign outputPrimaryMap biggestContributor pNeutrinoPfo)
        | none =>
          GetNeutrinoMatches helpers GetIsolatedCaloHitList GetParentMCParticle IsNeutrinoMC
            SortByMomentum pCaloHitList hitToPrimaryMCMap rest outputPrimaryMap

/-- The neutrino-type truth particle under which the hit loop of `GetNeutrinoMatches`
records a hit (lines 86-100), if the hit survives the three tests. -/
def neutrinoOfHit (caloHitSet : List CaloHit) (hitToPrimaryMCMap : CaloHitToMCMap)
    (GetParentMCParticle : MCParticle → MCParticle) (IsNeutrinoMC : MCParticle → Bool)
    (pCaloHit : CaloHit) : Option MCParticle :=
  if pCaloHit ∉ caloHitSet then none
  else
    match mapFind hitToPrimaryMCMap pCaloHit with
    | none => none
    | some pFinalStateParticle =>
      if IsNeutrinoMC (GetParentMCParticle pFinalStateParticle) = false then none
      else some (GetParentMCParticle pFinalStateParticle)

/-- The value left in `biggestContributor` by one iteration of the loop of
`GetNeutrinoMatches` (lines 75-119) for the object `pNeutrinoPfo`: the truth neutrino found
for the object, `none` for the null pointer (and when the hit collection raises, in which
case line 121 is not reached). -/
def biggestContributorOf (helpers : PfoHelpers)
    (GetIsolatedCaloHitList : Cluster → List CaloHit)
    (GetParentMCParticle : MCParticle → MCParticle) (IsNeutrinoMC : MCParticle → Bool)
    (SortByMomentum : MCParticle → MCParticle → Bool) (pCaloHitList : List CaloHit)
    (hitToPrimaryMCMap : CaloHitToMCMap) (pNeutrinoPfo : ParticleFlowObject) :
    Option MCParticle :=
  match CollectCaloHits helpers GetIsolatedCaloHitList
      (helpers.GetAllDownstreamPfosOf pNeutrinoPfo []) [] with
  | Except.error _ => none
  | Except.ok clusterHits =>
    (selectBiggestContributor
      (fillNeutrinoContributions pCaloHitList hitToPrimaryMCMap GetParentMCParticle
        IsNeutrinoMC clusterHits [])
      (listSort SortByMomentum (mapKeys
        (fillNeutrinoContributions pCaloHitList hitToPrimaryMCMap GetParentMCParticle
          IsNeutrinoMC clusterHits [])))
      (none, [])).1

/-- The assignment of line 121-122 for one object whose biggest contributor is `key`. -/
def recordNeutrinoMatch (key : ParticleFlowObject → Option MCParticle)
    (outputPrimaryMap : MCToPfoMap) (pNeutrinoPfo : ParticleFlowObject) : MCToPfoMap :=
  match key pNeutrinoPfo with
  | some biggestContributor => mapAssign outputPrimaryMap biggestContributor pNeutrinoPfo
  | none => outputPrimaryMap

/-! ## DeltaRayIdentificationAlgorithm -/

/-- Map from a daughter object to its candidate parent. -/
abbrev PfoAssociationMap := Map ParticleFlowObject ParticleFlowObject

/-- State of the cluster loops of `IsAssociated`. -/
structure ViewSums where
  sumViews : ℚ
  sumDeltaSquared : ℚ
  foundMatch : Bool
  deriving DecidableEq

/-- The value `deltaSquared` of lines 117-118 for a parent cluster and a daughter cluster:
the `float` square of the closest distance of the two clusters. -/
def deltaSquared (GetClosestDistance : Cluster → Cluster → ℚ)
    (pParentCluster pDaughterCluster : Cluster) : ℚ :=
  floatMul (GetClosestDistance pParentCluster pDaughterCluster)
    (GetClosestDistance pParentCluster pDaughterCluster)

/-- Inner loop of `IsAssociated` (lines 109-128) over the clusters of the parent, for one
daughter cluster. A `break` leaves the loop with the state reached so far.
`GetClosestDistance` is the geometry query `LArClusterHelper::GetClosestDistance`. The
square of the distance, the product `5.f * m_maxDisplacementSquared` and the running sum
`sumDeltaSquared` are `float` operations. -/
def matchParentClusters (m_maxDisplacementSquared : ℚ)
    (GetClosestDistance : Cluster → Cluster → ℚ) (pDaughterCluster : Cluster) :
    List Cluster → ViewSums → ViewSums
  | [], st => st
  | pParentCluster :: rest, st =>
    if pDaughterCluster.hitType ≠ pParentCluster.hitType then
      matchParentClusters m_maxDisplacementSquared GetClosestDistance pDaughterCluster rest st
    else if pDaughterCluster.lengthSquared > (1 / 2) * pParentCluster.lengthSquared then
      st
    else if deltaSquared GetClosestDistance pParentCluster pDaughterCluster >
        floatMul 5 m_maxDisplacementSquared then
      st
    else
      matchParentClusters m_maxDisplacementSquared GetClosestDistance pDaughterCluster rest
        ⟨st.sumViews + 1,
          floatAdd st.sumDeltaSquared
            (deltaSquared GetClosestDistance pParentCluster pDaughterCluster), true⟩

/-- Outer loop of `IsAssociated` (lines 99-132) over the clusters of the daughter; `none`
is the early `return false` of a daughter cluster without a match. -/
def matchDaughterClusters (m_maxDisplacementSquared : ℚ)
    (GetClosestDistance : Cluster → Cluster → ℚ) (parentList : List Cluster) :
    List Cluster → ViewSums → Option ViewSums
  | [], st => some st
  | pDaughterCluster :: rest, st =>
    if pDaughterCluster.hitType = HitType.TPC_3D then
      matchDaughterClusters m_maxDisplacementSquared GetClosestDistance parentList rest st
    else if (matchParentClusters m_maxDisplacementSquared GetClosestDistance pDaughterCluster
        parentList ⟨st.sumViews, st.sumDeltaSquared, false⟩).foundMatch = false then
      none
    else
      matchDaughterClusters m_maxDisplacementSquared GetClosestDistance parentList rest
        (matchParentClusters m_maxDisplacementSquared GetClosestDistance pDaughterCluster
          parentList ⟨st.sumViews, st.sumDeltaSquared, false⟩)

/-- `DeltaRayIdentificationAlgorithm::IsAssociated` (lines 85-150): the result is the pair
of the returned flag and of the value left in `displacementSquared`. The mean
`sumDeltaSquared / sumViews` is a `float` quotient. -/
def IsAssociated (m_maxDisplacementSquared : ℚ) (GetClosestDistance : Cluster → Cluster → ℚ)
    (pDaughterPfo pParentPfo : ParticleFlowObject) : Except StatusCode (Bool × ℚ) :=
  if pDaughterPfo = pParentPfo then
    Except.ok (false, FLT_MAX)
  else
    match matchDaughterClusters m_maxDisplacementSquared GetClosestDistance
        pParentPfo.clusterList pDaughterPfo.clusterList ⟨0, 0, false⟩ with
    | none => Except.ok (false, FLT_MAX)
    | some st =>
      if st.sumViews < FLT_EPSILON then
        Except.error StatusCode.STATUS_CODE_FAILURE
      else if floatDiv st.sumDeltaSquared st.sumViews > m_maxDisplacementSquared then
        Except.ok (false, FLT_MAX)
      else
        Except.ok (true, floatDiv st.sumDeltaSquared st.sumViews)

/-- Inner loop of `BuildAssociationMap` (lines 60-76) over the candidate parents of one
daughter; the state is `(pBestParentPfo, bestDisplacement)`. -/
def findBestParent (m_maxDisplacementSquared : ℚ) (GetClosestDistance : Cluster → Cluster → ℚ)
    (pDaughterPfo : ParticleFlowObject) :
    List ParticleFlowObject → Option ParticleFlowObject × ℚ →
      Except StatusCode (Option ParticleFlowObject × ℚ)
  | [], st => Except.ok st
  | pThisParentPfo :: rest, st =>
    if pDaughterPfo = pThisParentPfo then
      findBestParent m_maxDisplacementSquared GetClosestDistance pDaughterPfo rest st
    else
      match IsAssociated m_maxDisplacementSquared GetClosestDistance pDaughterPfo
          pThisParentPfo with
      | Except.error e => Except.error e
      | Except.ok (isAssociated, thisDisplacement) =>
        if isAssociated = false then
          findBestParent m_maxDisplacementSquared GetClosestDistance pDaughterPfo rest st
        else if thisDisplacement < st.2 then
          findBestParent m_maxDisplacementSquared GetClosestDistance pDaughterPfo rest
            (some pThisParentPfo, thisDisplacement)
        else
          findBestParent m_maxDisplacementSquared GetClosestDistance pDaughterPfo rest st

/-- Outer loop of `BuildAssociationMap` (lines 54-80) over the daughters. -/
def buildAssociations (m_maxDisplacementSquared : ℚ)
    (GetClosestDistance : Cluster → Cluster → ℚ) (pPfoList : List ParticleFlowObject) :
    List ParticleFlowObject → PfoAssociationMap → Except StatusCode PfoAssociationMap
  | [], pfoAssociationMap => Except.ok pfoAssociationMap
  | pDaughterPfo :: rest, pfoAssociationMap =>
    match findBestParent m_maxDisplacementSquared GetClosestDistance pDaughterPfo pPfoList
        (none, FLT_MAX) with
    | Except.error e => Except.error e
    | Except.ok (some pBestParentPfo, _) =>
      buildAssociations m_maxDisplacementSquared GetClosestDistance pPfoList rest
        (mapInsert pfoAssociationMap pDaughterPfo pBestParentPfo)
    | Except.ok (none, _) =>
      buildAssociations m_maxDisplacementSquared GetClosestDistance pPfoList rest
        pfoAssociationMap

/-- `DeltaRayIdentificationAlgorithm::BuildAssociationMap` (lines 52-81). -/
def BuildAssociationMap (m_maxDisplacementSquared : ℚ)
    (GetClosestDistance : Cluster → Cluster → ℚ) (pPfoList : List ParticleFlowObject)
    (pfoAssociationMap : PfoAssociationMap) : Except StatusCode PfoAssociationMap :=
  buildAssociations m_maxDisplacementSquared GetClosestDistance pPfoList pPfoList
    pfoAssociationMap

/-- The `while(1)` loop of `GetParent` (lines 179-187): `pDaughterPfo` is the node the walk
stands on, `pParentPfo` the last parent seen (`none` is the null pointer). The result is
`none` when the fuel is used up before the loop is left. -/
def walkToParent (pfoAssociationMap : PfoAssociationMap) :
    Nat → ParticleFlowObject → Option ParticleFlowObject → Option (Option ParticleFlowObject)
  | 0, _, _ => none
  | fuel + 1, pDaughterPfo, pParentPfo =>
    match mapFind pfoAssociationMap pDaughterPfo with
    | none => some pParentPfo
    | some parent => walkToParent pfoAssociationMap fuel parent (some parent)

/-- `DeltaRayIdentificationAlgorithm::GetParent` (lines 173-190) with a bound on the number
of loop iterations. -/
def GetParent (fuel : Nat) (pfoAssociationMap : PfoAssociationMap) (pPfo : ParticleFlowObject) :
    Option (Option ParticleFlowObject) :=
  walkToParent pfoAssociationMap fuel pPfo none

/-- What `BuildParentDaughterLinks` has done so far: the committed (parent, daughter)
relationships in the order of the calls, and the output list. -/
structure LinkState where
  links : List (ParticleFlowObject × ParticleFlowObject)
  outputPfoList : List ParticleFlowObject
  deriving DecidableEq

/-- Insertion into a `std::set` kept as a list: an element already present is not added. -/
def setInsert {α : Type} [DecidableEq α] (s : List α) (x : α) : List α :=
  if x ∈ s then s else s ++ [x]

/-- Loop of `BuildParentDaughterLinks` (lines 156-168) over the entries of the map.
`SetPfoParentDaughterRelationship` is the status returned by the framework call. The result
is `none` when a call of `GetParent` does not return. -/
def linkEntries (SetPfoParentDaughterRelationship :
      ParticleFlowObject → ParticleFlowObject → StatusCode)
    (fuel : Nat) (pfoAssociationMap : PfoAssociationMap) :
    List (ParticleFlowObject × ParticleFlowObject) → LinkState →
      Option (Except StatusCode LinkState)
  | [], st => some (Except.ok st)
  | entry :: rest, st =>
    match GetParent fuel pfoAssociationMap entry.1 with
    | none => none
    | some none => some (Except.error StatusCode.STATUS_CODE_FAILURE)
    | some (some pParentPfo) =>
      if SetPfoParentDaughterRelationship pParentPfo entry.1 ≠ StatusCode.STATUS_CODE_SUCCESS then
        some (Except.error (SetPfoParentDaughterRelationship pParentPfo entry.1))
      else
        linkEntries SetPfoParentDaughterRelationship fuel pfoAssociationMap rest
          ⟨st.links ++ [(pParentPfo, entry.1)], setInsert st.outputPfoList entry.1⟩

/-- `DeltaRayIdentificationAlgorithm::BuildParentDaughterLinks` (lines 154-169). -/
def BuildParentDaughterLinks (SetPfoParentDaughterRelationship :
      ParticleFlowObject → ParticleFlowObject → StatusCode)
    (fuel : Nat) (pfoAssociationMap : PfoAssociationMap) (st : LinkState) :
    Option (Except StatusCode LinkState) :=
  linkEntries SetPfoParentDaughterRelationship fuel pfoAssociationMap pfoAssociationMap st

/-- The node reached from `p` after following the map `n` times, if the walk gets that far. -/
def followChain (pfoAssociationMap : PfoAssociationMap) :
    Nat → ParticleFlowObject → Option ParticleFlowObject
  | 0, p => some p
  | n + 1, p =>
    match mapFind pfoAssociationMap p with
    | none => none
    | some parent => followChain pfoAssociationMap n parent

/-! ## TrackConsolidationAlgorithm -/

/-- Map from a cluster to a list of hits. -/
abbrev ClusterToHitMap := Map Cluster (List CaloHit)

/-- The sliding linear fit of a track cluster, as far as `GetReclusteredHits` uses it:
the cluster, the projection of a position onto the fitted trajectory (`none` when
`GetGlobalFitProjection` does not return `STATUS_CODE_SUCCESS`), and the local coordinates
`(rL, rT)` of a position. -/
structure TwoDSlidingFitResult where
  GetCluster : Cluster
  GetGlobalFitProjection : CartesianVector → Option CartesianVector
  GetLocalPosition : CartesianVector → ℚ × ℚ

/-- The settings of `TrackConsolidationAlgorithm`. -/
structure TrackConsolidationSettings where
  m_maxTransverseDisplacement : ℚ
  m_minAssociatedSpan : ℚ
  m_minAssociatedFraction : ℚ
  m_checkInterTPCVolumeAssociations : Bool

/-- The settings set by the constructor (lines 19-25). -/
def TrackConsolidationSettings.default : TrackConsolidationSettings := ⟨1, 1, 1 / 2, false⟩

/-- `Cluster::GetNCaloHits`: the number of hits of the ordered hit list. -/
def Cluster.GetNCaloHits (c : Cluster) : Nat := c.orderedCaloHitList.length

/-- `TrackConsolidationAlgorithm::CheckInterTPCVolumeAssociations` (lines 140-175). -/
def CheckInterTPCVolumeAssociations (pCluster1 pCluster2 : Cluster) : Bool :=
  match pCluster1.orderedCaloHitList with
  | [] => true
  | pCaloHit1 :: _ =>
    match pCaloHit1.volumeIds with
    | none => true
    | some (clusterTpcVolume1, clusterSubVolume1) =>
      match pCluster2.orderedCaloHitList with
      | [] => true
      | pCaloHit2 :: _ =>
        match pCaloHit2.volumeIds with
        | none => true
        | some (clusterTpcVolume2, clusterSubVolume2) =>
          if clusterTpcVolume1 = clusterTpcVolume2 ∧ clusterSubVolume1 = clusterSubVolume2 then
            true
          else
            false

/-- State of the hit loop of `GetReclusteredHits`: the associated hits and the smallest and
largest longitudinal coordinate seen. -/
structure AssociationScan where
  associatedHits : List CaloHit
  minL : ℚ
  maxL : ℚ
  deriving DecidableEq

/-- The value `rsqIJ` of line 97: squared distance between the closest position `I` of the
track cluster and the position `J` of the candidate hit. -/
def rsqIJ (GetClosestPosition : CartesianVector → Cluster → CartesianVector)
    (slidingFitResultI : TwoDSlidingFitResult) (pCaloHitJ : CaloHit) : ℚ :=
  ((GetClosestPosition pCaloHitJ.position slidingFitResultI.GetCluster).sub
    pCaloHitJ.position).GetMagnitudeSquared

/-- The value `rsqJK` of line 98: squared distance between the candidate hit and its
projection `K`. -/
def rsqJK (pCaloHitJ : CaloHit) (positionK : CartesianVector) : ℚ :=
  (pCaloHitJ.position.sub positionK).GetMagnitudeSquared

/-- The value `rsqKI` of line 99: squared distance between the projection `K` and the
closest position `I` of the track cluster. -/
def rsqKI (GetClosestPosition : CartesianVector → Cluster → CartesianVector)
    (slidingFitResultI : TwoDSlidingFitResult) (pCaloHitJ : CaloHit)
    (positionK : CartesianVector) : ℚ :=
  (positionK.sub
    (GetClosestPosition pCaloHitJ.position slidingFitResultI.GetCluster)).GetMagnitudeSquared

/-- Hit loop of `GetReclusteredHits` (lines 82-116). `GetClosestPosition` is the geometry
query `LArClusterHelper::GetClosestPosition`. -/
def scanShowerHits (settings : TrackConsolidationSettings)
    (GetClosestPosition : CartesianVector → Cluster → CartesianVector)
    (slidingFitResultI : TwoDSlidingFitResult) :
    List CaloHit → AssociationScan → AssociationScan
  | [], st => st
  | pCaloHitJ :: rest, st =>
    match slidingFitResultI.GetGlobalFitProjection pCaloHitJ.position with
    | none => scanShowerHits settings GetClosestPosition slidingFitResultI rest st
    | some positionK =>
      if rsqJK pCaloHitJ positionK <
          min (floatMul settings.m_maxTransverseDisplacement
              settings.m_maxTransverseDisplacement)
            (min (rsqIJ GetClosestPosition slidingFitResultI pCaloHitJ)
              (rsqKI GetClosestPosition slidingFitResultI pCaloHitJ positionK)) then
        if st.associatedHits.isEmpty then
          scanShowerHits settings GetClosestPosition slidingFitResultI rest
            ⟨st.associatedHits ++ [pCaloHitJ],
              (slidingFitResultI.GetLocalPosition positionK).1,
              (slidingFitResultI.GetLocalPosition positionK).1⟩
        else
          scanShowerHits settings GetClosestPosition slidingFitResultI rest
            ⟨st.associatedHits ++ [pCaloHitJ],
              min st.minL (slidingFitResultI.GetLocalPosition positionK).1,
              max st.maxL (slidingFitResultI.GetLocalPosition positionK).1⟩
      else
        scanShowerHits settings GetClosestPosition slidingFitResultI rest st

/-- Transfer loop of `GetReclusteredHits` (lines 124-134); the state is
`(caloHitsToAddI, caloHitsToRemoveJ)`. The access `caloHitsToRemoveJ[pClusterJ]` creates an
empty entry when there is none. -/
def transferHits (pClusterI pClusterJ : Cluster) :
    List CaloHit → ClusterToHitMap × ClusterToHitMap → ClusterToHitMap × ClusterToHitMap
  | [], maps => maps
  | pCaloHit :: rest, maps =>
    if pCaloHit ∈ mapAt (mapUpdate maps.2 pClusterJ (fun l => l) []) pClusterJ then
      transferHits pClusterI pClusterJ rest
        (maps.1, mapUpdate maps.2 pClusterJ (fun l => l) [])
    else
      transferHits pClusterI pClusterJ rest
        (mapPushBack maps.1 pClusterI pCaloHit,
          mapPushBack (mapUpdate maps.2 pClusterJ (fun l => l) []) pClusterJ pCaloHit)

/-- The scan of the hits of the short cluster, started as in lines 62-66. -/
def associationScan (settings : TrackConsolidationSettings)
    (GetClosestPosition : CartesianVector → Cluster → CartesianVector)
    (slidingFitResultI : TwoDSlidingFitResult) (pClusterJ : Cluster) : AssociationScan :=
  scanShowerHits settings GetClosestPosition slidingFitResultI pClusterJ.orderedCaloHitList
    ⟨[], FLT_MAX, FLT_MAX⟩

/-- The value `associatedSpan` of line 118: the `float` difference `maxL - minL`. -/
def associatedSpan (scan : AssociationScan) : ℚ := floatSub scan.maxL scan.minL

/-- The value `associatedFraction` of lines 119-120: the two counts are converted to `float`
and divided in `float`. -/
def associatedFraction (scan : AssociationScan) (pClusterJ : Cluster) : ℚ :=
  if scan.associatedHits.isEmpty then 0
  else floatDiv (roundToFloat (scan.associatedHits.length : ℚ))
    (roundToFloat (pClusterJ.GetNCaloHits : ℚ))

/-- `TrackConsolidationAlgorithm::GetReclusteredHits` for one sliding fit and one short
cluster (lines 54-136). -/
def GetReclusteredHits (settings : TrackConsolidationSettings)
    (GetClosestPosition : CartesianVector → Cluster → CartesianVector)
    (slidingFitResultI : TwoDSlidingFitResult) (pClusterJ : Cluster)
    (maps : ClusterToHitMap × ClusterToHitMap) : ClusterToHitMap × ClusterToHitMap :=
  if settings.m_checkInterTPCVolumeAssociations = true ∧
      CheckInterTPCVolumeAssociations slidingFitResultI.GetCluster pClusterJ = false then
    maps
  else if associatedSpan (associationScan settings GetClosestPosition slidingFitResultI
        pClusterJ) > settings.m_minAssociatedSpan ∨
      associatedFraction (associationScan settings GetClosestPosition slidingFitResultI
        pClusterJ) pClusterJ > settings.m_minAssociatedFraction then
    transferHits slidingFitResultI.GetCluster pClusterJ
      (associationScan settings GetClosestPosition slidingFitResultI pClusterJ).associatedHits
      maps
  else
    maps

/-- The longitudinal coordinate `rL` that the hit loop computes for a hit: the first local
coordinate of the projection of the hit (lines 92-95); `0`, the initial value of `rL`, when
the projection fails. -/
def longitudinalCoordinate (slidingFitResultI : TwoDSlidingFitResult) (pCaloHitJ : CaloHit) : ℚ :=
  match slidingFitResultI.GetGlobalFitProjection pCaloHitJ.position with
  | none => 0
  | some positionK => (slidingFitResultI.GetLocalPosition positionK).1

/-- Inner loop of the list overload of `GetReclusteredHits` (lines 37-48) over the shower
clusters, for one sliding fit. -/
def reclusterShowerClusters (settings : TrackConsolidationSettings)
    (GetClosestPosition : CartesianVector → Cluster → CartesianVector)
    (slidingFitResultI : TwoDSlidingFitResult) :
    List Cluster → ClusterToHitMap × ClusterToHitMap → ClusterToHitMap × ClusterToHitMap
  | [], maps => maps
  | pClusterJ :: rest, maps =>
    if slidingFitResultI.GetCluster = pClusterJ then
      reclusterShowerClusters settings GetClosestPosition slidingFitResultI rest maps
    else if 2 * pClusterJ.lengthSquared > slidingFitResultI.GetCluster.lengthSquared then
      reclusterShowerClusters settings GetClosestPosition slidingFitResultI rest maps
    else
      reclusterShowerClusters settings GetClosestPosition slidingFitResultI rest
        (GetReclusteredHits settings GetClosestPosition slidingFitResultI pClusterJ maps)

/-- The list overload of `TrackConsolidationAlgorithm::GetReclusteredHits` (lines 29-50):
every sliding fit against every shower cluster. -/
def GetReclusteredHitsList (settings : TrackConsolidationSettings)
    (GetClosestPosition : CartesianVector → Cluster → CartesianVector) :
    List TwoDSlidingFitResult → List Cluster → ClusterToHitMap × ClusterToHitMap →
      ClusterToHitMap × ClusterToHitMap
  | [], _, maps => maps
  | slidingFitResultI :: rest, showerClustersJ, maps =>
    GetReclusteredHitsList settings GetClosestPosition rest showerClustersJ
      (reclusterShowerClusters settings GetClosestPosition slidingFitResultI showerClustersJ
        maps)

/-- A sequence of pairings (sliding fit, short cluster) processed one after the other by
`GetReclusteredHits`. -/
def processPairings (settings : TrackConsolidationSettings)
    (GetClosestPosition : CartesianVector → Cluster → CartesianVector) :
    List (TwoDSlidingFitResult × Cluster) → ClusterToHitMap × ClusterToHitMap →
      ClusterToHitMap × ClusterToHitMap
  | [], maps => maps
  | pairing :: rest, maps =>
    processPairings settings GetClosestPosition rest
      (GetReclusteredHits settings GetClosestPosition pairing.1 pairing.2 maps)

/-- The number of times a hit is recorded in the lists of a cluster-to-hits map, all
clusters together. -/
def totalCount (m : ClusterToHitMap) (h : CaloHit) : Nat :=
  (m.map (fun e => e.2.count h)).sum

/-! ## Matched cluster pairs of the compatibility predicate -/

/-- The parent clusters matched with one daughter cluster: the clusters of the parent of
the same view as the daughter cluster, in list order, up to (and without) the first one whose
squared length is below twice that of the daughter cluster or whose `float` squared closest
distance exceeds the `float` product of five and the threshold. -/
def matchedParentClusters (m_maxDisplacementSquared : ℚ)
    (GetClosestDistance : Cluster → Cluster → ℚ) (pDaughterCluster : Cluster)
    (parentList : List Cluster) : List Cluster :=
  (parentList.filter (fun pParentCluster =>
      decide (pDaughterCluster.hitType = pParentCluster.hitType))).takeWhile
    (fun pParentCluster =>
      decide (¬ pDaughterCluster.lengthSquared > (1 / 2) * pParentCluster.lengthSquared ∧
        ¬ deltaSquared GetClosestDistance pParentCluster pDaughterCluster >
          floatMul 5 m_maxDisplacementSquared))

/-- The matched (parent cluster, daughter cluster) pairs of a daughter and a parent object:
for every 2-D cluster of the daughter, in list order, its matched parent clusters. -/
def matchedClusterPairs (m_maxDisplacementSquared : ℚ)
    (GetClosestDistance : Cluster → Cluster → ℚ) (pDaughterPfo pParentPfo : ParticleFlowObject) :
    List (Cluster × Cluster) :=
  (pDaughterPfo.clusterList.filter (fun c => decide (c.hitType ≠ HitType.TPC_3D))).flatMap
    (fun pDaughterCluster =>
      (matchedParentClusters m_maxDisplacementSquared GetClosestDistance pDaughterCluster
        pParentPfo.clusterList).map (fun pParentCluster => (pParentCluster, pDaughterCluster)))

/-- The `float` sum of the squared closest distances over a list of (parent cluster,
daughter cluster) pairs, accumulated in list order onto the value `start`. -/
def sumSquaredDistances (GetClosestDistance : Cluster → Cluster → ℚ)
    (pairs : List (Cluster × Cluster)) (start : ℚ) : ℚ :=
  pairs.foldl (fun sum pr => floatAdd sum (deltaSquared GetClosestDistance pr.1 pr.2)) start

/-- The mean of the squared closest distances over a list of (parent cluster, daughter
cluster) pairs, as single precision computes it: the `float` sum of the `float` squares,
accumulated in list order from zero, divided in `float` by the number of pairs. -/
def meanSquaredDistance (GetClosestDistance : Cluster → Cluster → ℚ)
    (pairs : List (Cluster × Cluster)) : ℚ :=
  floatDiv (sumSquaredDistances GetClosestDistance pairs 0) (pairs.length : ℚ)

/-- The object `x` with every cluster replaced by its image under `g`; used to replace the
hits of the clusters (and with them the volume identifiers) while the address of the object
is kept. -/
def relabelPfo (g : Cluster → Cluster) (x : ParticleFlowObject) : ParticleFlowObject :=
  ⟨x.id, x.clusterList.map g⟩

/-! ## Change of the volume identifiers of hits -/

/-- The hit `h` with its volume identifiers replaced by `v h`; address, type and position
are kept. -/
def setVolumeIds (v : CaloHit → Option (Nat × Nat)) (h : CaloHit) : CaloHit :=
  ⟨h.id, h.hitType, h.position, v h⟩

/-- The cluster `c` with the volume identifiers of all its hits replaced. -/
def setClusterVolumeIds (v : CaloHit → Option (Nat × Nat)) (c : Cluster) : Cluster :=
  ⟨c.id, c.hitType, c.lengthSquared, c.orderedCaloHitList.map (setVolumeIds v)⟩

/-- The sliding fit of the cluster with replaced volume identifiers: the same trajectory. -/
def setFitVolumeIds (v : CaloHit → Option (Nat × Nat)) (fit : TwoDSlidingFitResult) :
    TwoDSlidingFitResult :=
  ⟨setClusterVolumeIds v fit.GetCluster, fit.GetGlobalFitProjection, fit.GetLocalPosition⟩

/-- A cluster-to-hits map with the volume identifiers replaced in its keys and its hits. -/
def setMapVolumeIds (v : CaloHit → Option (Nat × Nat)) (m : ClusterToHitMap) :
    ClusterToHitMap :=
  m.map (fun e => (setClusterVolumeIds v e.1, e.2.map (setVolumeIds v)))

/-- The content of a cluster-to-hits map by addresses: for every entry, the address of the
cluster and the addresses of its hits. -/
def mapAddresses (m : ClusterToHitMap) : List (Nat × List Nat) :=
  m.map (fun e => (e.1.id, e.2.map (fun h => h.id)))

/-! ## Predicates used in the statements -/

/-- Every hit list stored in the three-level table is non-empty. -/
def NonemptyEntries (full : MCToPfoMatchingMap) : Prop :=
  ∀ p inner x hs, mapFind full p = some inner → mapFind inner x = some hs → hs ≠ []

/-- No contributed hit of any candidate object is of 3-D type. -/
def NoThreeDHits (pfoToHitListMap : PfoContributionMap) : Prop :=
  ∀ e ∈ pfoToHitListMap, ∀ hit ∈ e.2, hit.hitType ≠ HitType.TPC_3D

instance (pfoToHitListMap : PfoContributionMap) : Decidable (NoThreeDHits pfoToHitListMap) := by
  unfold NoThreeDHits
  infer_instance

/-- The comparator `comp` is a strict total order on the elements of `s`: irreflexive,
transitive, and any two different elements are comparable. -/
def StrictTotalOrderOn {α : Type} (comp : α → α → Bool) (s : List α) : Prop :=
  (∀ a ∈ s, comp a a = false) ∧
  (∀ a ∈ s, ∀ b ∈ s, ∀ c ∈ s, comp a b = true → comp b c = true → comp a c = true) ∧
  (∀ a ∈ s, ∀ b ∈ s, a ≠ b → comp a b = true ∨ comp b a = true)

instance {α : Type} [DecidableEq α] (comp : α → α → Bool) (s : List α) :
    Decidable (StrictTotalOrderOn comp s) := by
  unfold StrictTotalOrderOn
  infer_instance

/-- Invariant of the hit loop of `GetReclusteredHits`: either no hit is associated yet and
`minL` and `maxL` still hold the same initial value, or `minL` and `maxL` are the smallest and
the largest longitudinal coordinate of the associated hits. -/
def SpanInvariant (slidingFitResultI : TwoDSlidingFitResult) (st : AssociationScan) : Prop :=
  (st.associatedHits = [] ∧ st.minL = st.maxL) ∨
  (∃ hmin ∈ st.associatedHits, ∃ hmax ∈ st.associatedHits,
    st.minL = longitudinalCoordinate slidingFitResultI hmin ∧
    st.maxL = longitudinalCoordinate slidingFitResultI hmax ∧
    ∀ h ∈ st.associatedHits, st.minL ≤ longitudinalCoordinate slidingFitResultI h ∧
      longitudinalCoordinate slidingFitResultI h ≤ st.maxL)

/-- Invariant of the output maps of the consolidation over the short clusters `S`: every
removal list is duplicate-free; every hit is recorded at most once in the add lists, and a
hit recorded in an add list is a hit of a short cluster of `S` and is in the removal list of
that cluster. -/
def ConsolidationInvariant (S : List Cluster) (maps : ClusterToHitMap × ClusterToHitMap) :
    Prop :=
  (∀ J, (mapAt maps.2 J).Nodup) ∧
  ∀ h, totalCount maps.1 h ≤ 1 ∧
    (totalCount maps.1 h = 1 → ∃ J ∈ S, h ∈ J.orderedCaloHitList ∧ h ∈ mapAt maps.2 J)

/-- The largest squared length among the 2-D clusters of an object (`0` when the object owns
no 2-D cluster). -/
def maxTwoDLengthSquared (pPfo : ParticleFlowObject) : ℚ :=
  ((pPfo.clusterList.filter (fun c => decide (c.hitType ≠ HitType.TPC_3D))).map
    (fun c => c.lengthSquared)).foldr max 0

/-! ## Concrete scenarios -/

/-- A 2-D hit of the U view with the given address. -/
def mkHit (n : Nat) : CaloHit := ⟨n, HitType.TPC_VIEW_U, ⟨0, 0, 0⟩, none⟩

/-- Object X of the best-match scenario. -/
def pfoX : ParticleFlowObject := ⟨1, []⟩

/-- Object Y of the best-match scenario. -/
def pfoY : ParticleFlowObject := ⟨2, []⟩

/-- The ten hits that truth particle `7` contributes to X. -/
def hitsX : List CaloHit := (List.range 10).map mkHit

/-- The four hits that truth particle `7` contributes to Y. -/
def hitsY : List CaloHit := (List.range 4).map (fun n => mkHit (n + 10))

/-- Hit-to-truth map of the scenario: all fourteen hits belong to truth particle `7`. -/
def scenarioHitToMC : CaloHitToMCMap := (hitsX ++ hitsY).map (fun h => (h, 7))

/-- Contribution map of the scenario, enumerated with Y first. -/
def scenarioPfoToHits : PfoContributionMap := [(pfoY, hitsY), (pfoX, hitsX)]

/-- A comparator on objects: by address. -/
def pfoById (a b : ParticleFlowObject) : Bool := decide (a.id < b.id)

/-- A comparator on truth particles: by address. -/
def mcByAddress (a b : MCParticle) : Bool := decide (a < b)

/-- Object A of the association scenarios. -/
def pfoA : ParticleFlowObject := ⟨10, []⟩

/-- Object B of the association scenarios. -/
def pfoB : ParticleFlowObject := ⟨11, []⟩

/-- Object C of the association scenarios. -/
def pfoC : ParticleFlowObject := ⟨12, []⟩

/-- The chain A -> B, B -> C. -/
def chainMap : PfoAssociationMap := [(pfoA, pfoB), (pfoB, pfoC)]

/-- The three-node cycle A -> B, B -> C, C -> A. -/
def cycleMap : PfoAssociationMap := [(pfoA, pfoB), (pfoB, pfoC), (pfoC, pfoA)]

/-- A framework call that always succeeds. -/
def alwaysSuccess (_ _ : ParticleFlowObject) : StatusCode := StatusCode.STATUS_CODE_SUCCESS

/-- Two contribution maps that share truth particle `1`: the first holds `1` (two hits) and
`2` (one hit), the second holds `1` (one hit). -/
def collidingMaps : List MCContributionMap :=
  [[(1, [mkHit 0, mkHit 1]), (2, [mkHit 2])], [(1, [mkHit 3])]]

/-- A dominant-contributor lookup that fails with `STATUS_CODE_INVALID_PARAMETER` on the hit
of address `0` and returns truth particle `4` for every other hit. -/
def lookupInvalidOnZero (h : CaloHit) : Except StatusCode MCParticle :=
  if h.id = 0 then Except.error StatusCode.STATUS_CODE_INVALID_PARAMETER else Except.ok 4

/-- A dominant-contributor lookup that fails with `STATUS_CODE_FAILURE` on the hit of
address `0` and returns truth particle `4` for every other hit. -/
def lookupFailureOnZero (h : CaloHit) : Except StatusCode MCParticle :=
  if h.id = 0 then Except.error StatusCode.STATUS_CODE_FAILURE else Except.ok 4

/-- Primary-ancestor map of the scenarios: truth particle `4` has the primary `5`. -/
def primaryOfFour : MCRelationMap := [(4, 5)]

/-- A dominant-contributor lookup that never fails: hits of even address come from truth
particle `4`, hits of odd address from truth particle `5`. -/
def lookupByParity (h : CaloHit) : Except StatusCode MCParticle := Except.ok (h.id % 2 + 4)

/-- Contribution map of the best-match scenario, enumerated with X first. -/
def scenarioPfoToHitsSwapped : PfoContributionMap := [(pfoX, hitsX), (pfoY, hitsY)]

/-- A daughter cluster of the U view with squared length `1`. -/
def clusterD : Cluster := ⟨100, HitType.TPC_VIEW_U, 1, []⟩

/-- A first parent cluster of the U view with squared length `4`. -/
def clusterP1 : Cluster := ⟨101, HitType.TPC_VIEW_U, 4, []⟩

/-- A second parent cluster of the U view with squared length `4`. -/
def clusterP2 : Cluster := ⟨102, HitType.TPC_VIEW_U, 4, []⟩

/-- The daughter object of the association scenario. -/
def pfoD : ParticleFlowObject := ⟨20, [clusterD]⟩

/-- The first candidate parent of the association scenario. -/
def pfoP1 : ParticleFlowObject := ⟨21, [clusterP1]⟩

/-- The second candidate parent of the association scenario. -/
def pfoP2 : ParticleFlowObject := ⟨22, [clusterP2]⟩

/-- A closest-distance query that answers `1` for every pair of clusters. -/
def distanceOne (_ _ : Cluster) : ℚ := 1

/-- The track cluster of the consolidation scenario. -/
def trackCluster : Cluster := ⟨200, HitType.TPC_VIEW_W, 100, []⟩

/-- A closest-position query that answers the origin: the nearest point of the track
cluster is its hit at the origin. -/
def closestAtOrigin (_ : CartesianVector) (_ : Cluster) : CartesianVector := ⟨0, 0, 0⟩

/-- A fit along the x axis: a position with `x ≤ 100` projects onto the axis, other
positions have no projection; the local coordinates of a position are `(x, z)`. -/
def fitAlongX : TwoDSlidingFitResult :=
  ⟨trackCluster, fun p => if p.x ≤ 100 then some ⟨p.x, 0, 0⟩ else none, fun p => (p.x, p.z)⟩

/-- A hit of the W view at the position `(x, 0, z)`. -/
def hitAt (n : Nat) (x z : ℚ) : CaloHit := ⟨n, HitType.TPC_VIEW_W, ⟨x, 0, z⟩, none⟩

/-- A hit at transverse distance `1/2` from the axis: inside the admissibility bound. -/
def hitInside : CaloHit := hitAt 1 3 (1 / 2)

/-- A hit at transverse distance `1` from the axis: exactly on the admissibility bound for
the maximal transverse displacement `1`. -/
def hitOnBoundary : CaloHit := hitAt 2 3 1

/-- A hit outside the domain of the fit: its projection fails. -/
def hitNoProjection : CaloHit := hitAt 3 200 0

/-- A short cluster of ten hits: five at transverse distance `1/2` with longitudinal
coordinates `3, 3.125, ..., 3.5`, and five exactly on the admissibility bound. -/
def shortCluster : Cluster :=
  ⟨201, HitType.TPC_VIEW_W, 1,
    [hitAt 10 3 (1 / 2), hitAt 11 (25 / 8) (1 / 2), hitAt 12 (13 / 4) (1 / 2),
      hitAt 13 (27 / 8) (1 / 2), hitAt 14 (7 / 2) (1 / 2),
      hitAt 15 3 1, hitAt 16 3 1, hitAt 17 3 1, hitAt 18 3 1, hitAt 19 3 1]⟩

/-- Contribution map of the tie scenario: truth particle `7` contributes two hits to Y and
two hits to X; Y is enumerated first. -/
def tiePfoToHits : PfoContributionMap :=
  [(pfoY, [mkHit 10, mkHit 11]), (pfoX, [mkHit 0, mkHit 1])]

/-- Hit-to-truth map of the tie scenario: the four hits belong to truth particle `7`. -/
def tieHitToMC : CaloHitToMCMap :=
  [(mkHit 0, 7), (mkHit 1, 7), (mkHit 10, 7), (mkHit 11, 7)]

/-- Two contribution maps without a common truth particle: in the first map `6` has two
hits, `5` and `4` have one hit each (and `5` is enumerated before `4`); the second map holds
`1` with one hit. -/
def rankedMaps : List MCContributionMap :=
  [[(5, [mkHit 0]), (4, [mkHit 1]), (6, [mkHit 2, mkHit 3])], [(1, [mkHit 4])]]

/-- A closest-distance query that answers `0` for every pair of clusters. -/
def distanceZero (_ _ : Cluster) : ℚ := 0

/-- A neutrino-type object of the hierarchy scenarios. -/
def pfoNu : ParticleFlowObject := ⟨40, []⟩

/-- Modelled from the spec: the downstream traversal `LArPfoHelper::GetAllDownstreamPfos`
for one object, which is not among the source files; the spec only says that every
downstream descendant is selected. An object not yet listed is appended and its daughters
are then visited; the depth of the traversal is bounded by the fuel. -/
def downstreamOf (GetDaughterPfoList : ParticleFlowObject → List ParticleFlowObject) :
    Nat → ParticleFlowObject → List ParticleFlowObject → List ParticleFlowObject
  | 0, _, outputPfoList => outputPfoList
  | fuel + 1, pPfo, outputPfoList =>
    if pPfo ∈ outputPfoList then outputPfoList
    else
      (GetDaughterPfoList pPfo).foldl
        (fun acc pDaughter => downstreamOf GetDaughterPfoList fuel pDaughter acc)
        (outputPfoList ++ [pPfo])

/-- A neutrino-type object that has a parent in the hierarchy scenario. -/
def pfoNuInner : ParticleFlowObject := ⟨41, []⟩

/-- The daughters in the hierarchy scenario: the neutrino-type root `pfoNu` has the
daughters X and Y, the object A has the neutrino-type daughter `pfoNuInner`. -/
def scenarioDaughters (p : ParticleFlowObject) : List ParticleFlowObject :=
  if p = pfoNu then [pfoX, pfoY] else if p = pfoA then [pfoNuInner] else []

/-- The parents in the hierarchy scenario of `scenarioDaughters`. -/
def scenarioParents (p : ParticleFlowObject) : List ParticleFlowObject :=
  if p = pfoX ∨ p = pfoY then [pfoNu] else if p = pfoNuInner then [pfoA] else []

/-- The helpers of the hierarchy scenario: `pfoNu` and `pfoNuInner` are the neutrino-type
objects, X and Y are final-state objects, the downstream lists follow `scenarioDaughters`, and every object
owns its own cluster list. -/
def scenarioHelpers : PfoHelpers :=
  { IsFinalState := fun p => decide (p = pfoX ∨ p = pfoY)
    IsNeutrino := fun p => decide (p = pfoNu ∨ p = pfoNuInner)
    GetParentPfoList := scenarioParents
    GetDaughterPfoList := scenarioDaughters
    GetAllDownstreamPfos := fun input out =>
      input.foldl (fun acc p => downstreamOf scenarioDaughters 8 p acc) out
    GetAllDownstreamPfosOf := fun p out => downstreamOf scenarioDaughters 8 p out
    GetTwoDClusterList := fun p => p.clusterList }

/-- A reconstructed neutrino of the neutrino-match scenario: it owns one W-view cluster
with the hits of addresses `0`, `1` and `2`. -/
def pfoNuWithHits : ParticleFlowObject :=
  ⟨42, [⟨400, HitType.TPC_VIEW_W, 1, [mkHit 0, mkHit 1, mkHit 2]⟩]⟩

/-- The helpers of the neutrino-match scenario: `pfoNuWithHits` is neutrino-type, has no
daughter, and its downstream list is the object itself. -/
def neutrinoHelpers : PfoHelpers :=
  { IsFinalState := fun _ => false
    IsNeutrino := fun p => decide (p = pfoNuWithHits)
    GetParentPfoList := fun _ => []
    GetDaughterPfoList := fun _ => []
    GetAllDownstreamPfos := fun input out => out ++ input
    GetAllDownstreamPfosOf := fun p out => out ++ [p]
    GetTwoDClusterList := fun p => p.clusterList }

/-- No cluster of the scenarios has isolated hits. -/
def noIsolatedHits (_ : Cluster) : List CaloHit := []

/-- Hit-to-truth map of the neutrino-match scenario: hits `0` and `1` come from the final
state particle `60`, hit `2` from the final state particle `61`. -/
def neutrinoHitToMC : CaloHitToMCMap := [(mkHit 0, 60), (mkHit 1, 60), (mkHit 2, 61)]

/-- Parent truth particle in the neutrino-match scenario: `60` descends from the truth
neutrino `50`, `61` from the truth particle `51`. -/
def neutrinoParentMC (p : MCParticle) : MCParticle := if p = 60 then 50 else 51

/-- In the neutrino-match scenario only the truth particle `50` is neutrino-type. -/
def isTruthNeutrino (p : MCParticle) : Bool := decide (p = 50)

/-- A hit of the W view at the position `(x, 0, z)` that carries the volume identifiers
`(volume, 0)`. -/
def hitInVolume (n : Nat) (x z : ℚ) (volume : Nat) : CaloHit :=
  ⟨n, HitType.TPC_VIEW_W, ⟨x, 0, z⟩, some (volume, 0)⟩

/-- A track cluster whose first hit lies in volume `0`. -/
def trackClusterVolume0 : Cluster :=
  ⟨210, HitType.TPC_VIEW_W, 100, [hitInVolume 20 0 0 0]⟩

/-- A short cluster of two hits in volume `1`, both at transverse distance `1/2` from the
x axis. -/
def shortClusterVolume1 : Cluster :=
  ⟨211, HitType.TPC_VIEW_W, 1, [hitInVolume 21 3 (1 / 2) 1, hitInVolume 22 4 (1 / 2) 1]⟩

/-- The fit along the x axis of `fitAlongX`, for the track cluster `trackClusterVolume0`. -/
def fitAlongXVolume0 : TwoDSlidingFitResult :=
  ⟨trackClusterVolume0, fun p => if p.x ≤ 100 then some ⟨p.x, 0, 0⟩ else none,
    fun p => (p.x, p.z)⟩

/-- A daughter object whose U-view cluster (squared length `1`) has its first hit in volume
`0`. -/
def pfoDVolume0 : ParticleFlowObject :=
  ⟨50, [⟨500, HitType.TPC_VIEW_U, 1, [⟨30, HitType.TPC_VIEW_U, ⟨0, 0, 0⟩, some (0, 0)⟩]⟩]⟩

/-- A parent object whose U-view cluster (squared length `4`) has its first hit in volume
`1`. -/
def pfoPVolume1 : ParticleFlowObject :=
  ⟨51, [⟨501, HitType.TPC_VIEW_U, 4, [⟨31, HitType.TPC_VIEW_U, ⟨0, 0, 0⟩, some (1, 0)⟩]⟩]⟩

/-- The cluster `c` with all its hits moved to the volume `(7, 7)`. -/
def moveToVolume7 (c : Cluster) : Cluster :=
  ⟨c.id, c.hitType, c.lengthSquared,
    c.orderedCaloHitList.map (fun h => ⟨h.id, h.hitType, h.position, some (7, 7)⟩)⟩

/-- A second track cluster for the consolidation scenarios. -/
def trackClusterB : Cluster := ⟨220, HitType.TPC_VIEW_W, 100, []⟩

/-- The fit along the x axis of `fitAlongX`, for the track cluster `trackClusterB`. -/
def fitAlongXB : TwoDSlidingFitResult :=
  ⟨trackClusterB, fun p => if p.x ≤ 100 then some ⟨p.x, 0, 0⟩ else none, fun p => (p.x, p.z)⟩

/-- A hit of 3-D view type. -/
def hitThreeD : CaloHit := ⟨99, HitType.TPC_3D, ⟨0, 0, 0⟩, none⟩

/-- Contribution map in which the hit list of Y holds a hit of 3-D view type after a 2-D
hit; the hits of X are all 2-D. -/
def threeDPfoToHits : PfoContributionMap := [(pfoX, hitsX), (pfoY, [mkHit 10, hitThreeD])]

/-- A parent cluster of the U view close to the daughter cluster. -/
def clusterNear : Cluster := ⟨501, HitType.TPC_VIEW_U, 4, []⟩

/-- A parent cluster of the U view far from the daughter cluster. -/
def clusterFar : Cluster := ⟨502, HitType.TPC_VIEW_U, 4, []⟩

/-- A parent that lists its close U cluster before its far U cluster. -/
def pfoNearFar : ParticleFlowObject := ⟨50, [clusterNear, clusterFar]⟩

/-- A parent that lists its far U cluster before its close U cluster. -/
def pfoFarNear : ParticleFlowObject := ⟨51, [clusterFar, clusterNear]⟩

/-- A closest-distance query: the cluster `clusterFar` is at distance `10` from every
cluster, all other clusters are at distance `1`. -/
def distanceFarTen (pParentCluster _ : Cluster) : ℚ :=
  if pParentCluster = clusterFar then 10 else 1

/-- An object whose only cluster, in the U view, has squared length zero. -/
def pfoZeroA : ParticleFlowObject := ⟨60, [⟨600, HitType.TPC_VIEW_U, 0, []⟩]⟩

/-- A second object whose only cluster, in the U view, has squared length zero. -/
def pfoZeroB : ParticleFlowObject := ⟨61, [⟨601, HitType.TPC_VIEW_U, 0, []⟩]⟩

/-- A second reconstructed neutrino of the neutrino-match scenario: it owns one W-view
cluster with the hit of address `1`. -/
def pfoNuSecond : ParticleFlowObject := ⟨43, [⟨401, HitType.TPC_VIEW_W, 1, [mkHit 1]⟩]⟩

/-- The helpers of the neutrino-match scenario with two neutrino-type objects,
`pfoNuWithHits` and `pfoNuSecond`; each is its own downstream list. -/
def neutrinoPairHelpers : PfoHelpers :=
  { IsFinalState := fun _ => false
    IsNeutrino := fun p => decide (p = pfoNuWithHits ∨ p = pfoNuSecond)
    GetParentPfoList := fun _ => []
    GetDaughterPfoList := fun _ => []
    GetAllDownstreamPfos := fun input out => out ++ input
    GetAllDownstreamPfosOf := fun p out => out ++ [p]
    GetTwoDClusterList := fun p => p.clusterList }

/-- A closest-position query that answers the point `(-1, 2^-13, 0)`. -/
def closestNearMinusOne (_ : CartesianVector) (_ : Cluster) : CartesianVector :=
  ⟨-1, 1 / 8192, 0⟩

/-- A fit whose projection of every position is the point `(1, 0, 0)`. -/
def fitProjectToOne : TwoDSlidingFitResult :=
  ⟨trackCluster, fun _ => some ⟨1, 0, 0⟩, fun p => (p.x, p.z)⟩

/-- A hit at the origin. -/
def hitAtOrigin : CaloHit := hitAt 4 0 0

/-- A short cluster of ten hits: seven at transverse distance `1/2` and longitudinal
coordinate `3`, and three exactly on the admissibility bound. -/
def shortClusterSeven : Cluster :=
  ⟨204, HitType.TPC_VIEW_W, 1,
    [hitAt 30 3 (1 / 2), hitAt 31 3 (1 / 2), hitAt 32 3 (1 / 2), hitAt 33 3 (1 / 2),
      hitAt 34 3 (1 / 2), hitAt 35 3 (1 / 2), hitAt 36 3 (1 / 2),
      hitAt 37 3 1, hitAt 38 3 1, hitAt 39 3 1]⟩

/-- A closest-distance query that answers `5033165 / 16777216`, the single-precision number
nearest to `3/10`. -/
def distanceThreeTenths (_ _ : Cluster) : ℚ := 5033165 / 16777216

/-- The assignment of the volume identifiers `(7, 7)` to every hit. -/
def allInVolume7 (_ : CaloHit) : Option (Nat × Nat) := some (7, 7)

/-- A parent that lists the U cluster `clusterFar` first, followed by four further U
clusters. -/
def pfoFarFour : ParticleFlowObject :=
  ⟨52, [clusterFar, ⟨503, HitType.TPC_VIEW_U, 4, []⟩, ⟨504, HitType.TPC_VIEW_U, 4, []⟩,
    ⟨505, HitType.TPC_VIEW_U, 4, []⟩, ⟨506, HitType.TPC_VIEW_U, 4, []⟩]⟩

/-- A closest-distance query: the cluster `clusterFar` is at distance `9378749 / 4194304`,
the single-precision number nearest to the square root of five, from every cluster; all
other clusters are at distance `0`. -/
def distanceRootFive (pParentCluster _ : Cluster) : ℚ :=
  if pParentCluster = clusterFar then 9378749 / 4194304 else 0

/-! ## Lemmas on association lists -/

theorem mapFind_mapUpdate {α β : Type} [DecidableEq α] (m : Map α β) (k : α) (f : β → β) (d : β)
    (k' : α) :
    mapFind (mapUpdate m k f d) k' =
      if k = k' then some (f ((mapFind m k).getD d)) else mapFind m k' := by
  induction m with
  | nil => simp [mapUpdate, mapFind]
  | cons e rest ih =>
    obtain ⟨a, v⟩ := e
    by_cases hak : a = k
    · subst hak
      by_cases hk : a = k' <;> simp [mapUpdate, mapFind, hk]
    · by_cases hk : k = k'
      · subst hk
        simp [mapUpdate, mapFind, hak, ih]
      · by_cases hak' : a = k'
        · subst hak'
          simp only [mapUpdate, mapFind, if_neg hak, if_neg hk, if_true]
        · simp [mapUpdate, mapFind, hak, hak', hk, ih]

theorem mapFind_mapAssign {α β : Type} [DecidableEq α] (m : Map α β) (k : α) (v : β) (k' : α) :
    mapFind (mapAssign m k v) k' = if k = k' then some v else mapFind m k' := by
  simp [mapAssign, mapFind_mapUpdate]

theorem mapFind_mapPushBack {α γ : Type} [DecidableEq α] (m : Map α (List γ)) (k : α) (x : γ)
    (k' : α) :
    mapFind (mapPushBack m k x) k' = if k = k' then some (mapAt m k ++ [x]) else mapFind m k' := by
  simp [mapPushBack, mapFind_mapUpdate, mapAt]

theorem mapFind_mem {α β : Type} [DecidableEq α] {m : Map α β} {k : α} {v : β}
    (h : mapFind m k = some v) : (k, v) ∈ m := by
  induction m with
  | nil => simp [mapFind] at h
  | cons e rest ih =>
    obtain ⟨a, w⟩ := e
    by_cases hak : a = k
    · subst hak
      simp [mapFind] at h
      simp [h]
    · simp [mapFind, hak] at h
      exact List.mem_cons_of_mem _ (ih h)

theorem mapFind_isSome_iff {α β : Type} [DecidableEq α] (m : Map α β) (k : α) :
    (∃ v, mapFind m k = some v) ↔ k ∈ mapKeys m := by
  induction m with
  | nil => simp [mapFind, mapKeys]
  | cons e rest ih =>
    obtain ⟨a, w⟩ := e
    by_cases hak : a = k
    · subst hak
      simp [mapFind, mapKeys]
    · have hka : ¬ k = a := fun h => hak h.symm
      simp only [mapKeys] at ih
      simp [mapFind, mapKeys, hak, hka, ih]

theorem mapKeys_mapUpdate {α β : Type} [DecidableEq α] (m : Map α β) (k : α) (f : β → β)
    (d : β) :
    mapKeys (mapUpdate m k f d) = if k ∈ mapKeys m then mapKeys m else mapKeys m ++ [k] := by
  induction m with
  | nil => simp [mapUpdate, mapKeys]
  | cons e rest ih =>
    obtain ⟨a, v⟩ := e
    by_cases hak : a = k
    · subst hak
      simp [mapUpdate, mapKeys]
    · have hka : ¬ k = a := fun h => hak h.symm
      simp only [mapKeys] at ih
      by_cases hmem : k ∈ List.map Prod.fst rest
      · simp [mapUpdate, mapKeys, hak, hka, hmem, ih]
      · simp [mapUpdate, mapKeys, hak, hka, hmem, ih]

theorem mem_listSort {α : Type} (comp : α → α → Bool) (l : List α) (x : α) :
    x ∈ listSort comp l ↔ x ∈ l := by
  unfold listSort
  exact (List.perm_insertionSort _ l).mem_iff

/-! ## Single-precision arithmetic -/

theorem roundToFloat_zero : roundToFloat 0 = 0 := by
  unfold roundToFloat
  rw [if_pos rfl]

theorem floatSub_self (a : ℚ) : floatSub a a = 0 := by
  unfold floatSub
  rw [sub_self, roundToFloat_zero]

theorem floatDiv_zero_left (b : ℚ) : floatDiv 0 b = 0 := by
  have h1 : ¬ FLT_INFINITY ≤ (0 : ℚ) := by unfold FLT_INFINITY; norm_num
  have h2 : ¬ (0 : ℚ) ≤ -FLT_INFINITY := by unfold FLT_INFINITY; norm_num
  unfold floatDiv
  rw [if_neg (fun h => h1 h.1), if_neg (fun h => h2 h.1), zero_div, roundToFloat_zero]

/-! ## GetMCParticleToPfoMatches: the matching table and the best-match scan -/

theorem nonemptyEntries_nil : NonemptyEntries [] := by
  intro p inner x hs h
  simp [mapFind] at h

theorem nonemptyEntries_push (full : MCToPfoMatchingMap) (p : MCParticle)
    (pfo : ParticleFlowObject) (hit : CaloHit) (h : NonemptyEntries full) :
    NonemptyEntries (mapUpdate full p (fun inner => mapPushBack inner pfo hit) []) := by
  intro q inner x hs hq hx
  rw [mapFind_mapUpdate] at hq
  by_cases hpq : p = q
  · rw [if_pos hpq] at hq
    injection hq with hq
    subst hq
    rw [mapFind_mapPushBack] at hx
    by_cases hx' : pfo = x
    · rw [if_pos hx'] at hx
      injection hx with hx
      subst hx
      simp
    · rw [if_neg hx'] at hx
      cases hfull : mapFind full p with
      | none => rw [hfull] at hx; simp [mapFind] at hx
      | some inner0 =>
        rw [hfull] at hx
        exact h p inner0 x hs hfull hx
  · rw [if_neg hpq] at hq
    exact h q inner x hs hq hx

theorem fillPfoHits_nonempty (caloHitSet : List CaloHit) (hitToPrimaryMCMap : CaloHitToMCMap)
    (pPfo : ParticleFlowObject) (hits : List CaloHit) :
    ∀ full full1, NonemptyEntries full →
      fillPfoHits caloHitSet hitToPrimaryMCMap pPfo hits full = Except.ok full1 →
      NonemptyEntries full1 := by
  induction hits with
  | nil =>
    intro full full1 hne h
    simp only [fillPfoHits, Except.ok.injEq] at h
    exact h ▸ hne
  | cons hit rest ih =>
    intro full full1 hne h
    unfold fillPfoHits at h
    split_ifs at h with h3 hset
    · split at h
      · exact ih full full1 hne h
      · exact ih _ full1 (nonemptyEntries_push full _ pPfo hit hne) h
    · exact ih full full1 hne h

theorem fillMatchingMap_nonempty (caloHitSet : List CaloHit) (pfoToHitListMap : PfoContributionMap)
    (hitToPrimaryMCMap : CaloHitToMCMap) (pfos : List ParticleFlowObject) :
    ∀ full full1, NonemptyEntries full →
      fillMatchingMap caloHitSet pfoToHitListMap hitToPrimaryMCMap pfos full = Except.ok full1 →
      NonemptyEntries full1 := by
  induction pfos with
  | nil =>
    intro full full1 hne h
    simp only [fillMatchingMap, Except.ok.injEq] at h
    exact h ▸ hne
  | cons pPfo rest ih =>
    intro full full1 hne h
    unfold fillMatchingMap at h
    split at h
    · exact absurd h (by simp)
    · rename_i full2 hfill
      exact ih full2 full1 (fillPfoHits_nonempty _ _ _ _ full full2 hne hfill) h

theorem fillPfoHits_ok (caloHitSet : List CaloHit) (hitToPrimaryMCMap : CaloHitToMCMap)
    (pPfo : ParticleFlowObject) (hits : List CaloHit)
    (h3 : ∀ hit ∈ hits, hit.hitType ≠ HitType.TPC_3D) :
    ∀ full, ∃ full1, fillPfoHits caloHitSet hitToPrimaryMCMap pPfo hits full = Except.ok full1 := by
  induction hits with
  | nil => intro full; exact ⟨full, rfl⟩
  | cons hit rest ih =>
    intro full
    have hrest : ∀ x ∈ rest, x.hitType ≠ HitType.TPC_3D :=
      fun x hx => h3 x (List.mem_cons_of_mem _ hx)
    have hhit : hit.hitType ≠ HitType.TPC_3D := h3 hit (List.mem_cons_self _ _)
    unfold fillPfoHits
    rw [if_neg hhit]
    split_ifs
    · split
      · exact ih hrest full
      · exact ih hrest _
    · exact ih hrest full

theorem mapAt_no3D (pfoToHitListMap : PfoContributionMap) (h : NoThreeDHits pfoToHitListMap)
    (pfo : ParticleFlowObject) : ∀ hit ∈ mapAt pfoToHitListMap pfo, hit.hitType ≠ HitType.TPC_3D := by
  intro hit hmem
  unfold mapAt at hmem
  cases hf : mapFind pfoToHitListMap pfo with
  | none => rw [hf] at hmem; simp at hmem
  | some hits =>
    rw [hf] at hmem
    exact h (pfo, hits) (mapFind_mem hf) hit hmem

theorem fillMatchingMap_ok (caloHitSet : List CaloHit) (pfoToHitListMap : PfoContributionMap)
    (hitToPrimaryMCMap : CaloHitToMCMap) (h3 : NoThreeDHits pfoToHitListMap)
    (pfos : List ParticleFlowObject) :
    ∀ full, ∃ full1,
      fillMatchingMap caloHitSet pfoToHitListMap hitToPrimaryMCMap pfos full = Except.ok full1 := by
  induction pfos with
  | nil => intro full; exact ⟨full, rfl⟩
  | cons pPfo rest ih =>
    intro full
    obtain ⟨full2, h2⟩ := fillPfoHits_ok caloHitSet hitToPrimaryMCMap pPfo
      (mapAt pfoToHitListMap pPfo) (mapAt_no3D pfoToHitListMap h3 pPfo) full
    unfold fillMatchingMap
    rw [h2]
    exact ih full2

theorem selectBestMatch_spec (m : PfoContributionMap) (l : List ParticleFlowObject) :
    ∀ st, (selectBestMatch m l st = st ∨
        ∃ b ∈ l, selectBestMatch m l st = (some b, mapAt m b)) ∧
      st.2.length ≤ (selectBestMatch m l st).2.length ∧
      ∀ x ∈ l, (mapAt m x).length ≤ (selectBestMatch m l st).2.length := by
  induction l with
  | nil => intro st; simp [selectBestMatch]
  | cons pPfo rest ih =>
    intro st
    unfold selectBestMatch
    split_ifs with hgt
    · obtain ⟨h1, h2, h3⟩ := ih (some pPfo, mapAt m pPfo)
      refine ⟨Or.inr ?_, ?_, ?_⟩
      · rcases h1 with h1 | ⟨b, hb, h1⟩
        · exact ⟨pPfo, List.mem_cons_self _ _, h1⟩
        · exact ⟨b, List.mem_cons_of_mem _ hb, h1⟩
      · simp only at h2; omega
      · intro x hx
        rcases List.mem_cons.mp hx with rfl | hx
        · exact h2
        · exact h3 x hx
    · obtain ⟨h1, h2, h3⟩ := ih st
      refine ⟨?_, h2, ?_⟩
      · rcases h1 with h1 | ⟨b, hb, h1⟩
        · exact Or.inl h1
        · exact Or.inr ⟨b, List.mem_cons_of_mem _ hb, h1⟩
      · intro x hx
        rcases List.mem_cons.mp hx with rfl | hx
        · omega
        · exact h3 x hx

theorem bestMatchOf_spec (SortByNHits : ParticleFlowObject → ParticleFlowObject → Bool)
    (full : MCToPfoMatchingMap) (p : MCParticle) (inner : PfoContributionMap)
    (x : ParticleFlowObject) (hs : List CaloHit) (hp : mapFind full p = some inner)
    (hx : mapFind inner x = some hs) (hne : hs ≠ []) :
    ∃ b bh, bestMatchOf SortByNHits full p = (some b, bh) ∧ mapFind inner b = some bh ∧
      ∀ y hy, mapFind inner y = some hy → hy.length ≤ bh.length := by
  have hkeys : ∀ y, y ∈ listSort SortByNHits (mapKeys inner) ↔ ∃ v, mapFind inner y = some v := by
    intro y
    rw [mem_listSort, mapFind_isSome_iff]
  obtain ⟨h1, -, h3⟩ := selectBestMatch_spec inner (listSort SortByNHits (mapKeys inner)) (none, [])
  have hxat : mapAt inner x = hs := by simp [mapAt, hx]
  have hlen := h3 x ((hkeys x).mpr ⟨hs, hx⟩)
  rw [hxat] at hlen
  have hunfold : bestMatchOf SortByNHits full p =
      selectBestMatch inner (listSort SortByNHits (mapKeys inner)) (none, []) := by
    simp [bestMatchOf, hp]
  rcases h1 with h1 | ⟨b, hb, h1⟩
  · rw [h1] at hlen
    exact absurd (by simpa using hlen) hne
  · obtain ⟨v, hv⟩ := (hkeys b).mp hb
    have hbat : mapAt inner b = v := by simp [mapAt, hv]
    refine ⟨b, v, ?_, hv, ?_⟩
    · rw [hunfold, h1, hbat]
    · intro y hy hfy
      have := h3 y ((hkeys y).mpr ⟨hy, hfy⟩)
      rw [h1] at this
      simp only at this
      rw [hbat] at this
      simpa [mapAt, hfy] using this

theorem resolveBestMatches_find (SortByNHits : ParticleFlowObject → ParticleFlowObject → Bool)
    (full : MCToPfoMatchingMap) (p : MCParticle) (b : ParticleFlowObject) (bh : List CaloHit)
    (hbest : bestMatchOf SortByNHits full p = (some b, bh)) (l : List MCParticle) :
    ∀ out, mapFind (resolveBestMatches SortByNHits full l out).1 p =
        (if p ∈ l then some b else mapFind out.1 p) ∧
      mapFind (resolveBestMatches SortByNHits full l out).2 p =
        (if p ∈ l then some bh else mapFind out.2 p) := by
  induction l with
  | nil => intro out; simp [resolveBestMatches]
  | cons q rest ih =>
    intro out
    unfold resolveBestMatches
    by_cases hqp : q = p
    · subst hqp
      rw [hbest]
      simp only [List.mem_cons, true_or, if_true]
      obtain ⟨h1, h2⟩ := ih (mapAssign out.1 q b, mapAssign out.2 q bh)
      rw [h1, h2]
      simp [mapFind_mapAssign]
    · have hpq : ¬ p = q := fun h => hqp h.symm
      split
      · rename_i pb bl hq
        obtain ⟨h1, h2⟩ := ih (mapAssign out.1 q pb, mapAssign out.2 q bl)
        rw [h1, h2]
        simp [mapFind_mapAssign, hqp, hpq]
      · obtain ⟨h1, h2⟩ := ih out
        rw [h1, h2]
        simp [hpq]

/-! ## GetMCParticleToCaloHitMatches -/

theorem caloHitMatches_spec (GetMain : CaloHit → Except StatusCode MCParticle)
    (prim : MCRelationMap) (hits : List CaloHit) :
    ∀ out, (∀ h ∈ hits, GetMain h ≠ Except.error StatusCode.STATUS_CODE_FAILURE) →
      ∃ out1, GetMCParticleToCaloHitMatches GetMain prim hits out = Except.ok out1 ∧
        (∀ h, mapFind out1.1 h =
          if h ∈ hits ∧ (resolvePrimary GetMain prim h).isSome then resolvePrimary GetMain prim h
          else mapFind out.1 h) ∧
        (∀ p, mapFind out1.2 p =
          if hits.filter (fun h => resolvePrimary GetMain prim h = some p) = [] then
            mapFind out.2 p
          else
            some (mapAt out.2 p ++ hits.filter (fun h => resolvePrimary GetMain prim h = some p))) := by
  induction hits with
  | nil =>
    intro out _
    exact ⟨out, rfl, by simp, by simp⟩
  | cons hit rest ih =>
    intro out hno
    have hrest : ∀ h ∈ rest, GetMain h ≠ Except.error StatusCode.STATUS_CODE_FAILURE :=
      fun h hh => hno h (List.mem_cons_of_mem _ hh)
    have hhit := hno hit (List.mem_cons_self _ _)
    unfold GetMCParticleToCaloHitMatches
    cases hg : GetMain hit with
    | error code =>
      have hcode : ¬ StatusCode.STATUS_CODE_FAILURE = code := by
        intro hc
        rw [hg, ← hc] at hhit
        exact hhit rfl
      have hres : resolvePrimary GetMain prim hit = none := by simp [resolvePrimary, hg]
      simp only [hcode, if_false]
      obtain ⟨out1, h1, h2, h3⟩ := ih out hrest
      refine ⟨out1, h1, ?_, ?_⟩
      · intro h
        rw [h2 h]
        by_cases hh : h = hit
        · subst hh
          simp [hres]
        · simp [hh]
      · intro p
        rw [h3 p]
        simp [List.filter_cons, hres]
    | ok q =>
      simp only
      cases hq : mapFind prim q with
      | none =>
        have hres : resolvePrimary GetMain prim hit = none := by simp [resolvePrimary, hg, hq]
        simp only
        obtain ⟨out1, h1, h2, h3⟩ := ih out hrest
        refine ⟨out1, h1, ?_, ?_⟩
        · intro h
          rw [h2 h]
          by_cases hh : h = hit
          · subst hh
            simp [hres]
          · simp [hh]
        · intro p
          rw [h3 p]
          simp [List.filter_cons, hres]
      | some pp =>
        have hres : resolvePrimary GetMain prim hit = some pp := by
          simp [resolvePrimary, hg, hq]
        simp only
        obtain ⟨out1, h1, h2, h3⟩ := ih (mapAssign out.1 hit pp, mapPushBack out.2 pp hit) hrest
        refine ⟨out1, h1, ?_, ?_⟩
        · intro h
          rw [h2 h]
          simp only [mapFind_mapAssign]
          by_cases hh : h = hit
          · subst hh
            simp [hres]
          · have hh1 : ¬ hit = h := fun e => hh e.symm
            simp [hh, hh1]
        · intro p
          rw [h3 p]
          simp only [mapFind_mapPushBack, mapAt]
          by_cases hp : pp = p
          · subst hp
            simp [List.filter_cons, hres]
          · have hp1 : ¬ resolvePrimary GetMain prim hit = some p := by
              rw [hres]
              simpa using hp
            simp [List.filter_cons, hp1, hp]

/-! ## BuildAssociationMap -/

theorem isOk_iff {ε α : Type} (x : Except ε α) : x.isOk = true ↔ ∃ r, x = Except.ok r := by
  cases x with
  | error e => simp [Except.isOk, Except.toBool]
  | ok r => simp [Except.isOk, Except.toBool]

theorem IsAssociated_true_le (maxD : ℚ) (cd : Cluster → Cluster → ℚ)
    (d p : ParticleFlowObject) (disp : ℚ)
    (h : IsAssociated maxD cd d p = Except.ok (true, disp)) : disp ≤ maxD := by
  unfold IsAssociated at h
  split_ifs at h with hdp
  · simp at h
  · split at h
    · simp at h
    · split_ifs at h with heps hgt
      · simp at h
      · simp only [Except.ok.injEq, Prod.mk.injEq, true_and] at h
        have hle := not_lt.mp hgt
        rw [h] at hle
        exact hle

theorem findBestParent_spec (maxD : ℚ) (cd : Cluster → Cluster → ℚ) (d : ParticleFlowObject)
    (l : List ParticleFlowObject) :
    (∀ p ∈ l, d ≠ p → ∃ r, IsAssociated maxD cd d p = Except.ok r) →
    ∀ st, ∃ st1, findBestParent maxD cd d l st = Except.ok st1 ∧
      ((st1 = st ∧ ∀ p ∈ l, p ≠ d → ∀ dp, IsAssociated maxD cd d p = Except.ok (true, dp) →
          st.2 ≤ dp) ∨
        ∃ l1 p l2, l = l1 ++ p :: l2 ∧ p ≠ d ∧
          IsAssociated maxD cd d p = Except.ok (true, st1.2) ∧ st1.1 = some p ∧ st1.2 < st.2 ∧
          (∀ x ∈ l1, x ≠ d → ∀ dx, IsAssociated maxD cd d x = Except.ok (true, dx) →
            st1.2 < dx) ∧
          (∀ x ∈ l2, x ≠ d → ∀ dx, IsAssociated maxD cd d x = Except.ok (true, dx) →
            st1.2 ≤ dx)) := by
  induction l with
  | nil =>
    intro _ st
    exact ⟨st, rfl, Or.inl ⟨rfl, by simp⟩⟩
  | cons q rest ih =>
    intro hno st
    have hrest : ∀ p ∈ rest, d ≠ p → ∃ r, IsAssociated maxD cd d p = Except.ok r :=
      fun p hp => hno p (List.mem_cons_of_mem _ hp)
    unfold findBestParent
    by_cases hdq : d = q
    · rw [if_pos hdq]
      obtain ⟨st1, h1, h2⟩ := ih hrest st
      refine ⟨st1, h1, ?_⟩
      rcases h2 with ⟨heq, hall⟩ | ⟨l1, p, l2, hl, hp, hass, hsome, hlt, hbefore, hafter⟩
      · left
        refine ⟨heq, ?_⟩
        intro p hp hpd dp hdp
        rcases List.mem_cons.mp hp with rfl | hp
        · exact absurd hdq.symm hpd
        · exact hall p hp hpd dp hdp
      · right
        refine ⟨q :: l1, p, l2, by simp [hl], hp, hass, hsome, hlt, ?_, hafter⟩
        intro x hx hxd dx hdx
        rcases List.mem_cons.mp hx with rfl | hx
        · exact absurd hdq.symm hxd
        · exact hbefore x hx hxd dx hdx
    · rw [if_neg hdq]
      have hqd : q ≠ d := fun e => hdq e.symm
      obtain ⟨⟨b, dq⟩, hr⟩ := hno q (List.mem_cons_self _ _) hdq
      rw [hr]
      simp only
      cases b with
      | false =>
        simp only [if_true]
        obtain ⟨st1, h1, h2⟩ := ih hrest st
        refine ⟨st1, h1, ?_⟩
        rcases h2 with ⟨heq, hall⟩ | ⟨l1, p, l2, hl, hp, hass, hsome, hlt, hbefore, hafter⟩
        · left
          refine ⟨heq, ?_⟩
          intro p hp hpd dp hdp
          rcases List.mem_cons.mp hp with rfl | hp
          · rw [hr] at hdp
            simp at hdp
          · exact hall p hp hpd dp hdp
        · right
          refine ⟨q :: l1, p, l2, by simp [hl], hp, hass, hsome, hlt, ?_, hafter⟩
          intro x hx hxd dx hdx
          rcases List.mem_cons.mp hx with rfl | hx
          · rw [hr] at hdx
            simp at hdx
          · exact hbefore x hx hxd dx hdx
      | true =>
        simp only [Bool.true_eq_false, if_false]
        by_cases hlt0 : dq < st.2
        · rw [if_pos hlt0]
          obtain ⟨st1, h1, h2⟩ := ih hrest (some q, dq)
          refine ⟨st1, h1, Or.inr ?_⟩
          rcases h2 with ⟨heq, hall⟩ | ⟨l1, p, l2, hl, hp, hass, hsome, hlt, hbefore, hafter⟩
          · refine ⟨[], q, rest, rfl, hqd, ?_, ?_, ?_, by simp, ?_⟩
            · rw [heq]; exact hr
            · rw [heq]
            · rw [heq]; exact hlt0
            · intro x hx hxd dx hdx
              rw [heq]
              exact hall x hx hxd dx hdx
          · refine ⟨q :: l1, p, l2, by simp [hl], hp, hass, hsome, ?_, ?_, hafter⟩
            · exact lt_trans hlt hlt0
            · intro x hx hxd dx hdx
              rcases List.mem_cons.mp hx with rfl | hx
              · rw [hr] at hdx
                simp only [Except.ok.injEq, Prod.mk.injEq, true_and] at hdx
                rw [← hdx]
                exact hlt
              · exact hbefore x hx hxd dx hdx
        · rw [if_neg hlt0]
          obtain ⟨st1, h1, h2⟩ := ih hrest st
          refine ⟨st1, h1, ?_⟩
          rcases h2 with ⟨heq, hall⟩ | ⟨l1, p, l2, hl, hp, hass, hsome, hlt, hbefore, hafter⟩
          · left
            refine ⟨heq, ?_⟩
            intro p hp hpd dp hdp
            rcases List.mem_cons.mp hp with rfl | hp
            · rw [hr] at hdp
              simp only [Except.ok.injEq, Prod.mk.injEq, true_and] at hdp
              rw [← hdp]
              exact not_lt.mp hlt0
            · exact hall p hp hpd dp hdp
          · right
            refine ⟨q :: l1, p, l2, by simp [hl], hp, hass, hsome, hlt, ?_, hafter⟩
            intro x hx hxd dx hdx
            rcases List.mem_cons.mp hx with rfl | hx
            · rw [hr] at hdx
              simp only [Except.ok.injEq, Prod.mk.injEq, true_and] at hdx
              rw [← hdx]
              exact lt_of_lt_of_le hlt (not_lt.mp hlt0)
            · exact hbefore x hx hxd dx hdx

theorem mapFind_mapInsert {α β : Type} [DecidableEq α] (m : Map α β) (k : α) (v : β) (k1 : α) :
    mapFind (mapInsert m k v) k1 =
      if k = k1 then some ((mapFind m k).getD v) else mapFind m k1 := by
  simp [mapInsert, mapFind_mapUpdate]

theorem buildAssociations_spec (maxD : ℚ) (cd : Cluster → Cluster → ℚ)
    (l : List ParticleFlowObject) (ds : List ParticleFlowObject) :
    (∀ d ∈ ds, ∀ p ∈ l, d ≠ p → ∃ r, IsAssociated maxD cd d p = Except.ok r) →
    ∀ m, ∃ m1, buildAssociations maxD cd l ds m = Except.ok m1 ∧
      ∀ d par, mapFind m1 d = some par ↔
        (mapFind m d = some par ∨
          (mapFind m d = none ∧ d ∈ ds ∧
            ∃ disp, findBestParent maxD cd d l (none, FLT_MAX) = Except.ok (some par, disp))) := by
  induction ds with
  | nil =>
    intro _ m
    refine ⟨m, rfl, ?_⟩
    intro d par
    simp
  | cons d0 rest ih =>
    intro hno m
    have hrest : ∀ d ∈ rest, ∀ p ∈ l, d ≠ p → ∃ r, IsAssociated maxD cd d p = Except.ok r :=
      fun d hd => hno d (List.mem_cons_of_mem _ hd)
    obtain ⟨⟨best, bd⟩, hbest, -⟩ := findBestParent_spec maxD cd d0 l
      (hno d0 (List.mem_cons_self _ _)) (none, FLT_MAX)
    unfold buildAssociations
    rw [hbest]
    cases best with
    | none =>
      simp only
      obtain ⟨m1, h1, h2⟩ := ih hrest m
      refine ⟨m1, h1, ?_⟩
      intro d par
      rw [h2 d par]
      constructor
      · rintro (h | ⟨hn, hd, disp, hf⟩)
        · exact Or.inl h
        · exact Or.inr ⟨hn, List.mem_cons_of_mem _ hd, disp, hf⟩
      · rintro (h | ⟨hn, hd, disp, hf⟩)
        · exact Or.inl h
        · rcases List.mem_cons.mp hd with rfl | hd
          · rw [hbest] at hf
            simp at hf
          · exact Or.inr ⟨hn, hd, disp, hf⟩
    | some b =>
      simp only
      obtain ⟨m1, h1, h2⟩ := ih hrest (mapInsert m d0 b)
      refine ⟨m1, h1, ?_⟩
      intro d par
      rw [h2 d par, mapFind_mapInsert]
      by_cases hd0 : d0 = d
      · subst hd0
        simp only [if_true]
        cases hm : mapFind m d0 with
        | none =>
          simp only [Option.getD_none, Option.some.injEq, List.mem_cons, true_or, true_and,
            false_or, reduceCtorEq, false_and, or_false, hbest, Except.ok.injEq, Prod.mk.injEq,
            exists_eq_right]
          exact ⟨fun h => ⟨bd, h, rfl⟩, fun ⟨_, h, _⟩ => h⟩
        | some v =>
          simp
      · have hd1 : ¬ d = d0 := fun e => hd0 e.symm
        simp [hd0, hd1]

/-! ## The cluster loops of IsAssociated -/

theorem matchParentClusters_eq (maxD : ℚ) (cd : Cluster → Cluster → ℚ) (dc : Cluster)
    (pl : List Cluster) :
    ∀ st, matchParentClusters maxD cd dc pl st =
      ⟨st.sumViews + ((matchedParentClusters maxD cd dc pl).length : ℚ),
        (matchedParentClusters maxD cd dc pl).foldl
          (fun sum pc => floatAdd sum (deltaSquared cd pc dc)) st.sumDeltaSquared,
        st.foundMatch || !(matchedParentClusters maxD cd dc pl).isEmpty⟩ := by
  induction pl with
  | nil =>
    intro st
    simp [matchParentClusters, matchedParentClusters]
  | cons pc rest ih =>
    intro st
    unfold matchParentClusters
    by_cases htype : dc.hitType = pc.hitType
    · have hfilter : (pc :: rest).filter (fun c => decide (dc.hitType = c.hitType)) =
          pc :: rest.filter (fun c => decide (dc.hitType = c.hitType)) := by
        simp [List.filter_cons, htype]
      rw [if_neg (not_not.mpr htype)]
      by_cases hlen : dc.lengthSquared > (1 / 2) * pc.lengthSquared
      · rw [if_pos hlen]
        have hm : matchedParentClusters maxD cd dc (pc :: rest) = [] := by
          unfold matchedParentClusters
          rw [hfilter]
          exact List.takeWhile_cons_of_neg
            (by simp only [decide_eq_true_eq]; exact fun h => h.1 hlen)
        simp [hm]
      · rw [if_neg hlen]
        by_cases hdist : deltaSquared cd pc dc > floatMul 5 maxD
        · rw [if_pos hdist]
          have hm : matchedParentClusters maxD cd dc (pc :: rest) = [] := by
            unfold matchedParentClusters
            rw [hfilter]
            exact List.takeWhile_cons_of_neg
              (by simp only [decide_eq_true_eq]; exact fun h => h.2 hdist)
          simp [hm]
        · rw [if_neg hdist]
          have hm : matchedParentClusters maxD cd dc (pc :: rest) =
              pc :: matchedParentClusters maxD cd dc rest := by
            unfold matchedParentClusters
            rw [hfilter]
            exact List.takeWhile_cons_of_pos
              (by simp only [decide_eq_true_eq]; exact ⟨hlen, hdist⟩)
          rw [ih, hm]
          simp only [List.length_cons, List.foldl_cons, List.isEmpty_cons,
            Bool.not_false, Bool.or_true, Bool.true_or, Nat.cast_add, Nat.cast_one,
            ViewSums.mk.injEq, and_true]
          ring
    · rw [if_pos htype]
      have hm : matchedParentClusters maxD cd dc (pc :: rest) =
          matchedParentClusters maxD cd dc rest := by
        unfold matchedParentClusters
        simp [List.filter_cons, htype]
      rw [ih, hm]

theorem matchDaughterClusters_none (maxD : ℚ) (cd : Cluster → Cluster → ℚ) (pl : List Cluster)
    (dl : List Cluster) :
    (∃ dc ∈ dl, dc.hitType ≠ HitType.TPC_3D ∧ matchedParentClusters maxD cd dc pl = []) →
    ∀ st, matchDaughterClusters maxD cd pl dl st = none := by
  induction dl with
  | nil => intro h; simp at h
  | cons c rest ih =>
    intro hex st
    unfold matchDaughterClusters
    by_cases h3 : c.hitType = HitType.TPC_3D
    · rw [if_pos h3]
      apply ih
      obtain ⟨dc, hdc, h2d, hm⟩ := hex
      rcases List.mem_cons.mp hdc with rfl | hdc
      · exact absurd h3 h2d
      · exact ⟨dc, hdc, h2d, hm⟩
    · rw [if_neg h3]
      by_cases hfound : (matchParentClusters maxD cd c pl
          ⟨st.sumViews, st.sumDeltaSquared, false⟩).foundMatch = false
      · rw [if_pos hfound]
      · rw [if_neg hfound]
        apply ih
        obtain ⟨dc, hdc, h2d, hm⟩ := hex
        rcases List.mem_cons.mp hdc with rfl | hdc
        · rw [matchParentClusters_eq, hm] at hfound
          simp at hfound
        · exact ⟨dc, hdc, h2d, hm⟩

theorem matchDaughterClusters_some (maxD : ℚ) (cd : Cluster → Cluster → ℚ) (pl : List Cluster)
    (dl : List Cluster) :
    (∀ dc ∈ dl, dc.hitType ≠ HitType.TPC_3D → matchedParentClusters maxD cd dc pl ≠ []) →
    ∀ st, ∃ st1, matchDaughterClusters maxD cd pl dl st = some st1 ∧
      st1.sumViews = st.sumViews +
        ((((dl.filter (fun c => decide (c.hitType ≠ HitType.TPC_3D))).flatMap
          (fun dc => (matchedParentClusters maxD cd dc pl).map (fun pc => (pc, dc)))).length :
            ℕ) : ℚ) ∧
      st1.sumDeltaSquared = sumSquaredDistances cd
        ((dl.filter (fun c => decide (c.hitType ≠ HitType.TPC_3D))).flatMap
          (fun dc => (matchedParentClusters maxD cd dc pl).map (fun pc => (pc, dc))))
        st.sumDeltaSquared := by
  induction dl with
  | nil =>
    intro _ st
    exact ⟨st, rfl, by simp, by simp [sumSquaredDistances]⟩
  | cons c rest ih =>
    intro hall st
    have hrest : ∀ dc ∈ rest, dc.hitType ≠ HitType.TPC_3D →
        matchedParentClusters maxD cd dc pl ≠ [] :=
      fun dc hdc => hall dc (List.mem_cons_of_mem _ hdc)
    unfold matchDaughterClusters
    by_cases h3 : c.hitType = HitType.TPC_3D
    · rw [if_pos h3]
      obtain ⟨st1, h1, h2, h4⟩ := ih hrest st
      refine ⟨st1, h1, ?_, ?_⟩
      · rw [h2]
        simp [List.filter_cons, h3]
      · rw [h4]
        simp [List.filter_cons, h3]
    · rw [if_neg h3]
      have hm := hall c (List.mem_cons_self _ _) h3
      have hfound : ¬ (matchParentClusters maxD cd c pl
          ⟨st.sumViews, st.sumDeltaSquared, false⟩).foundMatch = false := by
        rw [matchParentClusters_eq]
        cases hmc : matchedParentClusters maxD cd c pl with
        | nil => exact absurd hmc hm
        | cons a t => simp
      rw [if_neg hfound]
      obtain ⟨st1, h1, h2, h4⟩ := ih hrest (matchParentClusters maxD cd c pl
        ⟨st.sumViews, st.sumDeltaSquared, false⟩)
      refine ⟨st1, h1, ?_, ?_⟩
      · rw [h2, matchParentClusters_eq]
        simp only [List.filter_cons, h3, ne_eq, not_false_eq_true, decide_True, if_true,
          List.flatMap_cons, List.length_append, List.length_map, Nat.cast_add]
        ring
      · rw [h4, matchParentClusters_eq]
        simp only [List.filter_cons, h3, ne_eq, not_false_eq_true, decide_True, if_true,
          List.flatMap_cons, sumSquaredDistances, List.foldl_append, List.foldl_map]

theorem IsAssociated_false_sentinel (maxD : ℚ) (cd : Cluster → Cluster → ℚ)
    (d p : ParticleFlowObject) (x : ℚ)
    (h : IsAssociated maxD cd d p = Except.ok (false, x)) : x = FLT_MAX := by
  unfold IsAssociated at h
  split_ifs at h with hdp
  · simp only [Except.ok.injEq, Prod.mk.injEq, true_and] at h
    exact h.symm
  · split at h
    · simp only [Except.ok.injEq, Prod.mk.injEq, true_and] at h
      exact h.symm
    · split_ifs at h with heps hgt
      · simp only [Except.ok.injEq, Prod.mk.injEq, true_and] at h
        exact h.symm
      · simp at h

/-! ## C1 -/

/-- C1: `GetMCParticleToPfoMatches` started with empty outputs on contributions without any
3-D hit returns, and for every truth particle `p` of the full matching table that has a
candidate object, `mcToBestPfoMap[p]` is a candidate of `p` whose contributed-hit list is at
least as long as that of every candidate of `p`, and `mcToBestPfoHitsMap[p]` is exactly that
candidate's list in the full table. -/
theorem C1_best_match_is_largest_candidate
    (SortByNHits : ParticleFlowObject → ParticleFlowObject → Bool)
    (SortByMomentum : MCParticle → MCParticle → Bool) (pCaloHitList : List CaloHit)
    (pfoToHitListMap : PfoContributionMap) (hitToPrimaryMCMap : CaloHitToMCMap)
    (h3 : NoThreeDHits pfoToHitListMap) :
    ∃ res, GetMCParticleToPfoMatches SortByNHits SortByMomentum pCaloHitList pfoToHitListMap
        hitToPrimaryMCMap PfoMatches.empty = Except.ok res ∧
      ∀ p inner x hs, mapFind res.mcToFullPfoMatchingMap p = some inner →
        mapFind inner x = some hs →
        ∃ best bestHits, mapFind res.mcToBestPfoMap p = some best ∧
          mapFind inner best = some bestHits ∧
          mapFind res.mcToBestPfoHitsMap p = some bestHits ∧
          ∀ y hy, mapFind inner y = some hy → hy.length ≤ bestHits.length := by
  obtain ⟨full, hfull⟩ := fillMatchingMap_ok pCaloHitList pfoToHitListMap hitToPrimaryMCMap h3
    (listSort SortByNHits (mapKeys pfoToHitListMap)) []
  have hne : NonemptyEntries full :=
    fillMatchingMap_nonempty _ _ _ _ [] full nonemptyEntries_nil hfull
  refine ⟨⟨(resolveBestMatches SortByNHits full (listSort SortByMomentum (mapKeys full))
      ([], [])).1, (resolveBestMatches SortByNHits full (listSort SortByMomentum (mapKeys full))
      ([], [])).2, full⟩, ?_, ?_⟩
  · simp only [GetMCParticleToPfoMatches, PfoMatches.empty, hfull]
  · intro p inner x hs hp hx
    simp only at hp
    obtain ⟨b, bh, hbest, hb, hmax⟩ :=
      bestMatchOf_spec SortByNHits full p inner x hs hp hx (hne p inner x hs hp hx)
    have hpmem : p ∈ listSort SortByMomentum (mapKeys full) := by
      rw [mem_listSort]
      exact (mapFind_isSome_iff full p).mp ⟨inner, hp⟩
    obtain ⟨hr1, hr2⟩ := resolveBestMatches_find SortByNHits full p b bh hbest
      (listSort SortByMomentum (mapKeys full)) ([], [])
    rw [if_pos hpmem] at hr1 hr2
    exact ⟨b, bh, hr1, hb, hr2, hmax⟩

/-- Witness of C1 in the scenario of the specification: truth particle `7` contributes ten
hits to X and four to Y; the best match of `7` is X with exactly its ten hits. -/
theorem C1_best_match_is_largest_candidate_witness :
    NoThreeDHits scenarioPfoToHits ∧
    (∃ res, GetMCParticleToPfoMatches pfoById mcByAddress (hitsX ++ hitsY) scenarioPfoToHits
        scenarioHitToMC PfoMatches.empty = Except.ok res ∧
      ∀ p inner x hs, mapFind res.mcToFullPfoMatchingMap p = some inner →
        mapFind inner x = some hs →
        ∃ best bestHits, mapFind res.mcToBestPfoMap p = some best ∧
          mapFind inner best = some bestHits ∧
          mapFind res.mcToBestPfoHitsMap p = some bestHits ∧
          ∀ y hy, mapFind inner y = some hy → hy.length ≤ bestHits.length) ∧
    GetMCParticleToPfoMatches pfoById mcByAddress (hitsX ++ hitsY) scenarioPfoToHits
        scenarioHitToMC PfoMatches.empty =
      Except.ok ⟨[(7, pfoX)], [(7, hitsX)], [(7, [(pfoX, hitsX), (pfoY, hitsY)])]⟩ ∧
    hitsX.length = 10 :=
  ⟨by decide,
    C1_best_match_is_largest_candidate pfoById mcByAddress (hitsX ++ hitsY) scenarioPfoToHits
      scenarioHitToMC (by decide),
    by rfl, by decide⟩

/-! ## GetParent and BuildParentDaughterLinks -/

theorem walkToParent_spec (m : PfoAssociationMap) (fuel : Nat) :
    ∀ (p : ParticleFlowObject) (cur r : Option ParticleFlowObject),
      walkToParent m fuel p cur = some r →
      (mapFind m p = none ∧ r = cur) ∨
        ∃ n root, 0 < n ∧ followChain m n p = some root ∧ mapFind m root = none ∧
          r = some root := by
  induction fuel with
  | zero => intro p cur r h; simp [walkToParent] at h
  | succ fuel ih =>
    intro p cur r h
    unfold walkToParent at h
    cases hp : mapFind m p with
    | none =>
      rw [hp] at h
      simp only [Option.some.injEq] at h
      exact Or.inl ⟨rfl, h.symm⟩
    | some parent =>
      rw [hp] at h
      simp only at h
      right
      rcases ih parent (some parent) r h with ⟨hnone, hr⟩ | ⟨n, root, hn, hchain, hroot, hr⟩
      · exact ⟨1, parent, Nat.one_pos, by simp [followChain, hp], hnone, hr⟩
      · exact ⟨n + 1, root, Nat.succ_pos n, by simp [followChain, hp, hchain], hroot, hr⟩

theorem GetParent_of_key (m : PfoAssociationMap) (fuel : Nat) (d par : ParticleFlowObject)
    (r : Option ParticleFlowObject) (hd : mapFind m d = some par)
    (h : GetParent fuel m d = some r) :
    ∃ n root, 0 < n ∧ followChain m n d = some root ∧ mapFind m root = none ∧ r = some root := by
  rcases walkToParent_spec m fuel d none r h with ⟨hnone, -⟩ | h
  · rw [hd] at hnone
    exact absurd hnone (by simp)
  · exact h

theorem followChain_of_not_key (m : PfoAssociationMap) (p q : ParticleFlowObject) (n : Nat)
    (hp : mapFind m p = none) (h : followChain m n p = some q) : q = p := by
  cases n with
  | zero => simpa [followChain] using h.symm
  | succ n => simp [followChain, hp] at h

theorem linkEntries_spec (SetRel : ParticleFlowObject → ParticleFlowObject → StatusCode)
    (fuel : Nat) (m : PfoAssociationMap)
    (entries : List (ParticleFlowObject × ParticleFlowObject)) :
    ∀ st st1, linkEntries SetRel fuel m entries st = some (Except.ok st1) →
      (∀ q d, (q, d) ∈ st.links → GetParent fuel m d = some (some q)) →
      (∀ q d, (q, d) ∈ st1.links → GetParent fuel m d = some (some q)) ∧
      (∀ e ∈ entries, ∃ q, GetParent fuel m e.1 = some (some q) ∧ (q, e.1) ∈ st1.links) ∧
      (∀ l, l ∈ st.links → l ∈ st1.links) := by
  induction entries with
  | nil =>
    intro st st1 h hinv
    simp only [linkEntries, Option.some.injEq, Except.ok.injEq] at h
    subst h
    exact ⟨hinv, by simp, fun l hl => hl⟩
  | cons entry rest ih =>
    intro st st1 h hinv
    unfold linkEntries at h
    cases hg : GetParent fuel m entry.1 with
    | none => rw [hg] at h; simp at h
    | some r =>
      cases r with
      | none => rw [hg] at h; simp at h
      | some pParentPfo =>
        rw [hg] at h
        simp only at h
        split_ifs at h with hset
        · simp at h
        have hinv1 : ∀ q d, (q, d) ∈ st.links ++ [(pParentPfo, entry.1)] →
            GetParent fuel m d = some (some q) := by
          intro q d hmem
          rcases List.mem_append.mp hmem with hmem | hmem
          · exact hinv q d hmem
          · simp only [List.mem_singleton, Prod.mk.injEq] at hmem
            rw [hmem.1, hmem.2]
            exact hg
        obtain ⟨h1, h2, h3⟩ := ih _ st1 h hinv1
        refine ⟨h1, ?_, ?_⟩
        · intro e he
          rcases List.mem_cons.mp he with rfl | he
          · exact ⟨pParentPfo, hg, h3 _ (by simp)⟩
          · exact h2 e he
        · intro l hl
          exact h3 l (List.mem_append_left _ hl)

/-! ## C2 -/

/-- C2 (amended): when `BuildParentDaughterLinks`, started with nothing committed, returns
normally, then for every entry (daughter -> parent) of the association map the committed
relationship links the daughter to the root ancestor reached by following the chain from the
daughter, the node that has no entry of its own; every committed link of that daughter has
this root as parent, and the root is the immediate parent exactly when the immediate parent
has no entry of its own. -/
theorem C2_links_daughter_to_chain_root
    (SetRel : ParticleFlowObject → ParticleFlowObject → StatusCode) (fuel : Nat)
    (m : PfoAssociationMap) (st : LinkState)
    (h : BuildParentDaughterLinks SetRel fuel m ⟨[], []⟩ = some (Except.ok st))
    (d par : ParticleFlowObject) (hd : mapFind m d = some par) :
    ∃ n root, 0 < n ∧ followChain m n d = some root ∧ mapFind m root = none ∧
      (∀ q, (q, d) ∈ st.links ↔ q = root) ∧ (root = par ↔ mapFind m par = none) := by
  obtain ⟨h1, h2, -⟩ := linkEntries_spec SetRel fuel m m ⟨[], []⟩ st h (by simp)
  obtain ⟨q, hq, hqmem⟩ := h2 (d, par) (mapFind_mem hd)
  obtain ⟨n, root, hn, hchain, hroot, hr⟩ := GetParent_of_key m fuel d par (some q) hd hq
  simp only [Option.some.injEq] at hr
  subst hr
  refine ⟨n, q, hn, hchain, hroot, ?_, ?_⟩
  · intro q1
    constructor
    · intro hmem
      have := h1 q1 d hmem
      rw [hq] at this
      simp only [Option.some.injEq] at this
      exact this.symm
    · intro heq
      rw [heq]
      exact hqmem
  · constructor
    · intro heq
      rw [← heq]
      exact hroot
    · intro hpar
      obtain ⟨k, rfl⟩ := Nat.exists_eq_succ_of_ne_zero (Nat.pos_iff_ne_zero.mp hn)
      simp only [followChain, hd] at hchain
      exact followChain_of_not_key m par q k hpar hchain

/-- Witness of C2 (amended) on the chain A -> B, B -> C at the entry of A. -/
theorem C2_links_daughter_to_chain_root_witness :
    ∃ n root, 0 < n ∧ followChain chainMap n pfoA = some root ∧ mapFind chainMap root = none ∧
      (∀ q, (q, pfoA) ∈
        ({ links := [(pfoC, pfoA), (pfoC, pfoB)], outputPfoList := [pfoA, pfoB] } :
          LinkState).links ↔ q = root) ∧
      (root = pfoB ↔ mapFind chainMap pfoB = none) :=
  C2_links_daughter_to_chain_root alwaysSuccess 3 chainMap
    ⟨[(pfoC, pfoA), (pfoC, pfoB)], [pfoA, pfoB]⟩ (by rfl) pfoA pfoB (by decide)

/-- Counterexample to C2 as stated: for the map A -> B, B -> C the relationship committed
for A is (C, A), the root of the chain, and the immediate pair (B, A) is not committed. -/
theorem C2_counterexample_chain_links_root :
    mapFind chainMap pfoA = some pfoB ∧
    ∃ st, BuildParentDaughterLinks alwaysSuccess 3 chainMap ⟨[], []⟩ = some (Except.ok st) ∧
      (pfoC, pfoA) ∈ st.links ∧ (pfoB, pfoA) ∉ st.links :=
  ⟨by decide, ⟨[(pfoC, pfoA), (pfoC, pfoB)], [pfoA, pfoB]⟩, by rfl, by decide, by decide⟩

/-! ## C3 -/

theorem followChain_add (m : PfoAssociationMap) (a b : Nat) :
    ∀ p, followChain m (a + b) p =
      (match followChain m a p with
        | none => none
        | some q => followChain m b q) := by
  induction a with
  | zero => intro p; simp [followChain]
  | succ a ih =>
    intro p
    rw [Nat.succ_add]
    cases hp : mapFind m p with
    | none => simp [followChain, hp]
    | some parent => simp [followChain, hp, ih parent]

theorem followChain_cycle_mul (m : PfoAssociationMap) (p : ParticleFlowObject) (k : Nat)
    (hk : followChain m k p = some p) (j : Nat) : followChain m (k * j) p = some p := by
  induction j with
  | zero => simp [followChain]
  | succ j ih =>
    rw [Nat.mul_succ, Nat.add_comm, followChain_add, hk]
    exact ih

theorem followChain_cycle_some (m : PfoAssociationMap) (p : ParticleFlowObject) (k : Nat)
    (hpos : 0 < k) (hk : followChain m k p = some p) (n : Nat) :
    ∃ q, followChain m n p = some q := by
  cases hn : followChain m n p with
  | some q => exact ⟨q, rfl⟩
  | none =>
    exfalso
    have hle : n ≤ k * n := Nat.le_mul_of_pos_left n hpos
    obtain ⟨c, hc⟩ := Nat.exists_eq_add_of_le hle
    have h1 := followChain_cycle_mul m p k hk n
    rw [hc, followChain_add, hn] at h1
    simp at h1

theorem walkToParent_none_of_chain (m : PfoAssociationMap) (fuel : Nat) :
    ∀ (p : ParticleFlowObject) (cur : Option ParticleFlowObject),
      (∀ n, ∃ q, followChain m n p = some q) → walkToParent m fuel p cur = none := by
  induction fuel with
  | zero => intro p cur _; rfl
  | succ fuel ih =>
    intro p cur h
    unfold walkToParent
    cases hp : mapFind m p with
    | none =>
      obtain ⟨q, hq⟩ := h 1
      simp [followChain, hp] at hq
    | some parent =>
      simp only
      apply ih
      intro n
      obtain ⟨q, hq⟩ := h (n + 1)
      simp only [followChain, hp] at hq
      exact ⟨q, hq⟩

theorem GetParent_key_ne_null (m : PfoAssociationMap) (fuel : Nat) (d par : ParticleFlowObject)
    (hd : mapFind m d = some par) : GetParent fuel m d ≠ some none := by
  intro h
  obtain ⟨n, root, -, -, -, hr⟩ := GetParent_of_key m fuel d par none hd h
  simp at hr

theorem linkEntries_none_of_cycle (SetRel : ParticleFlowObject → ParticleFlowObject → StatusCode)
    (hSet : ∀ a b, SetRel a b = StatusCode.STATUS_CODE_SUCCESS) (fuel : Nat)
    (m : PfoAssociationMap) (p : ParticleFlowObject)
    (hp : GetParent fuel m p = none)
    (entries : List (ParticleFlowObject × ParticleFlowObject)) :
    (∀ e ∈ entries, ∃ par, mapFind m e.1 = some par) → (∃ e ∈ entries, e.1 = p) →
      ∀ st, linkEntries SetRel fuel m entries st = none := by
  induction entries with
  | nil => intro _ h; simp at h
  | cons entry rest ih =>
    intro hkeys hmem st
    unfold linkEntries
    cases hg : GetParent fuel m entry.1 with
    | none => rfl
    | some r =>
      cases r with
      | none =>
        obtain ⟨par, hpar⟩ := hkeys entry (List.mem_cons_self _ _)
        exact absurd hg (GetParent_key_ne_null m fuel entry.1 par hpar)
      | some pParentPfo =>
        simp only [hSet, ne_eq, not_true_eq_false, if_false]
        apply ih (fun e he => hkeys e (List.mem_cons_of_mem _ he))
        obtain ⟨e, he, hep⟩ := hmem
        rcases List.mem_cons.mp he with rfl | he
        · rw [hep, hp] at hg
          simp at hg
        · exact ⟨e, he, hep⟩

theorem mapFind_fst_of_mem {α β : Type} [DecidableEq α] (m : Map α β) (e : α × β) (he : e ∈ m) :
    ∃ v, mapFind m e.1 = some v :=
  (mapFind_isSome_iff m e.1).mpr (by simpa [mapKeys] using ⟨e.2, he⟩)

/-- C3 (amended): for an association map containing a cycle, `GetParent` started on a node of
the cycle does not terminate: whatever the number of loop iterations allowed, the walk is
still inside the map and nothing is returned. Consequently `BuildParentDaughterLinks` (with a
framework call that succeeds) neither returns nor reports a failure on such a map. -/
theorem C3_cycle_walk_never_returns (m : PfoAssociationMap) (p : ParticleFlowObject) (k : Nat)
    (hpos : 0 < k) (hcycle : followChain m k p = some p) :
    (∀ fuel, GetParent fuel m p = none) ∧
    ∀ SetRel : ParticleFlowObject → ParticleFlowObject → StatusCode,
      (∀ a b, SetRel a b = StatusCode.STATUS_CODE_SUCCESS) →
      ∀ fuel st, BuildParentDaughterLinks SetRel fuel m st = none := by
  have hwalk : ∀ fuel, GetParent fuel m p = none := fun fuel =>
    walkToParent_none_of_chain m fuel p none (followChain_cycle_some m p k hpos hcycle)
  refine ⟨hwalk, ?_⟩
  intro SetRel hSet fuel st
  have hkey : ∃ par, mapFind m p = some par := by
    obtain ⟨j, rfl⟩ := Nat.exists_eq_succ_of_ne_zero (Nat.pos_iff_ne_zero.mp hpos)
    cases hp : mapFind m p with
    | none => simp [followChain, hp] at hcycle
    | some par => exact ⟨par, rfl⟩
  obtain ⟨par, hpar⟩ := hkey
  exact linkEntries_none_of_cycle SetRel hSet fuel m p (hwalk fuel) m
    (fun e he => mapFind_fst_of_mem m e he) ⟨(p, par), mapFind_mem hpar, rfl⟩ st

/-- Witness of C3 (amended) on the three-node cycle A -> B, B -> C, C -> A. -/
theorem C3_cycle_walk_never_returns_witness :
    (∀ fuel, GetParent fuel cycleMap pfoA = none) ∧
    ∀ SetRel : ParticleFlowObject → ParticleFlowObject → StatusCode,
      (∀ a b, SetRel a b = StatusCode.STATUS_CODE_SUCCESS) →
      ∀ fuel st, BuildParentDaughterLinks SetRel fuel cycleMap st = none :=
  C3_cycle_walk_never_returns cycleMap pfoA 3 (by decide) (by rfl)

/-- Counterexample to C3 as stated: on the three-node cycle A -> B, B -> C, C -> A there is
no number of loop iterations after which `BuildParentDaughterLinks` has returned or raised;
in particular no fatal failure is ever reported. -/
theorem C3_counterexample_cycle_never_fails :
    ¬ ∃ fuel r, BuildParentDaughterLinks alwaysSuccess fuel cycleMap ⟨[], []⟩ = some r := by
  rintro ⟨fuel, r, h⟩
  have hnone : BuildParentDaughterLinks alwaysSuccess fuel cycleMap ⟨[], []⟩ = none :=
    linkEntries_none_of_cycle alwaysSuccess (fun _ _ => rfl) fuel cycleMap pfoA
      (walkToParent_none_of_chain cycleMap fuel pfoA none
        (followChain_cycle_some cycleMap pfoA 3 (by decide) (by rfl)))
      cycleMap (fun e he => mapFind_fst_of_mem cycleMap e he)
      ⟨(pfoA, pfoB), by decide, rfl⟩ ⟨[], []⟩
  rw [hnone] at h
  simp at h

/-! ## C4 -/

/-- C4 (defect of the code): on two maps that share truth particle `1`, whose sorted keys are
`[1, 2]` and `[1]`, the combined output `[1, 2, 1]` holds `1` twice, yet
`GetOrderedMCParticleVector` returns it without the already-present error, because the two
occurrences are not adjacent and `std::unique` only merges adjacent equal elements. -/
theorem C4_nonadjacent_duplicate_not_detected :
    GetOrderedMCParticleVector collidingMaps [] = Except.ok [1, 2, 1] ∧
    ¬ ([1, 2, 1] : List MCParticle).Nodup ∧
    (∃ m1 ∈ collidingMaps, ∃ m2 ∈ collidingMaps, m1 ≠ m2 ∧
      (1 : MCParticle) ∈ mapKeys m1 ∧ (1 : MCParticle) ∈ mapKeys m2) :=
  ⟨by rfl, by decide, by decide⟩

/-! ## C5 -/

/-- C5: for a threshold below the largest float and an object list on which `IsAssociated`
does not raise, `BuildAssociationMap` started with an empty map returns a map in which a
daughter `d` has an entry iff `d` is in the list and some other object of the list is
associated with `d`; the recorded parent is not `d`, is associated with `d`, its displacement
is at most that of every other associated candidate, and strictly below that of every
associated candidate that comes earlier in the list (the first of several minimal candidates
is the one recorded). -/
theorem C5_association_is_first_closest_compatible (maxD : ℚ) (cd : Cluster → Cluster → ℚ)
    (l : List ParticleFlowObject) (hmax : maxD < FLT_MAX)
    (hno : ∀ d ∈ l, ∀ p ∈ l, d ≠ p → (IsAssociated maxD cd d p).isOk = true) :
    ∃ m, BuildAssociationMap maxD cd l [] = Except.ok m ∧
      (∀ d, (∃ par, mapFind m d = some par) ↔
        d ∈ l ∧ ∃ p ∈ l, p ≠ d ∧ ∃ dp, IsAssociated maxD cd d p = Except.ok (true, dp)) ∧
      (∀ d par, mapFind m d = some par →
        par ≠ d ∧ ∃ disp, IsAssociated maxD cd d par = Except.ok (true, disp) ∧
          (∀ p ∈ l, p ≠ d → ∀ dp, IsAssociated maxD cd d p = Except.ok (true, dp) →
            disp ≤ dp) ∧
          ∃ l1 l2, l = l1 ++ par :: l2 ∧
            ∀ x ∈ l1, x ≠ d → ∀ dx, IsAssociated maxD cd d x = Except.ok (true, dx) →
              disp < dx) := by
  have hno1 : ∀ d ∈ l, ∀ p ∈ l, d ≠ p → ∃ r, IsAssociated maxD cd d p = Except.ok r :=
    fun d hd p hp hdp => (isOk_iff _).mp (hno d hd p hp hdp)
  obtain ⟨m, hm, hfind⟩ := buildAssociations_spec maxD cd l l hno1 []
  have hfind1 : ∀ d par, mapFind m d = some par ↔
      (d ∈ l ∧ ∃ disp, findBestParent maxD cd d l (none, FLT_MAX) =
        Except.ok (some par, disp)) := by
    intro d par
    rw [hfind d par]
    simp [mapFind]
  refine ⟨m, hm, ?_, ?_⟩
  · intro d
    constructor
    · rintro ⟨par, hpar⟩
      obtain ⟨hd, disp, hbest⟩ := (hfind1 d par).mp hpar
      refine ⟨hd, ?_⟩
      obtain ⟨st1, h1, h2⟩ := findBestParent_spec maxD cd d l (hno1 d hd) (none, FLT_MAX)
      rw [hbest] at h1
      simp only [Except.ok.injEq] at h1
      subst h1
      rcases h2 with ⟨heq, -⟩ | ⟨l1, p, l2, hl, hp, hass, -, -, -, -⟩
      · simp at heq
      · exact ⟨p, by simp [hl], hp, _, hass⟩
    · rintro ⟨hd, p, hp, hpd, dp, hass⟩
      obtain ⟨st1, h1, h2⟩ := findBestParent_spec maxD cd d l (hno1 d hd) (none, FLT_MAX)
      rcases h2 with ⟨-, hall⟩ | ⟨l1, q, l2, hl, hq, hassq, hsome, -, -, -⟩
      · have h3 := hall p hp hpd dp hass
        have h4 := IsAssociated_true_le maxD cd d p dp hass
        simp only at h3
        exact absurd (lt_of_le_of_lt (le_trans h3 h4) hmax) (lt_irrefl _)
      · refine ⟨q, (hfind1 d q).mpr ⟨hd, st1.2, ?_⟩⟩
        rw [h1, ← hsome]
  · intro d par hpar
    obtain ⟨hd, disp, hbest⟩ := (hfind1 d par).mp hpar
    obtain ⟨st1, h1, h2⟩ := findBestParent_spec maxD cd d l (hno1 d hd) (none, FLT_MAX)
    rw [hbest] at h1
    simp only [Except.ok.injEq] at h1
    subst h1
    rcases h2 with ⟨heq, -⟩ | ⟨l1, p, l2, hl, hp, hass, hsome, -, hbefore, hafter⟩
    · simp at heq
    · simp only [Option.some.injEq] at hsome
      subst hsome
      simp only at hass hbefore hafter
      refine ⟨hp, disp, hass, ?_, l1, l2, hl, hbefore⟩
      intro x hx hxd dx hdx
      rw [hl] at hx
      rcases List.mem_append.mp hx with hx | hx
      · exact le_of_lt (hbefore x hx hxd dx hdx)
      · rcases List.mem_cons.mp hx with rfl | hx
        · rw [hass] at hdx
          simp only [Except.ok.injEq, Prod.mk.injEq, true_and] at hdx
          exact le_of_eq hdx
        · exact hafter x hx hxd dx hdx

/-- Witness of C5: a daughter with two candidate parents at the same displacement `1`; the
first candidate of the list is recorded. -/
theorem C5_association_is_first_closest_compatible_witness :
    (9 : ℚ) < FLT_MAX ∧
    (BuildAssociationMap 9 distanceOne [pfoD, pfoP1, pfoP2] []).toOption =
      some [(pfoD, pfoP1)] ∧
    ∃ m, BuildAssociationMap 9 distanceOne [pfoD, pfoP1, pfoP2] [] = Except.ok m ∧
      (∀ d, (∃ par, mapFind m d = some par) ↔
        d ∈ [pfoD, pfoP1, pfoP2] ∧ ∃ p ∈ [pfoD, pfoP1, pfoP2], p ≠ d ∧
          ∃ dp, IsAssociated 9 distanceOne d p = Except.ok (true, dp)) ∧
      (∀ d par, mapFind m d = some par →
        par ≠ d ∧ ∃ disp, IsAssociated 9 distanceOne d par = Except.ok (true, disp) ∧
          (∀ p ∈ [pfoD, pfoP1, pfoP2], p ≠ d →
            ∀ dp, IsAssociated 9 distanceOne d p = Except.ok (true, dp) → disp ≤ dp) ∧
          ∃ l1 l2, [pfoD, pfoP1, pfoP2] = l1 ++ par :: l2 ∧
            ∀ x ∈ l1, x ≠ d → ∀ dx, IsAssociated 9 distanceOne d x = Except.ok (true, dx) →
              disp < dx) :=
  ⟨by decide!, by decide!,
    C5_association_is_first_closest_compatible 9 distanceOne [pfoD, pfoP1, pfoP2] (by decide!)
      (by decide!)⟩

/-! ## The hit loop of GetReclusteredHits -/

theorem scanShowerHits_mem (settings : TrackConsolidationSettings)
    (closest : CartesianVector → Cluster → CartesianVector) (fit : TwoDSlidingFitResult)
    (hit : CaloHit) (hits : List CaloHit) :
    ∀ st, hit ∈ (scanShowerHits settings closest fit hits st).associatedHits ↔
      hit ∈ st.associatedHits ∨
        (hit ∈ hits ∧ ∃ positionK, fit.GetGlobalFitProjection hit.position = some positionK ∧
          rsqJK hit positionK <
            min (floatMul settings.m_maxTransverseDisplacement
                settings.m_maxTransverseDisplacement)
              (min (rsqIJ closest fit hit) (rsqKI closest fit hit positionK))) := by
  induction hits with
  | nil => intro st; simp [scanShowerHits]
  | cons h0 rest ih =>
    intro st
    unfold scanShowerHits
    cases hproj : fit.GetGlobalFitProjection h0.position with
    | none =>
      simp only
      rw [ih st]
      constructor
      · rintro (h | ⟨hm, hK⟩)
        · exact Or.inl h
        · exact Or.inr ⟨List.mem_cons_of_mem _ hm, hK⟩
      · rintro (h | ⟨hm, K, hK, hlt⟩)
        · exact Or.inl h
        · rcases List.mem_cons.mp hm with rfl | hm
          · rw [hproj] at hK
            simp at hK
          · exact Or.inr ⟨hm, K, hK, hlt⟩
    | some positionK =>
      simp only
      by_cases hadm : rsqJK h0 positionK <
          min (floatMul settings.m_maxTransverseDisplacement
                settings.m_maxTransverseDisplacement)
            (min (rsqIJ closest fit h0) (rsqKI closest fit h0 positionK))
      · rw [if_pos hadm]
        have key : ∀ a b : ℚ,
            (hit ∈ (scanShowerHits settings closest fit rest
              ⟨st.associatedHits ++ [h0], a, b⟩).associatedHits ↔
            hit ∈ st.associatedHits ∨
              (hit ∈ h0 :: rest ∧
                ∃ K, fit.GetGlobalFitProjection hit.position = some K ∧
                  rsqJK hit K <
                    min (floatMul settings.m_maxTransverseDisplacement
                        settings.m_maxTransverseDisplacement)
                      (min (rsqIJ closest fit hit) (rsqKI closest fit hit K)))) := by
          intro a b
          rw [ih]
          simp only [List.mem_append, List.mem_singleton, List.mem_cons, List.not_mem_nil,
            or_false]
          constructor
          · rintro ((h | h) | ⟨hm, hK⟩)
            · exact Or.inl h
            · exact Or.inr ⟨Or.inl h, positionK, by rw [h]; exact hproj, by rw [h]; exact hadm⟩
            · exact Or.inr ⟨Or.inr hm, hK⟩
          · rintro (h | ⟨hm | hm, hK⟩)
            · exact Or.inl (Or.inl h)
            · exact Or.inl (Or.inr hm)
            · exact Or.inr ⟨hm, hK⟩
        split_ifs
        · exact key _ _
        · exact key _ _
      · rw [if_neg hadm]
        rw [ih st]
        constructor
        · rintro (h | ⟨hm, hK⟩)
          · exact Or.inl h
          · exact Or.inr ⟨List.mem_cons_of_mem _ hm, hK⟩
        · rintro (h | ⟨hm, K, hK, hlt⟩)
          · exact Or.inl h
          · rcases List.mem_cons.mp hm with rfl | hm
            · rw [hproj] at hK
              simp only [Option.some.injEq] at hK
              subst hK
              exact absurd hlt hadm
            · exact Or.inr ⟨hm, K, hK, hlt⟩

theorem scanShowerHits_sublist (settings : TrackConsolidationSettings)
    (closest : CartesianVector → Cluster → CartesianVector) (fit : TwoDSlidingFitResult)
    (hits : List CaloHit) :
    ∀ st, ∃ added, (scanShowerHits settings closest fit hits st).associatedHits =
      st.associatedHits ++ added ∧ List.Sublist added hits := by
  induction hits with
  | nil => intro st; exact ⟨[], by simp [scanShowerHits], List.Sublist.refl _⟩
  | cons h0 rest ih =>
    intro st
    unfold scanShowerHits
    cases hproj : fit.GetGlobalFitProjection h0.position with
    | none =>
      obtain ⟨added, h1, h2⟩ := ih st
      exact ⟨added, h1, h2.cons _⟩
    | some positionK =>
      simp only
      have key : ∀ a b : ℚ, ∃ added,
          (scanShowerHits settings closest fit rest
            ⟨st.associatedHits ++ [h0], a, b⟩).associatedHits = st.associatedHits ++ added ∧
          List.Sublist added (h0 :: rest) := by
        intro a b
        obtain ⟨added, h1, h2⟩ := ih ⟨st.associatedHits ++ [h0], a, b⟩
        exact ⟨h0 :: added, by rw [h1]; simp, h2.cons₂ _⟩
      split_ifs
      · exact key _ _
      · exact key _ _
      · obtain ⟨added, h1, h2⟩ := ih st
        exact ⟨added, h1, h2.cons _⟩

/-! ## C6 -/

/-- C6: in the hit loop of `GetReclusteredHits`, started with no associated hit, the
associated hits are a sub-list of the hits of the short cluster, and a hit is associated iff
it is a hit of the short cluster whose projection succeeds, with a point `K`, and
`rsqJK < min(maxTransverseDisplacement^2, rsqIJ, rsqKI)` strictly; a hit whose `rsqJK` equals
that minimum is not associated, and a hit whose projection fails is not associated. The
four compared values are the single-precision values the code computes (`float` differences,
squares and sums). -/
theorem C6_hit_associated_iff_strictly_admissible (settings : TrackConsolidationSettings)
    (closest : CartesianVector → Cluster → CartesianVector) (fit : TwoDSlidingFitResult)
    (pClusterJ : Cluster) (hit : CaloHit) :
    List.Sublist (associationScan settings closest fit pClusterJ).associatedHits
      pClusterJ.orderedCaloHitList ∧
    (hit ∈ (associationScan settings closest fit pClusterJ).associatedHits ↔
      hit ∈ pClusterJ.orderedCaloHitList ∧
        ∃ positionK, fit.GetGlobalFitProjection hit.position = some positionK ∧
          rsqJK hit positionK <
            min (floatMul settings.m_maxTransverseDisplacement
                settings.m_maxTransverseDisplacement)
              (min (rsqIJ closest fit hit) (rsqKI closest fit hit positionK))) ∧
    (∀ positionK, fit.GetGlobalFitProjection hit.position = some positionK →
      rsqJK hit positionK =
        min (floatMul settings.m_maxTransverseDisplacement
                settings.m_maxTransverseDisplacement)
          (min (rsqIJ closest fit hit) (rsqKI closest fit hit positionK)) →
      hit ∉ (associationScan settings closest fit pClusterJ).associatedHits) ∧
    (fit.GetGlobalFitProjection hit.position = none →
      hit ∉ (associationScan settings closest fit pClusterJ).associatedHits) := by
  have hmem := scanShowerHits_mem settings closest fit hit pClusterJ.orderedCaloHitList
    ⟨[], FLT_MAX, FLT_MAX⟩
  simp only [List.not_mem_nil, false_or] at hmem
  refine ⟨?_, hmem, ?_, ?_⟩
  · obtain ⟨added, h1, h2⟩ := scanShowerHits_sublist settings closest fit
      pClusterJ.orderedCaloHitList ⟨[], FLT_MAX, FLT_MAX⟩
    unfold associationScan
    rw [h1]
    simpa using h2
  · intro positionK hK heq hin
    obtain ⟨-, K, hK1, hlt⟩ := hmem.mp hin
    rw [hK] at hK1
    simp only [Option.some.injEq] at hK1
    subst hK1
    rw [heq] at hlt
    exact lt_irrefl _ hlt
  · intro hnone hin
    obtain ⟨-, K, hK1, -⟩ := hmem.mp hin
    rw [hnone] at hK1
    simp at hK1

/-- Witness of C6: of three hits of a short cluster next to a track along the x axis, the
hit at transverse distance `1/2` is associated, the hit exactly at the bound `1` is not, and
the hit without projection is not. For the hit at the origin with the projection `(1, 0, 0)`
and the closest track position `(-1, 2^-13, 0)`, `rsqIJ` is `1` in single precision, equal to
`rsqJK`, and the hit is not associated. -/
theorem C6_hit_associated_iff_strictly_admissible_witness :
    hitInside ∈ (associationScan TrackConsolidationSettings.default closestAtOrigin fitAlongX
      ⟨202, HitType.TPC_VIEW_W, 1, [hitInside, hitOnBoundary, hitNoProjection]⟩).associatedHits ∧
    hitOnBoundary ∉ (associationScan TrackConsolidationSettings.default closestAtOrigin
      fitAlongX
      ⟨202, HitType.TPC_VIEW_W, 1, [hitInside, hitOnBoundary, hitNoProjection]⟩).associatedHits ∧
    hitNoProjection ∉ (associationScan TrackConsolidationSettings.default closestAtOrigin
      fitAlongX
      ⟨202, HitType.TPC_VIEW_W, 1, [hitInside, hitOnBoundary, hitNoProjection]⟩).associatedHits ∧
    rsqIJ closestNearMinusOne fitProjectToOne hitAtOrigin = 1 ∧
    rsqJK hitAtOrigin ⟨1, 0, 0⟩ = 1 ∧
    hitAtOrigin ∉ (associationScan ⟨2, 1, 1 / 2, false⟩ closestNearMinusOne fitProjectToOne
      ⟨203, HitType.TPC_VIEW_W, 1, [hitAtOrigin]⟩).associatedHits :=
  ⟨(C6_hit_associated_iff_strictly_admissible TrackConsolidationSettings.default
      closestAtOrigin fitAlongX
      ⟨202, HitType.TPC_VIEW_W, 1, [hitInside, hitOnBoundary, hitNoProjection]⟩
      hitInside).2.1.mpr ⟨by decide!, ⟨3, 0, 0⟩, by decide!, by decide!⟩,
    (C6_hit_associated_iff_strictly_admissible TrackConsolidationSettings.default
      closestAtOrigin fitAlongX
      ⟨202, HitType.TPC_VIEW_W, 1, [hitInside, hitOnBoundary, hitNoProjection]⟩
      hitOnBoundary).2.2.1 ⟨3, 0, 0⟩ (by decide!) (by decide!),
    (C6_hit_associated_iff_strictly_admissible TrackConsolidationSettings.default
      closestAtOrigin fitAlongX
      ⟨202, HitType.TPC_VIEW_W, 1, [hitInside, hitOnBoundary, hitNoProjection]⟩
      hitNoProjection).2.2.2 (by decide!),
    by decide!, by decide!,
    (C6_hit_associated_iff_strictly_admissible ⟨2, 1, 1 / 2, false⟩ closestNearMinusOne
      fitProjectToOne ⟨203, HitType.TPC_VIEW_W, 1, [hitAtOrigin]⟩
      hitAtOrigin).2.2.1 ⟨1, 0, 0⟩ (by decide!) (by decide!)⟩

/-! ## Span of the associated hits and the transfer loop -/

theorem scanShowerHits_span (settings : TrackConsolidationSettings)
    (closest : CartesianVector → Cluster → CartesianVector) (fit : TwoDSlidingFitResult)
    (hits : List CaloHit) :
    ∀ st, SpanInvariant fit st → SpanInvariant fit (scanShowerHits settings closest fit hits st) := by
  induction hits with
  | nil => intro st h; exact h
  | cons h0 rest ih =>
    intro st hinv
    unfold scanShowerHits
    cases hproj : fit.GetGlobalFitProjection h0.position with
    | none => exact ih st hinv
    | some positionK =>
      simp only
      have hrL : longitudinalCoordinate fit h0 = (fit.GetLocalPosition positionK).1 := by
        simp [longitudinalCoordinate, hproj]
      split_ifs with hadm hempty
      · apply ih
        right
        have hnil : st.associatedHits = [] := by simpa using hempty
        refine ⟨h0, by simp, h0, by simp, hrL.symm, hrL.symm, ?_⟩
        intro h hh
        simp only [hnil, List.nil_append, List.mem_singleton] at hh
        subst hh
        simp [hrL]
      · apply ih
        right
        have hne : st.associatedHits ≠ [] := by simpa using hempty
        rcases hinv with ⟨hnil, -⟩ | ⟨hmin, hminmem, hmax, hmaxmem, hminL, hmaxL, hall⟩
        · exact absurd hnil hne
        · have hmin1 : ∃ x ∈ st.associatedHits ++ [h0],
              min st.minL (fit.GetLocalPosition positionK).1 = longitudinalCoordinate fit x := by
            rcases le_total st.minL (fit.GetLocalPosition positionK).1 with hle | hle
            · exact ⟨hmin, List.mem_append_left _ hminmem, by rw [min_eq_left hle, hminL]⟩
            · exact ⟨h0, by simp, by rw [min_eq_right hle, hrL]⟩
          have hmax1 : ∃ x ∈ st.associatedHits ++ [h0],
              max st.maxL (fit.GetLocalPosition positionK).1 = longitudinalCoordinate fit x := by
            rcases le_total st.maxL (fit.GetLocalPosition positionK).1 with hle | hle
            · exact ⟨h0, by simp, by rw [max_eq_right hle, hrL]⟩
            · exact ⟨hmax, List.mem_append_left _ hmaxmem, by rw [max_eq_left hle, hmaxL]⟩
          obtain ⟨x, hx, hxe⟩ := hmin1
          obtain ⟨y, hy, hye⟩ := hmax1
          refine ⟨x, hx, y, hy, hxe, hye, ?_⟩
          intro h hh
          simp only
          rcases List.mem_append.mp hh with hh | hh
          · obtain ⟨h1, h2⟩ := hall h hh
            exact ⟨le_trans (min_le_left _ _) h1, le_trans h2 (le_max_left _ _)⟩
          · simp only [List.mem_singleton] at hh
            subst hh
            rw [hrL]
            exact ⟨min_le_right _ _, le_max_right _ _⟩
      · exact ih st hinv

theorem mapAt_mapUpdate_id {α γ : Type} [DecidableEq α] (m : Map α (List γ)) (k k1 : α) :
    mapAt (mapUpdate m k (fun l => l) []) k1 = mapAt m k1 := by
  unfold mapAt
  rw [mapFind_mapUpdate]
  by_cases hk : k = k1
  · subst hk
    cases mapFind m k <;> simp
  · simp [hk]

theorem mapAt_mapPushBack {α γ : Type} [DecidableEq α] (m : Map α (List γ)) (k : α) (x : γ)
    (k1 : α) :
    mapAt (mapPushBack m k x) k1 = if k = k1 then mapAt m k ++ [x] else mapAt m k1 := by
  unfold mapAt
  rw [mapFind_mapPushBack]
  by_cases hk : k = k1
  · simp [hk, mapAt]
  · simp [hk]

theorem transferHits_spec (pClusterI pClusterJ : Cluster) (hits : List CaloHit) :
    ∀ maps : ClusterToHitMap × ClusterToHitMap,
      (∀ h, h ∈ mapAt maps.2 pClusterJ →
        h ∈ mapAt (transferHits pClusterI pClusterJ hits maps).2 pClusterJ) ∧
      (∀ h, h ∈ mapAt maps.1 pClusterI →
        h ∈ mapAt (transferHits pClusterI pClusterJ hits maps).1 pClusterI) ∧
      (∀ h ∈ hits, h ∈ mapAt (transferHits pClusterI pClusterJ hits maps).2 pClusterJ) ∧
      (∀ h ∈ hits, h ∉ mapAt maps.2 pClusterJ →
        h ∈ mapAt (transferHits pClusterI pClusterJ hits maps).1 pClusterI) := by
  induction hits with
  | nil => intro maps; simp [transferHits]
  | cons h0 rest ih =>
    intro maps
    unfold transferHits
    rw [mapAt_mapUpdate_id]
    by_cases hin : h0 ∈ mapAt maps.2 pClusterJ
    · rw [if_pos hin]
      obtain ⟨h1, h2, h3, h4⟩ := ih (maps.1, mapUpdate maps.2 pClusterJ (fun l => l) [])
      simp only [mapAt_mapUpdate_id] at h1 h4
      refine ⟨h1, h2, ?_, ?_⟩
      · intro h hh
        rcases List.mem_cons.mp hh with rfl | hh
        · exact h1 _ hin
        · exact h3 h hh
      · intro h hh hnot
        rcases List.mem_cons.mp hh with rfl | hh
        · exact absurd hin hnot
        · exact h4 h hh hnot
    · rw [if_neg hin]
      obtain ⟨h1, h2, h3, h4⟩ := ih (mapPushBack maps.1 pClusterI h0,
        mapPushBack (mapUpdate maps.2 pClusterJ (fun l => l) []) pClusterJ h0)
      simp only [mapAt_mapPushBack, mapAt_mapUpdate_id, if_true, List.mem_append,
        List.mem_singleton] at h1 h2 h4
      refine ⟨fun h hh => h1 h (Or.inl hh), fun h hh => h2 h (Or.inl hh), ?_, ?_⟩
      · intro h hh
        rcases List.mem_cons.mp hh with rfl | hh
        · exact h1 _ (Or.inr rfl)
        · exact h3 h hh
      · intro h hh hnot
        rcases List.mem_cons.mp hh with rfl | hh
        · exact h2 _ (Or.inr rfl)
        · by_cases hh0 : h = h0
          · rw [hh0]
            exact h2 _ (Or.inr rfl)
          · exact h4 h hh (by simp [hnot, hh0])

/-! ## C7 -/

/-- C7: for one pairing that the volume guard does not veto, `associatedSpan` is the
single-precision difference of the largest and the smallest longitudinal coordinate of the
associated hits (zero when there is none), `associatedFraction` is the single-precision
quotient of the number of associated hits by the number of hits of the short cluster, and
the associated hits are transferred iff the span is strictly greater than
`minAssociatedSpan` or the fraction strictly greater than `minAssociatedFraction`: then
every associated hit is in the removal list of the short cluster and, unless it was there
already, in the add list of the track cluster; otherwise both maps are unchanged. With 5 of
10 hits associated, `minAssociatedFraction = 1/2` and a span not above `minAssociatedSpan`,
both maps are unchanged; so are they with 7 of 10 hits associated and
`minAssociatedFraction` the single-precision number nearest to `7/10`. -/
theorem C7_transfer_iff_span_or_fraction_exceeds (settings : TrackConsolidationSettings)
    (closest : CartesianVector → Cluster → CartesianVector) (fit : TwoDSlidingFitResult)
    (pClusterJ : Cluster) (maps : ClusterToHitMap × ClusterToHitMap)
    (hguard : ¬ (settings.m_checkInterTPCVolumeAssociations = true ∧
      CheckInterTPCVolumeAssociations fit.GetCluster pClusterJ = false)) :
    ((associationScan settings closest fit pClusterJ).associatedHits = [] →
      associatedSpan (associationScan settings closest fit pClusterJ) = 0) ∧
    ((associationScan settings closest fit pClusterJ).associatedHits ≠ [] →
      ∃ hmin ∈ (associationScan settings closest fit pClusterJ).associatedHits,
      ∃ hmax ∈ (associationScan settings closest fit pClusterJ).associatedHits,
        associatedSpan (associationScan settings closest fit pClusterJ) =
          floatSub (longitudinalCoordinate fit hmax) (longitudinalCoordinate fit hmin) ∧
        ∀ h ∈ (associationScan settings closest fit pClusterJ).associatedHits,
          longitudinalCoordinate fit hmin ≤ longitudinalCoordinate fit h ∧
          longitudinalCoordinate fit h ≤ longitudinalCoordinate fit hmax) ∧
    associatedFraction (associationScan settings closest fit pClusterJ) pClusterJ =
      floatDiv
        (roundToFloat
          ((associationScan settings closest fit pClusterJ).associatedHits.length : ℚ))
        (roundToFloat (pClusterJ.orderedCaloHitList.length : ℚ)) ∧
    ((associatedSpan (associationScan settings closest fit pClusterJ) >
          settings.m_minAssociatedSpan ∨
        associatedFraction (associationScan settings closest fit pClusterJ) pClusterJ >
          settings.m_minAssociatedFraction) →
      GetReclusteredHits settings closest fit pClusterJ maps =
        transferHits fit.GetCluster pClusterJ
          (associationScan settings closest fit pClusterJ).associatedHits maps ∧
      ∀ h ∈ (associationScan settings closest fit pClusterJ).associatedHits,
        h ∈ mapAt (GetReclusteredHits settings closest fit pClusterJ maps).2 pClusterJ ∧
        (h ∉ mapAt maps.2 pClusterJ →
          h ∈ mapAt (GetReclusteredHits settings closest fit pClusterJ maps).1
            fit.GetCluster)) ∧
    (¬ (associatedSpan (associationScan settings closest fit pClusterJ) >
          settings.m_minAssociatedSpan ∨
        associatedFraction (associationScan settings closest fit pClusterJ) pClusterJ >
          settings.m_minAssociatedFraction) →
      GetReclusteredHits settings closest fit pClusterJ maps = maps) ∧
    ((associationScan settings closest fit pClusterJ).associatedHits.length = 5 →
      pClusterJ.orderedCaloHitList.length = 10 →
      settings.m_minAssociatedFraction = 1 / 2 →
      associatedSpan (associationScan settings closest fit pClusterJ) ≤
        settings.m_minAssociatedSpan →
      GetReclusteredHits settings closest fit pClusterJ maps = maps) ∧
    ((associationScan settings closest fit pClusterJ).associatedHits.length = 7 →
      pClusterJ.orderedCaloHitList.length = 10 →
      settings.m_minAssociatedFraction = roundToFloat (7 / 10) →
      associatedSpan (associationScan settings closest fit pClusterJ) ≤
        settings.m_minAssociatedSpan →
      GetReclusteredHits settings closest fit pClusterJ maps = maps) := by
  have hinv : SpanInvariant fit (associationScan settings closest fit pClusterJ) :=
    scanShowerHits_span settings closest fit pClusterJ.orderedCaloHitList
      ⟨[], FLT_MAX, FLT_MAX⟩ (Or.inl ⟨rfl, rfl⟩)
  have hfrac : associatedFraction (associationScan settings closest fit pClusterJ) pClusterJ =
      floatDiv
        (roundToFloat
          ((associationScan settings closest fit pClusterJ).associatedHits.length : ℚ))
        (roundToFloat (pClusterJ.orderedCaloHitList.length : ℚ)) := by
    unfold associatedFraction Cluster.GetNCaloHits
    split_ifs with hempty
    · have hnil : (associationScan settings closest fit pClusterJ).associatedHits = [] := by
        simpa using hempty
      rw [hnil]
      simp only [List.length_nil, Nat.cast_zero, roundToFloat_zero, floatDiv_zero_left]
    · rfl
  have hno : ¬ (associatedSpan (associationScan settings closest fit pClusterJ) >
        settings.m_minAssociatedSpan ∨
      associatedFraction (associationScan settings closest fit pClusterJ) pClusterJ >
        settings.m_minAssociatedFraction) →
      GetReclusteredHits settings closest fit pClusterJ maps = maps := by
    intro hcond
    unfold GetReclusteredHits
    rw [if_neg hguard, if_neg hcond]
  refine ⟨?_, ?_, hfrac, ?_, hno, ?_, ?_⟩
  · intro hnil
    rcases hinv with ⟨-, heq⟩ | ⟨hmin, hminmem, -⟩
    · unfold associatedSpan
      rw [heq, floatSub_self]
    · rw [hnil] at hminmem
      simp at hminmem
  · intro hne
    rcases hinv with ⟨hnil, -⟩ | ⟨hmin, hminmem, hmax, hmaxmem, hminL, hmaxL, hall⟩
    · exact absurd hnil hne
    · refine ⟨hmin, hminmem, hmax, hmaxmem, by simp [associatedSpan, hminL, hmaxL], ?_⟩
      intro h hh
      obtain ⟨h1, h2⟩ := hall h hh
      rw [hminL] at h1
      rw [hmaxL] at h2
      exact ⟨h1, h2⟩
  · intro hcond
    have hres : GetReclusteredHits settings closest fit pClusterJ maps =
        transferHits fit.GetCluster pClusterJ
          (associationScan settings closest fit pClusterJ).associatedHits maps := by
      unfold GetReclusteredHits
      rw [if_neg hguard, if_pos hcond]
    refine ⟨hres, ?_⟩
    intro h hh
    rw [hres]
    obtain ⟨-, -, h3, h4⟩ := transferHits_spec fit.GetCluster pClusterJ
      (associationScan settings closest fit pClusterJ).associatedHits maps
    exact ⟨h3 h hh, h4 h hh⟩
  · intro h5 h10 hhalf hspan
    apply hno
    rintro (h | h)
    · exact absurd h (not_lt.mpr hspan)
    · rw [hfrac, h5, h10, hhalf] at h
      have hval : floatDiv (roundToFloat ((5 : ℕ) : ℚ)) (roundToFloat ((10 : ℕ) : ℚ)) =
          1 / 2 := by decide!
      rw [hval] at h
      exact lt_irrefl _ h
  · intro h7 h10 hfl hspan
    apply hno
    rintro (h | h)
    · exact absurd h (not_lt.mpr hspan)
    · rw [hfrac, h7, h10, hfl] at h
      have hval : floatDiv (roundToFloat ((7 : ℕ) : ℚ)) (roundToFloat ((10 : ℕ) : ℚ)) =
          roundToFloat (7 / 10) := by decide!
      rw [hval] at h
      exact lt_irrefl _ h

/-- Witness of C7: the short cluster of ten hits of which five are associated, with a span
of `1/2`. With the default settings (`minAssociatedFraction = 1/2`, `minAssociatedSpan = 1`)
nothing is transferred; with `minAssociatedFraction = 49/100` the five hits are transferred.
For the short cluster of ten hits of which seven are associated and
`minAssociatedFraction = 11744051/16777216`, the single-precision number nearest to `7/10`,
nothing is transferred. The span of `maxL = 3/2` and `minL = 1/2 - 2^-25` is `1` in single
precision. -/
theorem C7_transfer_iff_span_or_fraction_exceeds_witness :
    GetReclusteredHits TrackConsolidationSettings.default closestAtOrigin fitAlongX shortCluster
      ([], []) = ([], []) ∧
    GetReclusteredHits ⟨1, 1, 49 / 100, false⟩ closestAtOrigin fitAlongX shortCluster ([], []) =
      transferHits fitAlongX.GetCluster shortCluster
        (associationScan ⟨1, 1, 49 / 100, false⟩ closestAtOrigin fitAlongX
          shortCluster).associatedHits ([], []) ∧
    roundToFloat (7 / 10) = 11744051 / 16777216 ∧
    GetReclusteredHits ⟨1, 1, 11744051 / 16777216, false⟩ closestAtOrigin fitAlongX
      shortClusterSeven ([], []) = ([], []) ∧
    associatedSpan ⟨[hitInside], 16777215 / 33554432, 3 / 2⟩ = 1 :=
  ⟨(C7_transfer_iff_span_or_fraction_exceeds TrackConsolidationSettings.default
      closestAtOrigin fitAlongX shortCluster ([], []) (by decide!)).2.2.2.2.2.1
      (by decide!) (by decide!) (by decide!) (by decide!),
    ((C7_transfer_iff_span_or_fraction_exceeds ⟨1, 1, 49 / 100, false⟩
      closestAtOrigin fitAlongX shortCluster ([], []) (by decide!)).2.2.2.1
      (by decide!)).1,
    by decide!,
    (C7_transfer_iff_span_or_fraction_exceeds ⟨1, 1, 11744051 / 16777216, false⟩
      closestAtOrigin fitAlongX shortClusterSeven ([], []) (by decide!)).2.2.2.2.2.2
      (by decide!) (by decide!) (by decide!) (by decide!),
    by decide!⟩

/-! ## C8 -/

/-- C8: `GetMCParticleToCaloHitMatches` started with empty outputs, when no dominant-contributor
lookup fails, returns; `hitToPrimaryMCMap` maps a hit `h` to `p` iff `h` is an input hit whose
dominant truth particle has the entry `p` in the primary-ancestor map; `mcToTrueHitListMap[p]`
is the sub-list, in input order, of the hits mapped to `p`, and `p` is a key exactly when that
sub-list is non-empty; a hit whose dominant particle has no entry is in neither output; no hit
is in the lists of two different truth particles. -/
theorem C8_hits_recorded_under_primary (GetMain : CaloHit → Except StatusCode MCParticle)
    (prim : MCRelationMap) (hits : List CaloHit)
    (hok : ∀ h ∈ hits, ∃ q, GetMain h = Except.ok q) :
    ∃ out, GetMCParticleToCaloHitMatches GetMain prim hits ([], []) = Except.ok out ∧
      (∀ h p, mapFind out.1 h = some p ↔
        h ∈ hits ∧ ∃ q, GetMain h = Except.ok q ∧ mapFind prim q = some p) ∧
      (∀ p, mapAt out.2 p = hits.filter (fun h => mapFind out.1 h = some p)) ∧
      (∀ p, (∃ l, mapFind out.2 p = some l) ↔ ∃ h ∈ hits, mapFind out.1 h = some p) ∧
      (∀ h q, GetMain h = Except.ok q → mapFind prim q = none →
        mapFind out.1 h = none ∧ ∀ p, h ∉ mapAt out.2 p) ∧
      (∀ h p p1, h ∈ mapAt out.2 p → h ∈ mapAt out.2 p1 → p = p1) := by
  have hno : ∀ h ∈ hits, GetMain h ≠ Except.error StatusCode.STATUS_CODE_FAILURE := by
    intro h hh hf
    obtain ⟨q, hq⟩ := hok h hh
    rw [hq] at hf
    exact absurd hf (by simp)
  obtain ⟨out, hout, h1, h2⟩ := caloHitMatches_spec GetMain prim hits ([], []) hno
  have hres : ∀ h p, resolvePrimary GetMain prim h = some p ↔
      ∃ q, GetMain h = Except.ok q ∧ mapFind prim q = some p := by
    intro h p
    unfold resolvePrimary
    cases hg : GetMain h with
    | error e => simp
    | ok q => simp
  have hfind : ∀ h p, mapFind out.1 h = some p ↔
      h ∈ hits ∧ resolvePrimary GetMain prim h = some p := by
    intro h p
    rw [h1 h]
    by_cases hh : h ∈ hits
    · cases hr : resolvePrimary GetMain prim h with
      | none => simp [hh, mapFind]
      | some r => simp [hh]
    · simp [hh, mapFind]
  have hfilter : ∀ p, hits.filter (fun h => mapFind out.1 h = some p) =
      hits.filter (fun h => resolvePrimary GetMain prim h = some p) := by
    intro p
    apply List.filter_congr
    intro h hh
    simp only [decide_eq_decide]
    rw [hfind h p]
    simp [hh]
  have hat : ∀ p, mapAt out.2 p = hits.filter (fun h => mapFind out.1 h = some p) := by
    intro p
    rw [hfilter p]
    unfold mapAt
    rw [h2 p]
    split_ifs with hempty
    · simp [mapFind, hempty]
    · simp [mapFind, mapAt]
  refine ⟨out, hout, ?_, hat, ?_, ?_, ?_⟩
  · intro h p
    rw [hfind h p, hres h p]
  · intro p
    rw [h2 p, ← hfilter p]
    split_ifs with hempty
    · constructor
      · rintro ⟨l, hl⟩
        simp [mapFind] at hl
      · rintro ⟨h, hh, hp⟩
        have : h ∈ hits.filter (fun h => mapFind out.1 h = some p) := by
          simp [List.mem_filter, hh, hp]
        rw [hempty] at this
        simp at this
    · simp only [Option.some.injEq, exists_eq', true_iff]
      obtain ⟨h, hmem⟩ := List.exists_mem_of_ne_nil _ hempty
      rw [List.mem_filter] at hmem
      exact ⟨h, hmem.1, by simpa using hmem.2⟩
  · intro h q hg hq
    have hnone : mapFind out.1 h = none := by
      cases hf : mapFind out.1 h with
      | none => rfl
      | some p =>
        obtain ⟨-, hr⟩ := (hfind h p).mp hf
        obtain ⟨q1, hq1, hp1⟩ := (hres h p).mp hr
        rw [hg] at hq1
        injection hq1 with hq1
        subst hq1
        rw [hq] at hp1
        simp at hp1
    refine ⟨hnone, ?_⟩
    intro p hmem
    rw [hat p, List.mem_filter] at hmem
    rw [hnone] at hmem
    simp at hmem
  · intro h p p1 hm hm1
    rw [hat p, List.mem_filter] at hm
    rw [hat p1, List.mem_filter] at hm1
    have e1 : mapFind out.1 h = some p := by simpa using hm.2
    have e2 : mapFind out.1 h = some p1 := by simpa using hm1.2
    rw [e1] at e2
    injection e2

/-- Witness of C8: three hits, of which the hit of address `1` resolves to truth particle `5`
that has no primary-ancestor entry. -/
theorem C8_hits_recorded_under_primary_witness :
    ∃ out, GetMCParticleToCaloHitMatches lookupByParity primaryOfFour
        [mkHit 0, mkHit 1, mkHit 2] ([], []) = Except.ok out ∧
      (∀ h p, mapFind out.1 h = some p ↔
        h ∈ [mkHit 0, mkHit 1, mkHit 2] ∧
          ∃ q, lookupByParity h = Except.ok q ∧ mapFind primaryOfFour q = some p) ∧
      (∀ p, mapAt out.2 p =
        [mkHit 0, mkHit 1, mkHit 2].filter (fun h => mapFind out.1 h = some p)) ∧
      (∀ p, (∃ l, mapFind out.2 p = some l) ↔
        ∃ h ∈ [mkHit 0, mkHit 1, mkHit 2], mapFind out.1 h = some p) ∧
      (∀ h q, lookupByParity h = Except.ok q → mapFind primaryOfFour q = none →
        mapFind out.1 h = none ∧ ∀ p, h ∉ mapAt out.2 p) ∧
      (∀ h p p1, h ∈ mapAt out.2 p → h ∈ mapAt out.2 p1 → p = p1) :=
  C8_hits_recorded_under_primary lookupByParity primaryOfFour [mkHit 0, mkHit 1, mkHit 2]
    (fun h _ => ⟨h.id % 2 + 4, rfl⟩)

/-! ## C9 -/

theorem caloHitMatches_failure (GetMain : CaloHit → Except StatusCode MCParticle)
    (prim : MCRelationMap) (hits : List CaloHit) :
    (∃ h ∈ hits, GetMain h = Except.error StatusCode.STATUS_CODE_FAILURE) →
      ∀ out, GetMCParticleToCaloHitMatches GetMain prim hits out =
        Except.error StatusCode.STATUS_CODE_FAILURE := by
  induction hits with
  | nil => intro h; simp at h
  | cons hit rest ih =>
    intro hex out
    unfold GetMCParticleToCaloHitMatches
    cases hg : GetMain hit with
    | error code =>
      by_cases hc : StatusCode.STATUS_CODE_FAILURE = code
      · simp [hc]
      · simp only [hc, if_false]
        apply ih
        obtain ⟨h, hh, hf⟩ := hex
        rcases List.mem_cons.mp hh with rfl | hh
        · rw [hg] at hf
          injection hf with hf
          exact absurd hf.symm hc
        · exact ⟨h, hh, hf⟩
    | ok q =>
      have hrest : ∃ h ∈ rest, GetMain h = Except.error StatusCode.STATUS_CODE_FAILURE := by
        obtain ⟨h, hh, hf⟩ := hex
        rcases List.mem_cons.mp hh with rfl | hh
        · rw [hg] at hf
          simp at hf
        · exact ⟨h, hh, hf⟩
      simp only
      split
      · exact ih hrest out
      · exact ih hrest _

theorem caloHitMatches_skip (GetMain : CaloHit → Except StatusCode MCParticle)
    (prim : MCRelationMap) (hits : List CaloHit) :
    (∀ h ∈ hits, GetMain h ≠ Except.error StatusCode.STATUS_CODE_FAILURE) →
      ∀ out, GetMCParticleToCaloHitMatches GetMain prim hits out =
        GetMCParticleToCaloHitMatches GetMain prim (hits.filter (fun h => (GetMain h).isOk))
          out := by
  induction hits with
  | nil => intro _ out; rfl
  | cons hit rest ih =>
    intro hno out
    have hrest : ∀ h ∈ rest, GetMain h ≠ Except.error StatusCode.STATUS_CODE_FAILURE :=
      fun h hh => hno h (List.mem_cons_of_mem _ hh)
    have hhit := hno hit (List.mem_cons_self _ _)
    cases hg : GetMain hit with
    | error code =>
      have hcode : ¬ StatusCode.STATUS_CODE_FAILURE = code := by
        intro hc
        rw [hg, ← hc] at hhit
        exact hhit rfl
      have hf : (GetMain hit).isOk = false := by rw [hg]; rfl
      rw [List.filter_cons_of_neg (by simp [hf]), ← ih hrest out]
      conv_lhs => unfold GetMCParticleToCaloHitMatches
      simp only [hg, hcode, if_false]
    | ok q =>
      have hf : (GetMain hit).isOk = true := by rw [hg]; rfl
      rw [List.filter_cons_of_pos (by simp [hf])]
      conv_lhs => unfold GetMCParticleToCaloHitMatches
      conv_rhs => unfold GetMCParticleToCaloHitMatches
      simp only [hg]
      split
      · exact ih hrest out
      · exact ih hrest _

/-- C9 (amended): if the dominant-contributor lookup of some hit fails with
`STATUS_CODE_FAILURE`, the whole operation raises that status; if no lookup fails with
`STATUS_CODE_FAILURE`, the operation does not raise, and every hit whose lookup fails with any
other status (not-found included) is skipped: the result is the one obtained on the hits whose
lookup succeeds. -/
theorem C9_only_failure_status_aborts (GetMain : CaloHit → Except StatusCode MCParticle)
    (prim : MCRelationMap) (hits : List CaloHit) (out : CaloHitToMCMap × MCContributionMap) :
    ((∃ h ∈ hits, GetMain h = Except.error StatusCode.STATUS_CODE_FAILURE) →
      GetMCParticleToCaloHitMatches GetMain prim hits out =
        Except.error StatusCode.STATUS_CODE_FAILURE) ∧
    ((∀ h ∈ hits, GetMain h ≠ Except.error StatusCode.STATUS_CODE_FAILURE) →
      (∃ out1, GetMCParticleToCaloHitMatches GetMain prim hits out = Except.ok out1) ∧
      GetMCParticleToCaloHitMatches GetMain prim hits out =
        GetMCParticleToCaloHitMatches GetMain prim (hits.filter (fun h => (GetMain h).isOk))
          out) := by
  refine ⟨fun hex => caloHitMatches_failure GetMain prim hits hex out, fun hno => ⟨?_, ?_⟩⟩
  · obtain ⟨out1, h1, -⟩ := caloHitMatches_spec GetMain prim hits out hno
    exact ⟨out1, h1⟩
  · exact caloHitMatches_skip GetMain prim hits hno out

/-- Witness of C9 (amended): a lookup failing with `STATUS_CODE_FAILURE` on one hit aborts;
a lookup failing with `STATUS_CODE_INVALID_PARAMETER` on one hit is skipped. -/
theorem C9_only_failure_status_aborts_witness :
    GetMCParticleToCaloHitMatches lookupFailureOnZero primaryOfFour [mkHit 1, mkHit 0]
        ([], []) = Except.error StatusCode.STATUS_CODE_FAILURE ∧
    ((∃ out1, GetMCParticleToCaloHitMatches lookupInvalidOnZero primaryOfFour
        [mkHit 0, mkHit 1] ([], []) = Except.ok out1) ∧
      GetMCParticleToCaloHitMatches lookupInvalidOnZero primaryOfFour [mkHit 0, mkHit 1]
          ([], []) =
        GetMCParticleToCaloHitMatches lookupInvalidOnZero primaryOfFour
          ([mkHit 0, mkHit 1].filter (fun h => (lookupInvalidOnZero h).isOk)) ([], [])) :=
  ⟨(C9_only_failure_status_aborts lookupFailureOnZero primaryOfFour [mkHit 1, mkHit 0]
      ([], [])).1 ⟨mkHit 0, by decide, rfl⟩,
    (C9_only_failure_status_aborts lookupInvalidOnZero primaryOfFour [mkHit 0, mkHit 1]
      ([], [])).2 (by
        intro h hh
        rcases List.mem_cons.mp hh with rfl | hh
        · exact fun hf => absurd hf (by simp [lookupInvalidOnZero, mkHit])
        · rcases List.mem_cons.mp hh with rfl | hh
          · exact fun hf => absurd hf (by simp [lookupInvalidOnZero, mkHit])
          · simp at hh)⟩

/-- Counterexample to C9 as stated: the lookup of the hit of address `0` fails with
`STATUS_CODE_INVALID_PARAMETER`, a status other than not-found, and the operation does not
raise: the hit is skipped and the next hit is recorded. -/
theorem C9_counterexample_other_status_tolerated :
    lookupInvalidOnZero (mkHit 0) = Except.error StatusCode.STATUS_CODE_INVALID_PARAMETER ∧
    StatusCode.STATUS_CODE_INVALID_PARAMETER ≠ StatusCode.STATUS_CODE_NOT_FOUND ∧
    GetMCParticleToCaloHitMatches lookupInvalidOnZero primaryOfFour [mkHit 0, mkHit 1]
        ([], []) = Except.ok ([(mkHit 1, 5)], [(5, [mkHit 1])]) :=
  ⟨by rfl, by decide, by rfl⟩

/-! ## Sorting a permutation -/

theorem StrictTotalOrderOn.mono {α : Type} {comp : α → α → Bool} {s t : List α}
    (h : StrictTotalOrderOn comp s) (hsub : ∀ x ∈ t, x ∈ s) : StrictTotalOrderOn comp t :=
  ⟨fun a ha => h.1 a (hsub a ha),
    fun a ha b hb c hc => h.2.1 a (hsub a ha) b (hsub b hb) c (hsub c hc),
    fun a ha b hb => h.2.2 a (hsub a ha) b (hsub b hb)⟩

theorem StrictTotalOrderOn.asymm {α : Type} {comp : α → α → Bool} {s : List α}
    (h : StrictTotalOrderOn comp s) {x y : α} (hx : x ∈ s) (hy : y ∈ s)
    (hxy : comp x y = true) : ¬ comp y x = true := by
  intro hyx
  have := h.2.1 x hx y hy x hx hxy hyx
  rw [h.1 x hx] at this
  exact absurd this (by simp)

theorem orderedInsert_comm {α : Type} (comp : α → α → Bool) (a b : α) (s : List α) :
    StrictTotalOrderOn comp (a :: b :: s) →
    List.orderedInsert (fun x y => ¬ comp y x = true) a
        (List.orderedInsert (fun x y => ¬ comp y x = true) b s) =
      List.orderedInsert (fun x y => ¬ comp y x = true) b
        (List.orderedInsert (fun x y => ¬ comp y x = true) a s) := by
  classical
  by_cases hab : a = b
  · intro _
    rw [hab]
  induction s with
  | nil =>
    intro h
    have ha : a ∈ [a, b] := by simp
    have hb : b ∈ [a, b] := by simp
    simp only [List.orderedInsert]
    rcases h.2.2 a ha b hb hab with hlt | hlt
    · have hnot := h.asymm ha hb hlt
      rw [if_neg (not_not.mpr hlt), if_pos hnot]
    · have hnot := h.asymm hb ha hlt
      rw [if_pos hnot, if_neg (not_not.mpr hlt)]
  | cons c t ih =>
    intro h
    have ha : a ∈ a :: b :: c :: t := by simp
    have hb : b ∈ a :: b :: c :: t := by simp
    have hc : c ∈ a :: b :: c :: t := by simp
    have hsub : ∀ x ∈ a :: b :: t, x ∈ a :: b :: c :: t := by
      intro x hx
      simp only [List.mem_cons] at hx ⊢
      tauto
    have ih1 := ih (h.mono hsub)
    simp only [List.orderedInsert]
    by_cases hca : comp c a = true <;> by_cases hcb : comp c b = true
    · -- c < a and c < b
      rw [if_neg (not_not.mpr hcb), if_neg (not_not.mpr hca)]
      simp only [List.orderedInsert]
      rw [if_neg (not_not.mpr hcb), if_neg (not_not.mpr hca), ih1]
    · -- b ≤ c < a
      have ha_b : ¬ comp a b = true := by
        intro hlt
        exact hcb (h.2.1 c hc a ha b hb hca hlt)
      have hb_a : comp b a = true := by
        rcases h.2.2 a ha b hb hab with hlt | hlt
        · exact absurd hlt ha_b
        · exact hlt
      rw [if_pos hcb, if_neg (not_not.mpr hca)]
      simp only [List.orderedInsert]
      rw [if_neg (not_not.mpr hb_a), if_neg (not_not.mpr hca), if_pos hcb]
    · -- a ≤ c < b
      have hb_a : ¬ comp b a = true := by
        intro hlt
        exact hca (h.2.1 c hc b hb a ha hcb hlt)
      have ha_b : comp a b = true := by
        rcases h.2.2 a ha b hb hab with hlt | hlt
        · exact hlt
        · exact absurd hlt hb_a
      rw [if_neg (not_not.mpr hcb), if_pos hca]
      simp only [List.orderedInsert]
      rw [if_pos hca, if_neg (not_not.mpr ha_b), if_neg (not_not.mpr hcb)]
    · -- a ≤ c and b ≤ c
      rw [if_pos hcb, if_pos hca]
      simp only [List.orderedInsert]
      rcases h.2.2 a ha b hb hab with hlt | hlt
      · have hnot := h.asymm ha hb hlt
        rw [if_neg (not_not.mpr hlt), if_pos hnot, if_pos hcb]
      · have hnot := h.asymm hb ha hlt
        rw [if_pos hnot, if_neg (not_not.mpr hlt), if_pos hca]

theorem listSort_perm {α : Type} (comp : α → α → Bool) {l1 l2 : List α} (hp : l1.Perm l2) :
    StrictTotalOrderOn comp l1 → listSort comp l1 = listSort comp l2 := by
  unfold listSort
  induction hp with
  | nil => intro _; rfl
  | cons x _ ih =>
    intro h
    simp only [List.insertionSort]
    rw [ih (h.mono (fun y hy => List.mem_cons_of_mem _ hy))]
  | swap x y l =>
    intro h
    simp only [List.insertionSort]
    apply orderedInsert_comm
    apply h.mono
    intro z hz
    simp only [List.mem_cons, List.mem_insertionSort] at hz ⊢
    tauto
  | trans hp1 _ ih1 ih2 =>
    intro h
    rw [ih1 h, ih2 (h.mono (fun y hy => hp1.mem_iff.mpr hy))]

theorem mapFind_perm {α β : Type} [DecidableEq α] {m1 m2 : Map α β} (hp : m1.Perm m2) :
    (mapKeys m1).Nodup → ∀ k, mapFind m1 k = mapFind m2 k := by
  induction hp with
  | nil => intro _ k; rfl
  | cons e _ ih =>
    intro hnd k
    obtain ⟨a, v⟩ := e
    simp only [mapKeys, List.map_cons, List.nodup_cons] at hnd
    simp only [mapFind]
    rw [ih hnd.2 k]
  | swap e1 e2 l =>
    intro hnd k
    obtain ⟨a1, v1⟩ := e1
    obtain ⟨a2, v2⟩ := e2
    simp only [mapKeys, List.map_cons, List.nodup_cons, List.mem_cons, not_or] at hnd
    simp only [mapFind]
    by_cases h1 : a1 = k
    · by_cases h2 : a2 = k
      · exact absurd (h2.trans h1.symm) hnd.1.1
      · simp [h1, h2]
    · simp [h1]
  | trans hp1 _ ih1 ih2 =>
    intro hnd k
    rw [ih1 hnd k]
    apply ih2
    exact (List.Perm.nodup_iff (hp1.map Prod.fst)).mp hnd

theorem fillMatchingMap_congr (caloHitSet : List CaloHit) (m1 m2 : PfoContributionMap)
    (hitToPrimaryMCMap : CaloHitToMCMap) (hm : ∀ k, mapFind m1 k = mapFind m2 k)
    (pfos : List ParticleFlowObject) :
    ∀ full, fillMatchingMap caloHitSet m1 hitToPrimaryMCMap pfos full =
      fillMatchingMap caloHitSet m2 hitToPrimaryMCMap pfos full := by
  induction pfos with
  | nil => intro full; rfl
  | cons pPfo rest ih =>
    intro full
    simp only [fillMatchingMap, mapAt, hm pPfo]
    split
    · rfl
    · exact ih _

/-! ## C10 -/

/-- C10: when `SortByNHits` is a strict total order on the objects of the contribution map,
two enumerations of the same map (one a permutation of the entries of the other, keys
unique), with the same hit list and hit-to-truth map and the same initial outputs, give
identical results of `GetMCParticleToPfoMatches`: the same `mcToBestPfoMap`,
`mcToBestPfoHitsMap` and `mcToFullPfoMatchingMap`, or the same error. The truth-particle
comparator may be any function: the table built from the sorted objects is already the same
in both runs. -/
theorem C10_matches_independent_of_enumeration
    (SortByNHits : ParticleFlowObject → ParticleFlowObject → Bool)
    (SortByMomentum : MCParticle → MCParticle → Bool) (pCaloHitList : List CaloHit)
    (m1 m2 : PfoContributionMap) (hitToPrimaryMCMap : CaloHitToMCMap) (out : PfoMatches)
    (hperm : m1.Perm m2) (hkeys : (mapKeys m1).Nodup)
    (hord : StrictTotalOrderOn SortByNHits (mapKeys m1)) :
    GetMCParticleToPfoMatches SortByNHits SortByMomentum pCaloHitList m1 hitToPrimaryMCMap out =
      GetMCParticleToPfoMatches SortByNHits SortByMomentum pCaloHitList m2 hitToPrimaryMCMap
        out := by
  have hsort : listSort SortByNHits (mapKeys m1) = listSort SortByNHits (mapKeys m2) :=
    listSort_perm SortByNHits (hperm.map Prod.fst) hord
  have hfill := fillMatchingMap_congr pCaloHitList m1 m2 hitToPrimaryMCMap
    (mapFind_perm hperm hkeys) (listSort SortByNHits (mapKeys m2)) out.mcToFullPfoMatchingMap
  unfold GetMCParticleToPfoMatches
  rw [hsort, hfill]

/-- Witness of C10: the two enumerations of the best-match scenario, Y first and X first. -/
theorem C10_matches_independent_of_enumeration_witness :
    GetMCParticleToPfoMatches pfoById mcByAddress (hitsX ++ hitsY) scenarioPfoToHits
        scenarioHitToMC PfoMatches.empty =
      GetMCParticleToPfoMatches pfoById mcByAddress (hitsX ++ hitsY) scenarioPfoToHitsSwapped
        scenarioHitToMC PfoMatches.empty :=
  C10_matches_independent_of_enumeration pfoById mcByAddress (hitsX ++ hitsY)
    scenarioPfoToHits scenarioPfoToHitsSwapped scenarioHitToMC PfoMatches.empty
    (List.Perm.swap _ _ _) (by decide) (by decide)

/-! ## C11 -/

theorem selectBestMatch_first (m : PfoContributionMap) (l : List ParticleFlowObject) :
    ∀ st, (selectBestMatch m l st = st ∧ ∀ x ∈ l, (mapAt m x).length ≤ st.2.length) ∨
      ∃ l1 b l2, l = l1 ++ b :: l2 ∧ selectBestMatch m l st = (some b, mapAt m b) ∧
        st.2.length < (mapAt m b).length ∧
        (∀ x ∈ l1, (mapAt m x).length < (mapAt m b).length) ∧
        (∀ x ∈ l2, (mapAt m x).length ≤ (mapAt m b).length) := by
  induction l with
  | nil => intro st; exact Or.inl ⟨rfl, by simp⟩
  | cons q rest ih =>
    intro st
    unfold selectBestMatch
    by_cases hgt : (mapAt m q).length > st.2.length
    · rw [if_pos hgt]
      right
      rcases ih (some q, mapAt m q) with ⟨heq, hall⟩ | ⟨l1, b, l2, hl, hres, hlt, hbefore, hafter⟩
      · exact ⟨[], q, rest, rfl, heq, hgt, by simp, hall⟩
      · refine ⟨q :: l1, b, l2, by simp [hl], hres, lt_trans hgt hlt, ?_, hafter⟩
        intro x hx
        rcases List.mem_cons.mp hx with rfl | hx
        · exact hlt
        · exact hbefore x hx
    · rw [if_neg hgt]
      rcases ih st with ⟨heq, hall⟩ | ⟨l1, b, l2, hl, hres, hlt, hbefore, hafter⟩
      · left
        refine ⟨heq, ?_⟩
        intro x hx
        rcases List.mem_cons.mp hx with rfl | hx
        · exact not_lt.mp hgt
        · exact hall x hx
      · right
        refine ⟨q :: l1, b, l2, by simp [hl], hres, hlt, ?_, hafter⟩
        intro x hx
        rcases List.mem_cons.mp hx with rfl | hx
        · exact lt_of_le_of_lt (not_lt.mp hgt) hlt
        · exact hbefore x hx

theorem resolveBestMatches_find_none
    (SortByNHits : ParticleFlowObject → ParticleFlowObject → Bool)
    (full : MCToPfoMatchingMap) (p : MCParticle) (bh : List CaloHit)
    (hbest : bestMatchOf SortByNHits full p = (none, bh)) (l : List MCParticle) :
    ∀ out, mapFind (resolveBestMatches SortByNHits full l out).1 p = mapFind out.1 p := by
  induction l with
  | nil => intro out; rfl
  | cons q rest ih =>
    intro out
    unfold resolveBestMatches
    by_cases hqp : q = p
    · subst hqp
      rw [hbest]
      exact ih out
    · split
      · rw [ih]
        simp [mapFind_mapAssign, hqp]
      · exact ih out

/-- C11: in `GetMCParticleToPfoMatches` (started with empty outputs, no 3-D contributed hit)
the best match recorded for a truth particle is the first candidate, in the order produced by
sorting the candidates with `SortByNHits`, whose contributed-hit count is maximal: every
candidate before it in that order has strictly fewer contributed hits, every candidate after
it has at most as many. In the scan a candidate replaces the current best only if its
contributed-hit count is strictly larger than the current one. -/
theorem C11_first_maximal_candidate_wins
    (SortByNHits : ParticleFlowObject → ParticleFlowObject → Bool)
    (SortByMomentum : MCParticle → MCParticle → Bool) (pCaloHitList : List CaloHit)
    (pfoToHitListMap : PfoContributionMap) (hitToPrimaryMCMap : CaloHitToMCMap)
    (h3 : NoThreeDHits pfoToHitListMap) :
    (∃ res, GetMCParticleToPfoMatches SortByNHits SortByMomentum pCaloHitList pfoToHitListMap
        hitToPrimaryMCMap PfoMatches.empty = Except.ok res ∧
      ∀ p inner best, mapFind res.mcToFullPfoMatchingMap p = some inner →
        mapFind res.mcToBestPfoMap p = some best →
        ∃ l1 l2, listSort SortByNHits (mapKeys inner) = l1 ++ best :: l2 ∧
          (∀ x ∈ l1, (mapAt inner x).length < (mapAt inner best).length) ∧
          (∀ x ∈ l2, (mapAt inner x).length ≤ (mapAt inner best).length)) ∧
    (∀ (m : PfoContributionMap) (x : ParticleFlowObject) (rest : List ParticleFlowObject)
        (st : Option ParticleFlowObject × List CaloHit),
      (st.2.length < (mapAt m x).length →
        selectBestMatch m (x :: rest) st = selectBestMatch m rest (some x, mapAt m x)) ∧
      (¬ st.2.length < (mapAt m x).length →
        selectBestMatch m (x :: rest) st = selectBestMatch m rest st)) := by
  constructor
  · obtain ⟨full, hfull⟩ := fillMatchingMap_ok pCaloHitList pfoToHitListMap hitToPrimaryMCMap h3
      (listSort SortByNHits (mapKeys pfoToHitListMap)) []
    refine ⟨⟨(resolveBestMatches SortByNHits full (listSort SortByMomentum (mapKeys full))
        ([], [])).1, (resolveBestMatches SortByNHits full
        (listSort SortByMomentum (mapKeys full)) ([], [])).2, full⟩, ?_, ?_⟩
    · simp only [GetMCParticleToPfoMatches, PfoMatches.empty, hfull]
    · intro p inner best hp hbestp
      simp only at hp hbestp
      have hunfold : bestMatchOf SortByNHits full p =
          selectBestMatch inner (listSort SortByNHits (mapKeys inner)) (none, []) := by
        simp [bestMatchOf, hp]
      rcases selectBestMatch_first inner (listSort SortByNHits (mapKeys inner)) (none, []) with
        ⟨heq, -⟩ | ⟨l1, b, l2, hl, hres, -, hbefore, hafter⟩
      · rw [← hunfold] at heq
        rw [resolveBestMatches_find_none SortByNHits full p [] heq] at hbestp
        simp [mapFind] at hbestp
      · rw [← hunfold] at hres
        have hpmem : p ∈ listSort SortByMomentum (mapKeys full) := by
          rw [mem_listSort]
          exact (mapFind_isSome_iff full p).mp ⟨inner, hp⟩
        obtain ⟨hr1, -⟩ := resolveBestMatches_find SortByNHits full p b (mapAt inner b) hres
          (listSort SortByMomentum (mapKeys full)) ([], [])
        rw [if_pos hpmem] at hr1
        rw [hr1] at hbestp
        simp only [Option.some.injEq] at hbestp
        subst hbestp
        exact ⟨l1, l2, hl, hbefore, hafter⟩
  · intro m x rest st
    constructor
    · intro hlt
      conv_lhs => unfold selectBestMatch
      rw [if_pos hlt]
    · intro hlt
      conv_lhs => unfold selectBestMatch
      rw [if_neg hlt]

/-- Witness of C11: truth particle `7` contributes two hits to X and two hits to Y; X comes
first in the sorted order of the candidates and is the recorded best match. -/
theorem C11_first_maximal_candidate_wins_witness :
    GetMCParticleToPfoMatches pfoById mcByAddress
        [mkHit 0, mkHit 1, mkHit 10, mkHit 11] tiePfoToHits tieHitToMC PfoMatches.empty =
      Except.ok ⟨[(7, pfoX)], [(7, [mkHit 0, mkHit 1])],
        [(7, [(pfoX, [mkHit 0, mkHit 1]), (pfoY, [mkHit 10, mkHit 11])])]⟩ ∧
    ∃ res, GetMCParticleToPfoMatches pfoById mcByAddress
        [mkHit 0, mkHit 1, mkHit 10, mkHit 11] tiePfoToHits tieHitToMC PfoMatches.empty =
        Except.ok res ∧
      ∀ p inner best, mapFind res.mcToFullPfoMatchingMap p = some inner →
        mapFind res.mcToBestPfoMap p = some best →
        ∃ l1 l2, listSort pfoById (mapKeys inner) = l1 ++ best :: l2 ∧
          (∀ x ∈ l1, (mapAt inner x).length < (mapAt inner best).length) ∧
          (∀ x ∈ l2, (mapAt inner x).length ≤ (mapAt inner best).length) :=
  ⟨by rfl,
    (C11_first_maximal_candidate_wins pfoById mcByAddress [mkHit 0, mkHit 1, mkHit 10, mkHit 11]
      tiePfoToHits tieHitToMC (by decide)).1⟩

/-! ## C12 -/

theorem hitsOrder_total (n m x y : Nat) :
    ¬ (m > n ∨ (m = n ∧ y < x)) ∨ ¬ (n > m ∨ (n = m ∧ x < y)) := by omega

theorem hitsOrder_le_trans (n m k x y z : Nat) (h1 : ¬ (m > n ∨ (m = n ∧ y < x)))
    (h2 : ¬ (k > m ∨ (k = m ∧ z < y))) : ¬ (k > n ∨ (k = n ∧ z < x)) := by omega

theorem hitsOrder_lt_trans (n m k x y z : Nat) (h1 : n > m ∨ (n = m ∧ x < y))
    (h2 : m > k ∨ (m = k ∧ y < z)) : n > k ∨ (n = k ∧ x < z) := by omega

theorem hitsOrder_irrefl (n x : Nat) : ¬ (n > n ∨ (n = n ∧ x < x)) := by omega

theorem hitsOrder_trichotomy (n m x y : Nat) (h : x ≠ y) :
    (n > m ∨ (n = m ∧ x < y)) ∨ (m > n ∨ (m = n ∧ y < x)) := by omega

theorem hitsOrder_strict_of_le (n m x y : Nat) (h1 : ¬ (m > n ∨ (m = n ∧ y < x)))
    (h : x ≠ y) : n > m ∨ (n = m ∧ x < y) := by omega

theorem sortByHitsDescending_iff (a b : MCParticleCaloHitPair) :
    sortByHitsDescending a b = true ↔
      a.2.length > b.2.length ∨ (a.2.length = b.2.length ∧ a.1 < b.1) := by
  unfold sortByHitsDescending
  split_ifs with h
  · simp only [decide_eq_true_eq]
    constructor
    · intro hgt
      exact Or.inl hgt
    · rintro (hgt | ⟨heq, -⟩)
      · exact hgt
      · exact absurd heq h
  · simp only [decide_eq_true_eq]
    have h1 : a.2.length = b.2.length := not_not.mp h
    constructor
    · intro hlt
      exact Or.inr ⟨h1, hlt⟩
    · rintro (hgt | ⟨-, hlt⟩)
      · rw [h1] at hgt
        exact absurd hgt (lt_irrefl _)
      · exact hlt

theorem sortByHitsDescending_sorted (m : MCContributionMap) :
    List.Pairwise (fun a b => ¬ sortByHitsDescending b a = true)
      (listSort sortByHitsDescending m) := by
  haveI : IsTotal MCParticleCaloHitPair (fun a b => ¬ sortByHitsDescending b a = true) :=
    ⟨fun a b => by
      simp only [sortByHitsDescending_iff]
      exact hitsOrder_total a.2.length b.2.length a.1 b.1⟩
  haveI : IsTrans MCParticleCaloHitPair (fun a b => ¬ sortByHitsDescending b a = true) :=
    ⟨fun a b c => by
      simp only [sortByHitsDescending_iff]
      exact hitsOrder_le_trans a.2.length b.2.length c.2.length a.1 b.1 c.1⟩
  exact List.sorted_insertionSort (fun a b => ¬ sortByHitsDescending b a = true) m

theorem sortByHitsDescending_strictOn (m : MCContributionMap) (hkeys : (mapKeys m).Nodup) :
    StrictTotalOrderOn sortByHitsDescending m := by
  refine ⟨?_, ?_, ?_⟩
  · intro a _
    cases h : sortByHitsDescending a a with
    | false => rfl
    | true =>
      rw [sortByHitsDescending_iff] at h
      exact absurd h (hitsOrder_irrefl a.2.length a.1)
  · intro a _ b _ c _ hab hbc
    rw [sortByHitsDescending_iff] at hab hbc ⊢
    exact hitsOrder_lt_trans _ _ _ _ _ _ hab hbc
  · intro a ha b hb hne
    have hk : a.1 ≠ b.1 := fun e => hne (List.inj_on_of_nodup_map hkeys ha hb e)
    simp only [sortByHitsDescending_iff]
    exact hitsOrder_trichotomy _ _ _ _ hk

theorem appendOrderedMCParticles_eq (maps : List MCContributionMap) :
    ∀ v, appendOrderedMCParticles maps v =
      v ++ (maps.map (fun m => (listSort sortByHitsDescending m).map Prod.fst)).flatten := by
  induction maps with
  | nil => intro v; simp [appendOrderedMCParticles]
  | cons m rest ih =>
    intro v
    simp [appendOrderedMCParticles, ih]

theorem listUnique_of_nodup {α : Type} [DecidableEq α] :
    ∀ l : List α, l.Nodup → listUnique l = l
  | [], _ => rfl
  | [_], _ => rfl
  | a :: b :: rest, h => by
    have hab : a ≠ b := by
      intro e
      rw [e] at h
      simp at h
    have hrest : (b :: rest).Nodup := (List.nodup_cons.mp h).2
    simp only [listUnique, if_neg hab]
    rw [listUnique_of_nodup (b :: rest) hrest]

theorem appendOrderedMCParticles_perm (maps maps1 : List MCContributionMap)
    (hkeys : ∀ m ∈ maps, (mapKeys m).Nodup) (hperm : List.Forall₂ List.Perm maps maps1) :
    ∀ v, appendOrderedMCParticles maps1 v = appendOrderedMCParticles maps v := by
  induction hperm with
  | nil => intro v; rfl
  | cons hp _ ih =>
    intro v
    simp only [appendOrderedMCParticles]
    rw [← listSort_perm sortByHitsDescending hp
      (sortByHitsDescending_strictOn _ (hkeys _ (List.mem_cons_self _ _)))]
    exact ih (fun m hm => hkeys m (List.mem_cons_of_mem _ hm)) _

/-- C12: for contribution maps with unique keys and an empty initial output, a successful
`GetOrderedMCParticleVector` returns the concatenation, in the order of the maps, of one
segment per map; the segment of a map is a permutation of its entries (so it holds exactly
its keys) in which an earlier entry has strictly more hits than a later one or, with the same
number of hits, a strictly smaller truth-particle address; the call succeeds whenever the
concatenation has no repeated particle; and enumerating the entries of the maps in another
order gives the same result. -/
theorem C12_ordered_vector_is_concatenation_of_sorted_segments
    (maps : List MCContributionMap) (hkeys : ∀ m ∈ maps, (mapKeys m).Nodup) :
    (∀ out, GetOrderedMCParticleVector maps [] = Except.ok out →
      out = (maps.map (fun m => (listSort sortByHitsDescending m).map Prod.fst)).flatten) ∧
    (∀ m ∈ maps, (listSort sortByHitsDescending m).Perm m ∧
      ((listSort sortByHitsDescending m).map Prod.fst).Perm (mapKeys m) ∧
      List.Pairwise (fun a b => a.2.length > b.2.length ∨
        (a.2.length = b.2.length ∧ a.1 < b.1)) (listSort sortByHitsDescending m)) ∧
    ((maps.map (fun m => (listSort sortByHitsDescending m).map Prod.fst)).flatten.Nodup →
      GetOrderedMCParticleVector maps [] =
        Except.ok (maps.map (fun m => (listSort sortByHitsDescending m).map Prod.fst)).flatten) ∧
    (∀ maps1, List.Forall₂ List.Perm maps maps1 →
      GetOrderedMCParticleVector maps1 [] = GetOrderedMCParticleVector maps []) := by
  refine ⟨?_, ?_, ?_, ?_⟩
  · intro out hout
    unfold GetOrderedMCParticleVector at hout
    split_ifs at hout
    simp only [Except.ok.injEq] at hout
    rw [← hout, appendOrderedMCParticles_eq]
    simp
  · intro m hm
    have hperm : (listSort sortByHitsDescending m).Perm m := List.perm_insertionSort _ m
    refine ⟨hperm, hperm.map Prod.fst, ?_⟩
    have hnd : List.Pairwise (fun a b : MCParticleCaloHitPair => a.1 ≠ b.1)
        (listSort sortByHitsDescending m) := by
      have h1 : ((listSort sortByHitsDescending m).map Prod.fst).Nodup :=
        (List.Perm.nodup_iff (hperm.map Prod.fst)).mpr (hkeys m hm)
      exact List.pairwise_map.mp h1
    refine List.Pairwise.imp ?_ ((sortByHitsDescending_sorted m).and hnd)
    intro a b hab
    obtain ⟨h1, h2⟩ := hab
    rw [sortByHitsDescending_iff] at h1
    exact hitsOrder_strict_of_le _ _ _ _ h1 h2
  · intro hnd
    unfold GetOrderedMCParticleVector
    have heq : appendOrderedMCParticles maps [] =
        (maps.map (fun m => (listSort sortByHitsDescending m).map Prod.fst)).flatten := by
      rw [appendOrderedMCParticles_eq]
      simp
    rw [heq, listUnique_of_nodup _ hnd]
    simp
  · intro maps1 hperm
    unfold GetOrderedMCParticleVector
    rw [appendOrderedMCParticles_perm maps maps1 hkeys hperm]

/-- Witness of C12: two maps without a common particle; the first segment is `6` (two hits),
then `4` and `5` (one hit each, ordered by address although `5` is enumerated first). -/
theorem C12_ordered_vector_is_concatenation_of_sorted_segments_witness :
    GetOrderedMCParticleVector rankedMaps [] = Except.ok [6, 4, 5, 1] ∧
    [6, 4, 5, 1] =
      (rankedMaps.map (fun m => (listSort sortByHitsDescending m).map Prod.fst)).flatten :=
  ⟨by rfl,
    (C12_ordered_vector_is_concatenation_of_sorted_segments rankedMaps (by decide)).1
      [6, 4, 5, 1] (by rfl)⟩

/-! ## C13 -/

/-- C14: for distinct daughter and parent, when every 2-D cluster of the daughter has a
matched parent cluster and at least one matched pair exists, `IsAssociated` returns true iff
the mean of the squared closest distances over the matched cluster pairs is at most
`maxDisplacementSquared` (a mean equal to the threshold is accepted), and then the returned
displacement is that mean; otherwise it returns false with the sentinel `FLT_MAX`. The mean
is the single-precision value the code computes: the squares, their sum in the order of the
pairs and the quotient by the number of pairs are `float` operations. For any pair of
objects, a false result always comes with the sentinel displacement. -/
theorem C14_accepts_iff_mean_within_threshold (maxD : ℚ) (cd : Cluster → Cluster → ℚ)
    (d p : ParticleFlowObject) (hne : d ≠ p)
    (hall : ∀ dc ∈ d.clusterList, dc.hitType ≠ HitType.TPC_3D →
      matchedParentClusters maxD cd dc p.clusterList ≠ [])
    (hone : matchedClusterPairs maxD cd d p ≠ []) :
    (meanSquaredDistance cd (matchedClusterPairs maxD cd d p) ≤ maxD →
      IsAssociated maxD cd d p =
        Except.ok (true, meanSquaredDistance cd (matchedClusterPairs maxD cd d p))) ∧
    (¬ meanSquaredDistance cd (matchedClusterPairs maxD cd d p) ≤ maxD →
      IsAssociated maxD cd d p = Except.ok (false, FLT_MAX)) ∧
    (∀ (d1 p1 : ParticleFlowObject) (x : ℚ),
      IsAssociated maxD cd d1 p1 = Except.ok (false, x) → x = FLT_MAX) := by
  obtain ⟨st1, h1, h2, h3⟩ := matchDaughterClusters_some maxD cd p.clusterList d.clusterList
    hall ⟨0, 0, false⟩
  have hviews : st1.sumViews = ((matchedClusterPairs maxD cd d p).length : ℚ) := by
    rw [h2]
    simp [matchedClusterPairs]
  have hsum : st1.sumDeltaSquared =
      sumSquaredDistances cd (matchedClusterPairs maxD cd d p) 0 := by
    rw [h3]
    rfl
  have hpos : 1 ≤ (matchedClusterPairs maxD cd d p).length :=
    List.length_pos.mpr hone
  have heps : ¬ st1.sumViews < FLT_EPSILON := by
    rw [hviews]
    have h1le : (1 : ℚ) ≤ ((matchedClusterPairs maxD cd d p).length : ℚ) := by
      exact_mod_cast hpos
    have : FLT_EPSILON < 1 := by
      unfold FLT_EPSILON
      norm_num
    intro hlt
    exact absurd (lt_of_le_of_lt h1le (lt_trans hlt this)) (lt_irrefl _)
  have hmean : floatDiv st1.sumDeltaSquared st1.sumViews =
      meanSquaredDistance cd (matchedClusterPairs maxD cd d p) := by
    rw [hviews, hsum]
    rfl
  refine ⟨?_, ?_, fun d1 p1 x h => IsAssociated_false_sentinel maxD cd d1 p1 x h⟩
  · intro hle
    unfold IsAssociated
    rw [if_neg hne, h1]
    simp only
    rw [if_neg heps, hmean, if_neg (not_lt.mpr hle)]
  · intro hgt
    unfold IsAssociated
    rw [if_neg hne, h1]
    simp only
    rw [if_neg heps, hmean, if_pos (not_le.mp hgt)]

/-- Witness of C14: one matched pair at squared distance `1` with the threshold `1`: the mean
equals the threshold and the pair is accepted with displacement `1`. With the closest
distance `5033165 / 16777216` (the `float` nearest to `3/10`) and the threshold
`3019899 / 33554432` (the `float` square of that number), the `float` square of the distance
equals the threshold and the pair is accepted with that displacement, although the exact
square of the distance is greater than the threshold. -/
theorem C14_accepts_iff_mean_within_threshold_witness :
    meanSquaredDistance distanceOne (matchedClusterPairs 1 distanceOne pfoD pfoP1) = 1 ∧
    IsAssociated 1 distanceOne pfoD pfoP1 =
      Except.ok (true, meanSquaredDistance distanceOne
        (matchedClusterPairs 1 distanceOne pfoD pfoP1)) ∧
    floatMul (5033165 / 16777216) (5033165 / 16777216) = 3019899 / 33554432 ∧
    (3019899 / 33554432 : ℚ) < (5033165 / 16777216) * (5033165 / 16777216) ∧
    meanSquaredDistance distanceThreeTenths
      (matchedClusterPairs (3019899 / 33554432) distanceThreeTenths pfoD pfoP1) =
        3019899 / 33554432 ∧
    IsAssociated (3019899 / 33554432) distanceThreeTenths pfoD pfoP1 =
      Except.ok (true, meanSquaredDistance distanceThreeTenths
        (matchedClusterPairs (3019899 / 33554432) distanceThreeTenths pfoD pfoP1)) :=
  ⟨by decide!,
    (C14_accepts_iff_mean_within_threshold 1 distanceOne pfoD pfoP1 (by decide)
      (by decide!) (by decide!)).1 (by decide!),
    by decide!, by decide!, by decide!,
    (C14_accepts_iff_mean_within_threshold (3019899 / 33554432) distanceThreeTenths pfoD
      pfoP1 (by decide) (by decide!) (by decide!)).1 (by decide!)⟩

/-! ## C15 -/

theorem extractPrimaryPfos_eq (helpers : PfoHelpers) (input : List ParticleFlowObject) :
    ∀ out, extractPrimaryPfos helpers input out =
      out ++ input.flatMap (fun pPfo =>
        if helpers.IsFinalState pPfo = true then [pPfo]
        else if (helpers.GetParentPfoList pPfo).isEmpty = true ∧
            helpers.IsNeutrino pPfo = true then helpers.GetDaughterPfoList pPfo
        else []) := by
  induction input with
  | nil => intro out; simp [extractPrimaryPfos]
  | cons pPfo rest ih =>
    intro out
    unfold extractPrimaryPfos
    split_ifs with h1 h2
    · rw [ih, List.flatMap_cons, if_pos h1, List.append_assoc]
    · rw [ih, List.flatMap_cons, if_neg h1, if_pos h2, List.append_assoc]
    · rw [ih, List.flatMap_cons, if_neg h1, if_neg h2, List.nil_append]

/-- C15: `ExtractTargetPfos` with `primaryPfosOnly = true`, started with an empty output,
returns the concatenation, in input order, of one block per input object: the object itself
if it is final-state; otherwise its daughter list if it has no parent and is neutrino-type;
otherwise nothing. The block of a parentless neutrino-type object that is not final-state
is its daughter list, so the object itself is not in its block unless it is its own
daughter. -/
theorem C15_primary_targets_are_blocks_in_input_order (helpers : PfoHelpers)
    (inputPfoList : List ParticleFlowObject) :
    ExtractTargetPfos helpers inputPfoList true [] =
      inputPfoList.flatMap (fun pPfo =>
        if helpers.IsFinalState pPfo = true then [pPfo]
        else if (helpers.GetParentPfoList pPfo).isEmpty = true ∧
            helpers.IsNeutrino pPfo = true then helpers.GetDaughterPfoList pPfo
        else []) ∧
    (∀ pNu, helpers.IsFinalState pNu = false → helpers.GetParentPfoList pNu = [] →
      helpers.IsNeutrino pNu = true →
      ExtractTargetPfos helpers [pNu] true [] = helpers.GetDaughterPfoList pNu ∧
      (pNu ∉ helpers.GetDaughterPfoList pNu → pNu ∉ ExtractTargetPfos helpers [pNu] true [])) := by
  constructor
  · unfold ExtractTargetPfos
    rw [if_pos rfl, extractPrimaryPfos_eq]
    simp
  · intro pNu hfs hpar hnu
    have h : ExtractTargetPfos helpers [pNu] true [] = helpers.GetDaughterPfoList pNu := by
      unfold ExtractTargetPfos
      rw [if_pos rfl, extractPrimaryPfos_eq]
      simp [hfs, hpar, hnu]
    refine ⟨h, ?_⟩
    intro hnot
    rw [h]
    exact hnot

/-- Witness of C15: the input `[A, pfoNu, X]`, where A is neither final-state nor
neutrino-type, `pfoNu` is a parentless neutrino-type object with the daughters X and Y, and
X is final-state, gives `[X, Y, X]`; `pfoNu` itself is not appended. -/
theorem C15_primary_targets_are_blocks_in_input_order_witness :
    ExtractTargetPfos scenarioHelpers [pfoA, pfoNu, pfoX] true [] = [pfoX, pfoY, pfoX] ∧
    ExtractTargetPfos scenarioHelpers [pfoNu] true [] = scenarioHelpers.GetDaughterPfoList pfoNu ∧
    pfoNu ∉ ExtractTargetPfos scenarioHelpers [pfoNu] true [] :=
  ⟨by decide,
    ((C15_primary_targets_are_blocks_in_input_order scenarioHelpers [pfoA, pfoNu, pfoX]).2
      pfoNu (by decide) (by decide) (by decide)).1,
    ((C15_primary_targets_are_blocks_in_input_order scenarioHelpers [pfoA, pfoNu, pfoX]).2
      pfoNu (by decide) (by decide) (by decide)).2 (by decide)⟩

/-! ## C16 -/

theorem eraseInputNeutrinos_sublist (helpers : PfoHelpers) (input : List ParticleFlowObject) :
    ∀ out, List.Sublist (eraseInputNeutrinos helpers input out) out := by
  induction input with
  | nil => intro out; exact List.Sublist.refl _
  | cons pPfo rest ih =>
    intro out
    unfold eraseInputNeutrinos
    split_ifs
    · exact (ih _).trans (List.erase_sublist pPfo out)
    · exact ih out

theorem eraseInputNeutrinos_mem (helpers : PfoHelpers) (input : List ParticleFlowObject) :
    ∀ out, out.Nodup → ∀ x, x ∈ eraseInputNeutrinos helpers input out ↔
      x ∈ out ∧ ¬ (x ∈ input ∧ helpers.IsNeutrino x = true) := by
  induction input with
  | nil => intro out _ x; simp [eraseInputNeutrinos]
  | cons pPfo rest ih =>
    intro out hnd x
    unfold eraseInputNeutrinos
    split_ifs with hnu
    · rw [ih _ (hnd.erase pPfo) x, hnd.mem_erase_iff]
      constructor
      · rintro ⟨⟨hne, hx⟩, hrest⟩
        refine ⟨hx, ?_⟩
        rintro ⟨hmem, hxn⟩
        rcases List.mem_cons.mp hmem with rfl | hmem
        · exact hne rfl
        · exact hrest ⟨hmem, hxn⟩
      · rintro ⟨hx, hnot⟩
        refine ⟨⟨?_, hx⟩, ?_⟩
        · intro heq
          subst heq
          exact hnot ⟨List.mem_cons_self _ _, hnu⟩
        · rintro ⟨hmem, hxn⟩
          exact hnot ⟨List.mem_cons_of_mem _ hmem, hxn⟩
    · rw [ih _ hnd x]
      constructor
      · rintro ⟨hx, hnot⟩
        refine ⟨hx, ?_⟩
        rintro ⟨hmem, hxn⟩
        rcases List.mem_cons.mp hmem with rfl | hmem
        · exact hnu hxn
        · exact hnot ⟨hmem, hxn⟩
      · rintro ⟨hx, hnot⟩
        exact ⟨hx, fun ⟨hmem, hxn⟩ => hnot ⟨List.mem_cons_of_mem _ hmem, hxn⟩⟩

/-- C16 (amended): `ExtractTargetPfos` with `primaryPfosOnly = false`, started with an empty
output, returns a sub-list of the list of downstream objects built by
`GetAllDownstreamPfos`; when that list has no repetition, an object is in the output iff it
is in the downstream list and is not a neutrino-type member of the input list. So the
neutrino-type objects of the input list are absent from the output, and a neutrino-type
object that is met only as a descendant is kept. -/
theorem C16_only_input_neutrinos_are_erased (helpers : PfoHelpers)
    (inputPfoList : List ParticleFlowObject)
    (hnodup : (helpers.GetAllDownstreamPfos inputPfoList []).Nodup) :
    List.Sublist (ExtractTargetPfos helpers inputPfoList false [])
      (helpers.GetAllDownstreamPfos inputPfoList []) ∧
    (∀ x, x ∈ ExtractTargetPfos helpers inputPfoList false [] ↔
      x ∈ helpers.GetAllDownstreamPfos inputPfoList [] ∧
        ¬ (x ∈ inputPfoList ∧ helpers.IsNeutrino x = true)) ∧
    (∀ x, x ∈ inputPfoList → helpers.IsNeutrino x = true →
      x ∉ ExtractTargetPfos helpers inputPfoList false []) ∧
    (∀ x, x ∈ helpers.GetAllDownstreamPfos inputPfoList [] → x ∉ inputPfoList →
      x ∈ ExtractTargetPfos helpers inputPfoList false []) := by
  have hout : ExtractTargetPfos helpers inputPfoList false [] =
      eraseInputNeutrinos helpers inputPfoList
        (helpers.GetAllDownstreamPfos inputPfoList []) := by
    unfold ExtractTargetPfos
    simp
  have hmem := eraseInputNeutrinos_mem helpers inputPfoList _ hnodup
  rw [hout]
  refine ⟨eraseInputNeutrinos_sublist helpers inputPfoList _, hmem, ?_, ?_⟩
  · intro x hx hnu hin
    exact ((hmem x).mp hin).2 ⟨hx, hnu⟩
  · intro x hx hnot
    exact (hmem x).mpr ⟨hx, fun h => hnot h.1⟩

/-- Witness of C16 (amended): for the input `[pfoNu, A]`, where `pfoNu` is neutrino-type
with the daughters X and Y and A has the neutrino-type daughter `pfoNuInner`, the downstream
list is `[pfoNu, X, Y, A, pfoNuInner]` and the output is `[X, Y, A, pfoNuInner]`. -/
theorem C16_only_input_neutrinos_are_erased_witness :
    scenarioHelpers.GetAllDownstreamPfos [pfoNu, pfoA] [] =
      [pfoNu, pfoX, pfoY, pfoA, pfoNuInner] ∧
    ExtractTargetPfos scenarioHelpers [pfoNu, pfoA] false [] =
      [pfoX, pfoY, pfoA, pfoNuInner] ∧
    (∀ x, x ∈ ExtractTargetPfos scenarioHelpers [pfoNu, pfoA] false [] ↔
      x ∈ scenarioHelpers.GetAllDownstreamPfos [pfoNu, pfoA] [] ∧
        ¬ (x ∈ [pfoNu, pfoA] ∧ scenarioHelpers.IsNeutrino x = true)) :=
  ⟨by decide, by decide,
    (C16_only_input_neutrinos_are_erased scenarioHelpers [pfoNu, pfoA] (by decide)).2.1⟩

/-- Counterexample to C16 as stated: for the input `[A]`, where A has the neutrino-type
daughter `pfoNuInner` and `pfoNuInner` is not a member of the input list, the output is
`[A, pfoNuInner]`: it contains the neutrino-type object `pfoNuInner`. -/
theorem C16_counterexample_descendant_neutrino_kept :
    scenarioHelpers.IsNeutrino pfoNuInner = true ∧ pfoNuInner ∉ [pfoA] ∧
    pfoNuInner ∈ scenarioHelpers.GetDaughterPfoList pfoA ∧
    ExtractTargetPfos scenarioHelpers [pfoA] false [] = [pfoA, pfoNuInner] ∧
    pfoNuInner ∈ ExtractTargetPfos scenarioHelpers [pfoA] false [] :=
  ⟨by decide, by decide, by decide, by decide, by decide⟩

/-! ## GetNeutrinoMatches -/

theorem collectClusterHits_eq (GetIso : Cluster → List CaloHit) (clusters : List Cluster) :
    ∀ l r, collectClusterHits GetIso clusters l = Except.ok r →
      r = l ++ clusters.flatMap (fun c => c.orderedCaloHitList ++ GetIso c) := by
  induction clusters with
  | nil =>
    intro l r h
    simp only [collectClusterHits, Except.ok.injEq] at h
    simp [h]
  | cons c rest ih =>
    intro l r h
    unfold collectClusterHits at h
    split_ifs at h
    rw [ih _ r h]
    simp [List.flatMap_cons]

theorem CollectCaloHits_eq (helpers : PfoHelpers) (GetIso : Cluster → List CaloHit)
    (pfos : List ParticleFlowObject) :
    ∀ l r, CollectCaloHits helpers GetIso pfos l = Except.ok r →
      r = l ++ pfos.flatMap (fun p =>
        (helpers.GetTwoDClusterList p).flatMap (fun c => c.orderedCaloHitList ++ GetIso c)) := by
  induction pfos with
  | nil =>
    intro l r h
    simp only [CollectCaloHits, Except.ok.injEq] at h
    simp [h]
  | cons p rest ih =>
    intro l r h
    unfold CollectCaloHits at h
    split at h
    · simp at h
    · rename_i l1 hl1
      rw [ih l1 r h, collectClusterHits_eq GetIso _ l l1 hl1]
      simp [List.flatMap_cons]

theorem fillNeutrinoContributions_spec (caloHitSet : List CaloHit) (h2mc : CaloHitToMCMap)
    (GetParentMC : MCParticle → MCParticle) (IsNuMC : MCParticle → Bool)
    (hits : List CaloHit) :
    ∀ m k, mapFind (fillNeutrinoContributions caloHitSet h2mc GetParentMC IsNuMC hits m) k =
      if hits.filter (fun h => neutrinoOfHit caloHitSet h2mc GetParentMC IsNuMC h = some k) = []
      then mapFind m k
      else some (mapAt m k ++
        hits.filter (fun h => neutrinoOfHit caloHitSet h2mc GetParentMC IsNuMC h = some k)) := by
  induction hits with
  | nil => intro m k; simp [fillNeutrinoContributions]
  | cons hit rest ih =>
    intro m k
    unfold fillNeutrinoContributions
    by_cases hset : hit ∈ caloHitSet
    · rw [if_neg (not_not.mpr hset)]
      cases hf : mapFind h2mc hit with
      | none =>
        have hres : neutrinoOfHit caloHitSet h2mc GetParentMC IsNuMC hit = none := by
          simp [neutrinoOfHit, hset, hf]
        simp only
        rw [ih m k]
        simp [List.filter_cons, hres]
      | some mc =>
        simp only
        by_cases hnu : IsNuMC (GetParentMC mc) = false
        · have hres : neutrinoOfHit caloHitSet h2mc GetParentMC IsNuMC hit = none := by
            simp [neutrinoOfHit, hset, hf, hnu]
          rw [if_pos hnu, ih m k]
          simp [List.filter_cons, hres]
        · have hres : neutrinoOfHit caloHitSet h2mc GetParentMC IsNuMC hit =
              some (GetParentMC mc) := by
            simp [neutrinoOfHit, hset, hf, hnu]
          rw [if_neg hnu, ih _ k]
          simp only [mapFind_mapPushBack, mapAt_mapPushBack]
          by_cases hk : GetParentMC mc = k
          · subst hk
            simp [List.filter_cons, hres]
          · have hk1 : ¬ neutrinoOfHit caloHitSet h2mc GetParentMC IsNuMC hit = some k := by
              rw [hres]
              simpa using hk
            simp [List.filter_cons, hk1, hk]
    · have hres : neutrinoOfHit caloHitSet h2mc GetParentMC IsNuMC hit = none := by
        simp [neutrinoOfHit, hset]
      rw [if_pos hset, ih m k]
      simp [List.filter_cons, hres]

theorem selectBiggestContributor_spec (m : MCContributionMap) (l : List MCParticle) :
    ∀ st, (selectBiggestContributor m l st = st ∨
        ∃ b ∈ l, selectBiggestContributor m l st = (some b, mapAt m b)) ∧
      st.2.length ≤ (selectBiggestContributor m l st).2.length ∧
      ∀ x ∈ l, (mapAt m x).length ≤ (selectBiggestContributor m l st).2.length := by
  induction l with
  | nil => intro st; simp [selectBiggestContributor]
  | cons q rest ih =>
    intro st
    unfold selectBiggestContributor
    split_ifs with hgt
    · obtain ⟨h1, h2, h3⟩ := ih (some q, mapAt m q)
      refine ⟨Or.inr ?_, ?_, ?_⟩
      · rcases h1 with h1 | ⟨b, hb, h1⟩
        · exact ⟨q, List.mem_cons_self _ _, h1⟩
        · exact ⟨b, List.mem_cons_of_mem _ hb, h1⟩
      · simp only at h2; omega
      · intro x hx
        rcases List.mem_cons.mp hx with rfl | hx
        · exact h2
        · exact h3 x hx
    · obtain ⟨h1, h2, h3⟩ := ih st
      refine ⟨?_, h2, ?_⟩
      · rcases h1 with h1 | ⟨b, hb, h1⟩
        · exact Or.inl h1
        · exact Or.inr ⟨b, List.mem_cons_of_mem _ hb, h1⟩
      · intro x hx
        rcases List.mem_cons.mp hx with rfl | hx
        · omega
        · exact h3 x hx

theorem neutrinoOfHit_iff (caloHitSet : List CaloHit) (h2mc : CaloHitToMCMap)
    (GetParentMC : MCParticle → MCParticle) (IsNuMC : MCParticle → Bool) (h : CaloHit)
    (k : MCParticle) :
    neutrinoOfHit caloHitSet h2mc GetParentMC IsNuMC h = some k ↔
      h ∈ caloHitSet ∧ ∃ mc, mapFind h2mc h = some mc ∧ IsNuMC (GetParentMC mc) = true ∧
        GetParentMC mc = k := by
  unfold neutrinoOfHit
  by_cases hset : h ∈ caloHitSet
  · rw [if_neg (not_not.mpr hset)]
    cases hf : mapFind h2mc h with
    | none => simp
    | some mc =>
      simp only
      by_cases hnu : IsNuMC (GetParentMC mc) = false
      · rw [if_pos hnu]
        simp [hset, hnu]
      · rw [if_neg hnu]
        have hnu1 : IsNuMC (GetParentMC mc) = true := by simpa using hnu
        simp [hset, hnu1]
  · rw [if_pos hset]
    simp [hset]

/-! ## C17 -/

/-- C17: `GetNeutrinoMatches` for a single neutrino-type object whose hit collection does
not fail. The collected hits are the ordered and isolated hits of the 2-D clusters of the
downstream objects; a collected hit survives under the truth particle `k` iff it is in the
hit set, has an entry in the hit-to-truth map, and the parent truth particle of that entry is
neutrino-type and equal to `k`. With no surviving hit the output map is returned unchanged;
with at least one surviving hit exactly one assignment `key -> neutrino object` is made, where
`key` is a neutrino-type truth particle with a surviving hit whose number of surviving hits
is at least that of every truth particle. From an empty output this gives the single entry
`(key, neutrino object)`. -/
theorem C17_neutrino_matched_to_biggest_truth_neutrino (helpers : PfoHelpers)
    (GetIso : Cluster → List CaloHit) (GetParentMC : MCParticle → MCParticle)
    (IsNuMC : MCParticle → Bool) (SortByMomentum : MCParticle → MCParticle → Bool)
    (pCaloHitList : List CaloHit) (h2mc : CaloHitToMCMap) (pNeutrinoPfo : ParticleFlowObject)
    (clusterHits : List CaloHit) (out : MCToPfoMap)
    (hnu : helpers.IsNeutrino pNeutrinoPfo = true)
    (hcollect : CollectCaloHits helpers GetIso (helpers.GetAllDownstreamPfosOf pNeutrinoPfo [])
      [] = Except.ok clusterHits) :
    (∀ h, h ∈ clusterHits ↔ ∃ pfo ∈ helpers.GetAllDownstreamPfosOf pNeutrinoPfo [],
      ∃ c ∈ helpers.GetTwoDClusterList pfo, h ∈ c.orderedCaloHitList ∨ h ∈ GetIso c) ∧
    (∀ h k, neutrinoOfHit pCaloHitList h2mc GetParentMC IsNuMC h = some k ↔
      h ∈ pCaloHitList ∧ ∃ mc, mapFind h2mc h = some mc ∧ IsNuMC (GetParentMC mc) = true ∧
        GetParentMC mc = k) ∧
    ((∀ h ∈ clusterHits, neutrinoOfHit pCaloHitList h2mc GetParentMC IsNuMC h = none) →
      GetNeutrinoMatches helpers GetIso GetParentMC IsNuMC SortByMomentum pCaloHitList h2mc
        [pNeutrinoPfo] out = Except.ok out) ∧
    ((∃ h ∈ clusterHits, neutrinoOfHit pCaloHitList h2mc GetParentMC IsNuMC h ≠ none) →
      ∃ key, GetNeutrinoMatches helpers GetIso GetParentMC IsNuMC SortByMomentum pCaloHitList
          h2mc [pNeutrinoPfo] out = Except.ok (mapAssign out key pNeutrinoPfo) ∧
        mapAssign [] key pNeutrinoPfo = [(key, pNeutrinoPfo)] ∧
        IsNuMC key = true ∧
        (∃ h ∈ clusterHits, neutrinoOfHit pCaloHitList h2mc GetParentMC IsNuMC h = some key) ∧
        ∀ k, (clusterHits.filter (fun h =>
            neutrinoOfHit pCaloHitList h2mc GetParentMC IsNuMC h = some k)).length ≤
          (clusterHits.filter (fun h =>
            neutrinoOfHit pCaloHitList h2mc GetParentMC IsNuMC h = some key)).length) := by
  have hfind := fillNeutrinoContributions_spec pCaloHitList h2mc GetParentMC IsNuMC
    clusterHits []
  have hat : ∀ k, mapAt (fillNeutrinoContributions pCaloHitList h2mc GetParentMC IsNuMC
      clusterHits []) k =
      clusterHits.filter (fun h =>
        neutrinoOfHit pCaloHitList h2mc GetParentMC IsNuMC h = some k) := by
    intro k
    unfold mapAt
    rw [hfind k]
    split_ifs with he
    · simp [mapFind, he]
    · simp [mapFind, mapAt]
  have hkeys : ∀ k, k ∈ listSort SortByMomentum (mapKeys (fillNeutrinoContributions
      pCaloHitList h2mc GetParentMC IsNuMC clusterHits [])) ↔
      clusterHits.filter (fun h =>
        neutrinoOfHit pCaloHitList h2mc GetParentMC IsNuMC h = some k) ≠ [] := by
    intro k
    rw [mem_listSort, ← mapFind_isSome_iff, hfind k]
    split_ifs with he
    · simp [mapFind, he]
    · simp [he]
  have hspec := selectBiggestContributor_spec
    (fillNeutrinoContributions pCaloHitList h2mc GetParentMC IsNuMC clusterHits [])
    (listSort SortByMomentum (mapKeys (fillNeutrinoContributions pCaloHitList h2mc
      GetParentMC IsNuMC clusterHits []))) (none, [])
  have hnu1 : ¬ helpers.IsNeutrino pNeutrinoPfo = false := by simp [hnu]
  refine ⟨?_, fun h k => neutrinoOfHit_iff pCaloHitList h2mc GetParentMC IsNuMC h k, ?_, ?_⟩
  · intro h
    rw [CollectCaloHits_eq helpers GetIso _ [] clusterHits hcollect]
    simp only [List.nil_append, List.mem_flatMap, List.mem_append]
  · intro hnone
    have hempty : ∀ k, clusterHits.filter (fun h =>
        neutrinoOfHit pCaloHitList h2mc GetParentMC IsNuMC h = some k) = [] := by
      intro k
      rw [List.filter_eq_nil_iff]
      intro h hh
      rw [hnone h hh]
      simp
    obtain ⟨h1, -, -⟩ := hspec
    have hsel : (selectBiggestContributor
        (fillNeutrinoContributions pCaloHitList h2mc GetParentMC IsNuMC clusterHits [])
        (listSort SortByMomentum (mapKeys (fillNeutrinoContributions pCaloHitList h2mc
          GetParentMC IsNuMC clusterHits []))) (none, [])).1 = none := by
      rcases h1 with h1 | ⟨b, hb, -⟩
      · rw [h1]
      · exact absurd (hempty b) ((hkeys b).mp hb)
    unfold GetNeutrinoMatches
    rw [if_neg hnu1, hcollect]
    simp only
    rw [hsel]
    simp only [GetNeutrinoMatches]
  · rintro ⟨h0, hh0, hsurv⟩
    obtain ⟨k0, hk0⟩ := Option.ne_none_iff_exists'.mp hsurv
    have hF0 : h0 ∈ clusterHits.filter (fun h =>
        neutrinoOfHit pCaloHitList h2mc GetParentMC IsNuMC h = some k0) := by
      simp [List.mem_filter, hh0, hk0]
    have hk0ne : clusterHits.filter (fun h =>
        neutrinoOfHit pCaloHitList h2mc GetParentMC IsNuMC h = some k0) ≠ [] :=
      List.ne_nil_of_mem hF0
    obtain ⟨h1, -, h3⟩ := hspec
    have hlen0 := h3 k0 ((hkeys k0).mpr hk0ne)
    rw [hat k0] at hlen0
    have hpos : 0 < (clusterHits.filter (fun h =>
        neutrinoOfHit pCaloHitList h2mc GetParentMC IsNuMC h = some k0)).length :=
      List.length_pos.mpr hk0ne
    rcases h1 with h1 | ⟨b, hb, h1⟩
    · rw [h1] at hlen0
      simp only [List.length_nil] at hlen0
      omega
    · have hbne := (hkeys b).mp hb
      obtain ⟨hb0, hb0mem⟩ := List.exists_mem_of_ne_nil _ hbne
      rw [List.mem_filter] at hb0mem
      have hb0k : neutrinoOfHit pCaloHitList h2mc GetParentMC IsNuMC hb0 = some b := by
        simpa using hb0mem.2
      refine ⟨b, ?_, rfl, ?_, ⟨hb0, hb0mem.1, hb0k⟩, ?_⟩
      · unfold GetNeutrinoMatches
        rw [if_neg hnu1, hcollect]
        simp only
        rw [h1]
        simp only [GetNeutrinoMatches]
      · obtain ⟨-, mc, -, hmc, hpar⟩ :=
          (neutrinoOfHit_iff pCaloHitList h2mc GetParentMC IsNuMC hb0 b).mp hb0k
        rw [← hpar]
        exact hmc
      · intro k
        by_cases hk : clusterHits.filter (fun h =>
            neutrinoOfHit pCaloHitList h2mc GetParentMC IsNuMC h = some k) = []
        · rw [hk]
          simp
        · have := h3 k ((hkeys k).mpr hk)
          rw [h1, hat k] at this
          simp only at this
          rw [hat b] at this
          exact this

/-- Witness of C17: a reconstructed neutrino with three hits, of which hits `0` and `1`
resolve to the truth neutrino `50` and hit `2` resolves to a truth particle that is not
neutrino-type; the output is the single entry `(50, neutrino object)`. -/
theorem C17_neutrino_matched_to_biggest_truth_neutrino_witness :
    GetNeutrinoMatches neutrinoHelpers noIsolatedHits neutrinoParentMC isTruthNeutrino
        mcByAddress [mkHit 0, mkHit 1, mkHit 2] neutrinoHitToMC [pfoNuWithHits] [] =
      Except.ok [(50, pfoNuWithHits)] ∧
    ∃ key, GetNeutrinoMatches neutrinoHelpers noIsolatedHits neutrinoParentMC isTruthNeutrino
          mcByAddress [mkHit 0, mkHit 1, mkHit 2] neutrinoHitToMC [pfoNuWithHits] [] =
          Except.ok (mapAssign [] key pfoNuWithHits) ∧
        mapAssign [] key pfoNuWithHits = [(key, pfoNuWithHits)] ∧
        isTruthNeutrino key = true ∧
        (∃ h ∈ [mkHit 0, mkHit 1, mkHit 2],
          neutrinoOfHit [mkHit 0, mkHit 1, mkHit 2] neutrinoHitToMC neutrinoParentMC
            isTruthNeutrino h = some key) ∧
        ∀ k, ([mkHit 0, mkHit 1, mkHit 2].filter (fun h =>
            neutrinoOfHit [mkHit 0, mkHit 1, mkHit 2] neutrinoHitToMC neutrinoParentMC
              isTruthNeutrino h = some k)).length ≤
          ([mkHit 0, mkHit 1, mkHit 2].filter (fun h =>
            neutrinoOfHit [mkHit 0, mkHit 1, mkHit 2] neutrinoHitToMC neutrinoParentMC
              isTruthNeutrino h = some key)).length :=
  ⟨by rfl,
    (C17_neutrino_matched_to_biggest_truth_neutrino neutrinoHelpers noIsolatedHits
      neutrinoParentMC isTruthNeutrino mcByAddress [mkHit 0, mkHit 1, mkHit 2] neutrinoHitToMC
      pfoNuWithHits [mkHit 0, mkHit 1, mkHit 2] [] (by decide) (by rfl)).2.2.2
      ⟨mkHit 0, by decide, by decide⟩⟩

/-! ## C18: the volume guard and changes of volume identifiers -/

theorem scanShowerHits_flag (s : TrackConsolidationSettings) (b : Bool)
    (closest : CartesianVector → Cluster → CartesianVector) (fit : TwoDSlidingFitResult)
    (hits : List CaloHit) :
    ∀ st, scanShowerHits
        ⟨s.m_maxTransverseDisplacement, s.m_minAssociatedSpan, s.m_minAssociatedFraction, b⟩
        closest fit hits st = scanShowerHits s closest fit hits st := by
  induction hits with
  | nil => intro st; rfl
  | cons h rest ih =>
    intro st
    unfold scanShowerHits
    simp only [ih]

theorem mapFind_setMapVolumeIds (v : CaloHit → Option (Nat × Nat)) (m : ClusterToHitMap)
    (K : Cluster)
    (hkeys : ∀ k ∈ mapKeys m, setClusterVolumeIds v k = setClusterVolumeIds v K → k = K) :
    mapFind (setMapVolumeIds v m) (setClusterVolumeIds v K) =
      (mapFind m K).map (List.map (setVolumeIds v)) := by
  induction m with
  | nil => rfl
  | cons e rest ih =>
    obtain ⟨k, l⟩ := e
    have hrest : ∀ k1 ∈ mapKeys rest,
        setClusterVolumeIds v k1 = setClusterVolumeIds v K → k1 = K := by
      intro k1 hk1
      exact hkeys k1 (by simp only [mapKeys, List.map_cons, List.mem_cons]; exact Or.inr hk1)
    have hk := hkeys k (by simp [mapKeys])
    simp only [setMapVolumeIds, List.map_cons, mapFind]
    by_cases heq : k = K
    · subst heq
      simp
    · have hne : ¬ setClusterVolumeIds v k = setClusterVolumeIds v K := fun h => heq (hk h)
      rw [if_neg hne, if_neg heq]
      exact ih hrest

theorem mapAt_setMapVolumeIds (v : CaloHit → Option (Nat × Nat)) (m : ClusterToHitMap)
    (K : Cluster)
    (hkeys : ∀ k ∈ mapKeys m, setClusterVolumeIds v k = setClusterVolumeIds v K → k = K) :
    mapAt (setMapVolumeIds v m) (setClusterVolumeIds v K) =
      (mapAt m K).map (setVolumeIds v) := by
  unfold mapAt
  rw [mapFind_setMapVolumeIds v m K hkeys]
  cases mapFind m K <;> simp

theorem mapUpdate_setMapVolumeIds (v : CaloHit → Option (Nat × Nat)) (m : ClusterToHitMap)
    (K : Cluster) (f f1 : List CaloHit → List CaloHit)
    (hf : ∀ l, f1 (l.map (setVolumeIds v)) = (f l).map (setVolumeIds v))
    (hkeys : ∀ k ∈ mapKeys m, setClusterVolumeIds v k = setClusterVolumeIds v K → k = K) :
    mapUpdate (setMapVolumeIds v m) (setClusterVolumeIds v K) f1 [] =
      setMapVolumeIds v (mapUpdate m K f []) := by
  induction m with
  | nil =>
    simp only [setMapVolumeIds, List.map_nil, mapUpdate, List.map_cons]
    rw [← hf []]
    rfl
  | cons e rest ih =>
    obtain ⟨k, l⟩ := e
    have hrest : ∀ k1 ∈ mapKeys rest,
        setClusterVolumeIds v k1 = setClusterVolumeIds v K → k1 = K := by
      intro k1 hk1
      exact hkeys k1 (by simp only [mapKeys, List.map_cons, List.mem_cons]; exact Or.inr hk1)
    have hk := hkeys k (by simp [mapKeys])
    by_cases heq : k = K
    · subst heq
      simp only [setMapVolumeIds, List.map_cons, mapUpdate, if_true, hf]
    · have hne : ¬ setClusterVolumeIds v k = setClusterVolumeIds v K := fun h => heq (hk h)
      have ih1 := ih hrest
      simp only [setMapVolumeIds] at ih1
      simp only [setMapVolumeIds, List.map_cons, mapUpdate, if_neg hne, if_neg heq, ih1]

theorem mapKeys_mapUpdate_subset {α β : Type} [DecidableEq α] (m : Map α β) (k : α)
    (f : β → β) (d : β) (x : α) (hx : x ∈ mapKeys (mapUpdate m k f d)) :
    x ∈ mapKeys m ∨ x = k := by
  rw [mapKeys_mapUpdate] at hx
  split_ifs at hx
  · exact Or.inl hx
  · simpa using hx

theorem scanShowerHits_setVolumeIds (settings : TrackConsolidationSettings)
    (closest closest1 : CartesianVector → Cluster → CartesianVector)
    (fit : TwoDSlidingFitResult) (v : CaloHit → Option (Nat × Nat))
    (hclosest : ∀ pos, closest1 pos (setClusterVolumeIds v fit.GetCluster) =
      closest pos fit.GetCluster)
    (hits : List CaloHit) :
    ∀ st : AssociationScan,
      scanShowerHits settings closest1 (setFitVolumeIds v fit) (hits.map (setVolumeIds v))
          ⟨st.associatedHits.map (setVolumeIds v), st.minL, st.maxL⟩ =
        ⟨(scanShowerHits settings closest fit hits st).associatedHits.map (setVolumeIds v),
          (scanShowerHits settings closest fit hits st).minL,
          (scanShowerHits settings closest fit hits st).maxL⟩ := by
  induction hits with
  | nil => intro st; rfl
  | cons h0 rest ih =>
    intro st
    have hIJ : rsqIJ closest1 (setFitVolumeIds v fit) (setVolumeIds v h0) =
        rsqIJ closest fit h0 := by
      simp only [rsqIJ, setFitVolumeIds, setVolumeIds, hclosest]
    have hKI : ∀ K, rsqKI closest1 (setFitVolumeIds v fit) (setVolumeIds v h0) K =
        rsqKI closest fit h0 K := by
      intro K
      simp only [rsqKI, setFitVolumeIds, setVolumeIds, hclosest]
    have hJK : ∀ K, rsqJK (setVolumeIds v h0) K = rsqJK h0 K := fun K => rfl
    have hproj : (setFitVolumeIds v fit).GetGlobalFitProjection (setVolumeIds v h0).position =
        fit.GetGlobalFitProjection h0.position := rfl
    have hloc : ∀ K, (setFitVolumeIds v fit).GetLocalPosition K = fit.GetLocalPosition K :=
      fun K => rfl
    rw [List.map_cons]
    unfold scanShowerHits
    rw [hproj]
    cases hp : fit.GetGlobalFitProjection h0.position with
    | none => exact ih st
    | some K =>
      have hemp : (st.associatedHits.map (setVolumeIds v)).isEmpty =
          st.associatedHits.isEmpty := by
        cases st.associatedHits <;> rfl
      simp only [hIJ, hKI, hJK, hloc, hemp]
      split_ifs with hadm hempty
      · have := ih ⟨st.associatedHits ++ [h0], (fit.GetLocalPosition K).1,
          (fit.GetLocalPosition K).1⟩
        simp only [List.map_append, List.map_cons, List.map_nil] at this
        exact this
      · have := ih ⟨st.associatedHits ++ [h0], min st.minL (fit.GetLocalPosition K).1,
          max st.maxL (fit.GetLocalPosition K).1⟩
        simp only [List.map_append, List.map_cons, List.map_nil] at this
        exact this
      · exact ih st

theorem transferHits_setVolumeIds (v : CaloHit → Option (Nat × Nat))
    (pClusterI pClusterJ : Cluster) (U : List CaloHit)
    (hU : ∀ a ∈ U, ∀ b ∈ U, setVolumeIds v a = setVolumeIds v b → a = b)
    (hits : List CaloHit) :
    (∀ h ∈ hits, h ∈ U) →
    ∀ maps : ClusterToHitMap × ClusterToHitMap,
      (∀ k ∈ mapKeys maps.1,
        setClusterVolumeIds v k = setClusterVolumeIds v pClusterI → k = pClusterI) →
      (∀ k ∈ mapKeys maps.2,
        setClusterVolumeIds v k = setClusterVolumeIds v pClusterJ → k = pClusterJ) →
      (∀ h ∈ mapAt maps.2 pClusterJ, h ∈ U) →
      transferHits (setClusterVolumeIds v pClusterI) (setClusterVolumeIds v pClusterJ)
          (hits.map (setVolumeIds v)) (setMapVolumeIds v maps.1, setMapVolumeIds v maps.2) =
        (setMapVolumeIds v (transferHits pClusterI pClusterJ hits maps).1,
          setMapVolumeIds v (transferHits pClusterI pClusterJ hits maps).2) := by
  induction hits with
  | nil => intro _ maps _ _ _; rfl
  | cons h0 rest ih =>
    intro hsub maps hI hJ hrem
    have hrest : ∀ h ∈ rest, h ∈ U := fun h hh => hsub h (List.mem_cons_of_mem _ hh)
    have h0U : h0 ∈ U := hsub h0 (List.mem_cons_self _ _)
    have hupd : mapUpdate (setMapVolumeIds v maps.2) (setClusterVolumeIds v pClusterJ)
        (fun l => l) [] = setMapVolumeIds v (mapUpdate maps.2 pClusterJ (fun l => l) []) :=
      mapUpdate_setMapVolumeIds v maps.2 pClusterJ (fun l => l) (fun l => l) (fun _ => rfl) hJ
    have hJ1 : ∀ k ∈ mapKeys (mapUpdate maps.2 pClusterJ (fun l => l) []),
        setClusterVolumeIds v k = setClusterVolumeIds v pClusterJ → k = pClusterJ := by
      intro k hk hkeq
      rcases mapKeys_mapUpdate_subset _ _ _ _ k hk with hk1 | hk1
      · exact hJ k hk1 hkeq
      · exact hk1
    have hmem : setVolumeIds v h0 ∈ mapAt (setMapVolumeIds v maps.2)
        (setClusterVolumeIds v pClusterJ) ↔ h0 ∈ mapAt maps.2 pClusterJ := by
      rw [mapAt_setMapVolumeIds v maps.2 pClusterJ hJ, List.mem_map]
      constructor
      · rintro ⟨b, hb, hbe⟩
        have := hU b (hrem b hb) h0 h0U hbe
        rw [← this]
        exact hb
      · intro h
        exact ⟨h0, h, rfl⟩
    rw [List.map_cons]
    unfold transferHits
    simp only [mapAt_mapUpdate_id]
    by_cases hin : h0 ∈ mapAt maps.2 pClusterJ
    · rw [if_pos (hmem.mpr hin), if_pos hin, hupd]
      apply ih hrest (maps.1, mapUpdate maps.2 pClusterJ (fun l => l) []) hI hJ1
      intro h hh
      rw [mapAt_mapUpdate_id] at hh
      exact hrem h hh
    · rw [if_neg (fun h => hin (hmem.mp h)), if_neg hin, hupd]
      have hpushI : mapPushBack (setMapVolumeIds v maps.1) (setClusterVolumeIds v pClusterI)
          (setVolumeIds v h0) = setMapVolumeIds v (mapPushBack maps.1 pClusterI h0) :=
        mapUpdate_setMapVolumeIds v maps.1 pClusterI (fun l => l ++ [h0])
          (fun l => l ++ [setVolumeIds v h0]) (fun l => by simp) hI
      have hpushJ : mapPushBack
          (setMapVolumeIds v (mapUpdate maps.2 pClusterJ (fun l => l) []))
          (setClusterVolumeIds v pClusterJ) (setVolumeIds v h0) =
          setMapVolumeIds v
            (mapPushBack (mapUpdate maps.2 pClusterJ (fun l => l) []) pClusterJ h0) :=
        mapUpdate_setMapVolumeIds v _ pClusterJ (fun l => l ++ [h0])
          (fun l => l ++ [setVolumeIds v h0]) (fun l => by simp) hJ1
      rw [hpushI, hpushJ]
      apply ih hrest (mapPushBack maps.1 pClusterI h0,
        mapPushBack (mapUpdate maps.2 pClusterJ (fun l => l) []) pClusterJ h0)
      · intro k hk hkeq
        rcases mapKeys_mapUpdate_subset _ _ _ _ k hk with hk1 | hk1
        · exact hI k hk1 hkeq
        · exact hk1
      · intro k hk hkeq
        rcases mapKeys_mapUpdate_subset _ _ _ _ k hk with hk1 | hk1
        · exact hJ1 k hk1 hkeq
        · exact hk1
      · intro h hh
        simp only [mapAt_mapPushBack, if_true, mapAt_mapUpdate_id] at hh
        rcases List.mem_append.mp hh with hh | hh
        · exact hrem h hh
        · simp only [List.mem_singleton] at hh
          rw [hh]
          exact h0U

theorem GetReclusteredHits_setVolumeIds (settings : TrackConsolidationSettings)
    (hoff : settings.m_checkInterTPCVolumeAssociations = false)
    (closest closest1 : CartesianVector → Cluster → CartesianVector)
    (fit : TwoDSlidingFitResult) (v : CaloHit → Option (Nat × Nat))
    (hclosest : ∀ pos, closest1 pos (setClusterVolumeIds v fit.GetCluster) =
      closest pos fit.GetCluster)
    (pClusterJ : Cluster) (maps : ClusterToHitMap × ClusterToHitMap)
    (hI : ∀ k ∈ mapKeys maps.1,
      setClusterVolumeIds v k = setClusterVolumeIds v fit.GetCluster → k = fit.GetCluster)
    (hJ : ∀ k ∈ mapKeys maps.2,
      setClusterVolumeIds v k = setClusterVolumeIds v pClusterJ → k = pClusterJ)
    (hhits : ∀ a ∈ pClusterJ.orderedCaloHitList ++ mapAt maps.2 pClusterJ,
      ∀ b ∈ pClusterJ.orderedCaloHitList ++ mapAt maps.2 pClusterJ,
      setVolumeIds v a = setVolumeIds v b → a = b) :
    GetReclusteredHits settings closest1 (setFitVolumeIds v fit)
        (setClusterVolumeIds v pClusterJ) (setMapVolumeIds v maps.1, setMapVolumeIds v maps.2) =
      (setMapVolumeIds v (GetReclusteredHits settings closest fit pClusterJ maps).1,
        setMapVolumeIds v (GetReclusteredHits settings closest fit pClusterJ maps).2) := by
  have hscan : associationScan settings closest1 (setFitVolumeIds v fit)
      (setClusterVolumeIds v pClusterJ) =
      ⟨(associationScan settings closest fit pClusterJ).associatedHits.map (setVolumeIds v),
        (associationScan settings closest fit pClusterJ).minL,
        (associationScan settings closest fit pClusterJ).maxL⟩ :=
    scanShowerHits_setVolumeIds settings closest closest1 fit v hclosest
      pClusterJ.orderedCaloHitList ⟨[], FLT_MAX, FLT_MAX⟩
  have hspan : associatedSpan (associationScan settings closest1 (setFitVolumeIds v fit)
      (setClusterVolumeIds v pClusterJ)) =
      associatedSpan (associationScan settings closest fit pClusterJ) := by
    rw [hscan]
    rfl
  have hfrac : associatedFraction (associationScan settings closest1 (setFitVolumeIds v fit)
      (setClusterVolumeIds v pClusterJ)) (setClusterVolumeIds v pClusterJ) =
      associatedFraction (associationScan settings closest fit pClusterJ) pClusterJ := by
    rw [hscan]
    unfold associatedFraction Cluster.GetNCaloHits setClusterVolumeIds
    simp only [List.length_map]
    cases (associationScan settings closest fit pClusterJ).associatedHits <;> rfl
  have hguard : ∀ c1 c2 : Cluster, ¬ (settings.m_checkInterTPCVolumeAssociations = true ∧
      CheckInterTPCVolumeAssociations c1 c2 = false) := by
    intro c1 c2 h
    rw [hoff] at h
    exact absurd h.1 (by simp)
  have hsub : ∀ h ∈ (associationScan settings closest fit pClusterJ).associatedHits,
      h ∈ pClusterJ.orderedCaloHitList ++ mapAt maps.2 pClusterJ := by
    intro h hh
    obtain ⟨added, h1, h2⟩ := scanShowerHits_sublist settings closest fit
      pClusterJ.orderedCaloHitList ⟨[], FLT_MAX, FLT_MAX⟩
    have hh1 : h ∈ added := by
      unfold associationScan at hh
      rw [h1] at hh
      simpa using hh
    exact List.mem_append_left _ (h2.subset hh1)
  unfold GetReclusteredHits
  rw [if_neg (hguard _ _), if_neg (hguard _ _), hspan, hfrac]
  split_ifs with hcond
  · rw [hscan]
    exact transferHits_setVolumeIds v fit.GetCluster pClusterJ
      (pClusterJ.orderedCaloHitList ++ mapAt maps.2 pClusterJ) hhits _ hsub maps hI hJ
      (fun h hh => List.mem_append_right _ hh)
  · rfl

theorem mapAddresses_setMapVolumeIds (v : CaloHit → Option (Nat × Nat))
    (m : ClusterToHitMap) : mapAddresses (setMapVolumeIds v m) = mapAddresses m := by
  induction m with
  | nil => rfl
  | cons e rest ih =>
    simp only [mapAddresses, setMapVolumeIds, List.map_cons, List.map_map] at ih ⊢
    rw [ih]
    rfl

/-- C18: `CheckInterTPCVolumeAssociations` returns false iff both clusters have a non-empty
ordered hit list, the first hit of each carries volume identifiers, and the two (volume,
sub-volume) pairs differ; in every other case it returns true. When the guard is enabled and
vetoes, `GetReclusteredHits` returns both maps unchanged. When the guard is disabled the
identifiers have no effect: if the volume identifiers of the hits are replaced in any way
(in the two clusters, in the keys and in the hits of the two maps), the result is the
result for the original identifiers with the same replacement made in it, so both results
record the same hit addresses under the same cluster addresses; this holds as long as the
replacement confuses neither two hits among those of the short cluster and of its removal
list nor one of the two clusters with another key of the maps. With the guard enabled on a
pairing that it lets pass, the result is that with the guard disabled. -/
theorem C18_volume_guard_vetoes_iff_identifiers_differ (settings : TrackConsolidationSettings)
    (closest : CartesianVector → Cluster → CartesianVector) (fit : TwoDSlidingFitResult)
    (pCluster1 pCluster2 pClusterJ : Cluster) (maps : ClusterToHitMap × ClusterToHitMap) :
    (CheckInterTPCVolumeAssociations pCluster1 pCluster2 = false ↔
      ∃ h1 r1 h2 r2 v1 v2, pCluster1.orderedCaloHitList = h1 :: r1 ∧
        pCluster2.orderedCaloHitList = h2 :: r2 ∧ h1.volumeIds = some v1 ∧
        h2.volumeIds = some v2 ∧ v1 ≠ v2) ∧
    (CheckInterTPCVolumeAssociations pCluster1 pCluster2 = true ↔
      ¬ ∃ h1 r1 h2 r2 v1 v2, pCluster1.orderedCaloHitList = h1 :: r1 ∧
        pCluster2.orderedCaloHitList = h2 :: r2 ∧ h1.volumeIds = some v1 ∧
        h2.volumeIds = some v2 ∧ v1 ≠ v2) ∧
    (settings.m_checkInterTPCVolumeAssociations = true →
      CheckInterTPCVolumeAssociations fit.GetCluster pClusterJ = false →
      GetReclusteredHits settings closest fit pClusterJ maps = maps) ∧
    (settings.m_checkInterTPCVolumeAssociations = false →
      ∀ (v : CaloHit → Option (Nat × Nat))
        (closest1 : CartesianVector → Cluster → CartesianVector),
        (∀ pos, closest1 pos (setClusterVolumeIds v fit.GetCluster) =
          closest pos fit.GetCluster) →
        (∀ k ∈ mapKeys maps.1,
          setClusterVolumeIds v k = setClusterVolumeIds v fit.GetCluster →
            k = fit.GetCluster) →
        (∀ k ∈ mapKeys maps.2,
          setClusterVolumeIds v k = setClusterVolumeIds v pClusterJ → k = pClusterJ) →
        (∀ a ∈ pClusterJ.orderedCaloHitList ++ mapAt maps.2 pClusterJ,
          ∀ b ∈ pClusterJ.orderedCaloHitList ++ mapAt maps.2 pClusterJ,
          setVolumeIds v a = setVolumeIds v b → a = b) →
        GetReclusteredHits settings closest1 (setFitVolumeIds v fit)
            (setClusterVolumeIds v pClusterJ)
            (setMapVolumeIds v maps.1, setMapVolumeIds v maps.2) =
          (setMapVolumeIds v (GetReclusteredHits settings closest fit pClusterJ maps).1,
            setMapVolumeIds v (GetReclusteredHits settings closest fit pClusterJ maps).2) ∧
        mapAddresses (GetReclusteredHits settings closest1 (setFitVolumeIds v fit)
            (setClusterVolumeIds v pClusterJ)
            (setMapVolumeIds v maps.1, setMapVolumeIds v maps.2)).1 =
          mapAddresses (GetReclusteredHits settings closest fit pClusterJ maps).1 ∧
        mapAddresses (GetReclusteredHits settings closest1 (setFitVolumeIds v fit)
            (setClusterVolumeIds v pClusterJ)
            (setMapVolumeIds v maps.1, setMapVolumeIds v maps.2)).2 =
          mapAddresses (GetReclusteredHits settings closest fit pClusterJ maps).2) ∧
    (CheckInterTPCVolumeAssociations fit.GetCluster pClusterJ = true →
      GetReclusteredHits
          ⟨settings.m_maxTransverseDisplacement, settings.m_minAssociatedSpan,
            settings.m_minAssociatedFraction, true⟩ closest fit pClusterJ maps =
        GetReclusteredHits
          ⟨settings.m_maxTransverseDisplacement, settings.m_minAssociatedSpan,
            settings.m_minAssociatedFraction, false⟩ closest fit pClusterJ maps) := by
  have hveto : CheckInterTPCVolumeAssociations pCluster1 pCluster2 = false ↔
      ∃ h1 r1 h2 r2 v1 v2, pCluster1.orderedCaloHitList = h1 :: r1 ∧
        pCluster2.orderedCaloHitList = h2 :: r2 ∧ h1.volumeIds = some v1 ∧
        h2.volumeIds = some v2 ∧ v1 ≠ v2 := by
    unfold CheckInterTPCVolumeAssociations
    cases hl1 : pCluster1.orderedCaloHitList with
    | nil => simp
    | cons h1 r1 =>
      cases hv1 : h1.volumeIds with
      | none =>
        simp only [hv1, Bool.true_eq_false, false_iff]
        rintro ⟨g1, s1, g2, s2, v1, v2, e1, -, e3, -, -⟩
        injection e1 with e1a _
        subst e1a
        rw [hv1] at e3
        simp at e3
      | some v1 =>
        obtain ⟨a1, b1⟩ := v1
        cases hl2 : pCluster2.orderedCaloHitList with
        | nil => simp [hv1]
        | cons h2 r2 =>
          cases hv2 : h2.volumeIds with
          | none =>
            simp only [hv1, hv2, Bool.true_eq_false, false_iff]
            rintro ⟨g1, s1, g2, s2, v1, v2, -, e2, -, e4, -⟩
            injection e2 with e2a _
            subst e2a
            rw [hv2] at e4
            simp at e4
          | some v2 =>
            obtain ⟨a2, b2⟩ := v2
            simp only [hv1, hv2]
            by_cases heq : a1 = a2 ∧ b1 = b2
            · rw [if_pos heq]
              simp only [Bool.true_eq_false, false_iff]
              rintro ⟨g1, s1, g2, s2, v1, v2, e1, e2, e3, e4, hne⟩
              injection e1 with e1a _
              injection e2 with e2a _
              subst e1a
              subst e2a
              rw [hv1] at e3
              rw [hv2] at e4
              injection e3 with e3
              injection e4 with e4
              subst e3
              subst e4
              exact hne (by rw [heq.1, heq.2])
            · rw [if_neg heq]
              simp only [true_iff]
              refine ⟨h1, r1, h2, r2, (a1, b1), (a2, b2), rfl, rfl, hv1, hv2, ?_⟩
              intro hpair
              simp only [Prod.mk.injEq] at hpair
              exact heq hpair
  refine ⟨hveto, ?_, ?_, ?_, ?_⟩
  · rw [← hveto]
    simp
  · intro hon hcheck
    unfold GetReclusteredHits
    rw [if_pos ⟨hon, hcheck⟩]
  · intro hoff v closest1 hclosest hI hJ hhits
    have heq := GetReclusteredHits_setVolumeIds settings hoff closest closest1 fit v hclosest
      pClusterJ maps hI hJ hhits
    refine ⟨heq, ?_, ?_⟩
    · rw [heq]
      exact mapAddresses_setMapVolumeIds v _
    · rw [heq]
      exact mapAddresses_setMapVolumeIds v _
  · intro hpass
    unfold GetReclusteredHits associationScan
    simp only [scanShowerHits_flag, hpass]
    simp

/-- Witness of C18: a track cluster in volume `0` and a short cluster in volume `1` whose
two hits are both admissible. With the guard enabled nothing is transferred; with the guard
disabled both hits are transferred, and when all hits are moved to the volume `(7, 7)` the
same two hits, with the new identifiers, are transferred. -/
theorem C18_volume_guard_vetoes_iff_identifiers_differ_witness :
    CheckInterTPCVolumeAssociations trackClusterVolume0 shortClusterVolume1 = false ∧
    GetReclusteredHits ⟨1, 1, 1 / 2, true⟩ closestAtOrigin fitAlongXVolume0 shortClusterVolume1
      ([], []) = ([], []) ∧
    GetReclusteredHits ⟨1, 1, 1 / 2, false⟩ closestAtOrigin fitAlongXVolume0
      shortClusterVolume1 ([], []) =
      ([(trackClusterVolume0, [hitInVolume 21 3 (1 / 2) 1, hitInVolume 22 4 (1 / 2) 1])],
        [(shortClusterVolume1, [hitInVolume 21 3 (1 / 2) 1, hitInVolume 22 4 (1 / 2) 1])]) ∧
    GetReclusteredHits ⟨1, 1, 1 / 2, false⟩ closestAtOrigin
        (setFitVolumeIds allInVolume7 fitAlongXVolume0)
        (setClusterVolumeIds allInVolume7 shortClusterVolume1)
        (setMapVolumeIds allInVolume7 [], setMapVolumeIds allInVolume7 []) =
      (setMapVolumeIds allInVolume7
          (GetReclusteredHits ⟨1, 1, 1 / 2, false⟩ closestAtOrigin fitAlongXVolume0
            shortClusterVolume1 ([], [])).1,
        setMapVolumeIds allInVolume7
          (GetReclusteredHits ⟨1, 1, 1 / 2, false⟩ closestAtOrigin fitAlongXVolume0
            shortClusterVolume1 ([], [])).2) ∧
    setMapVolumeIds allInVolume7
        (GetReclusteredHits ⟨1, 1, 1 / 2, false⟩ closestAtOrigin fitAlongXVolume0
          shortClusterVolume1 ([], [])).1 =
      [(setClusterVolumeIds allInVolume7 trackClusterVolume0,
        [⟨21, HitType.TPC_VIEW_W, ⟨3, 0, 1 / 2⟩, some (7, 7)⟩,
          ⟨22, HitType.TPC_VIEW_W, ⟨4, 0, 1 / 2⟩, some (7, 7)⟩])] :=
  ⟨(C18_volume_guard_vetoes_iff_identifiers_differ ⟨1, 1, 1 / 2, true⟩ closestAtOrigin
      fitAlongXVolume0 trackClusterVolume0 shortClusterVolume1 shortClusterVolume1
      ([], [])).1.mpr
      ⟨hitInVolume 20 0 0 0, [], hitInVolume 21 3 (1 / 2) 1, [hitInVolume 22 4 (1 / 2) 1],
        (0, 0), (1, 0), rfl, rfl, rfl, rfl, by decide⟩,
    (C18_volume_guard_vetoes_iff_identifiers_differ ⟨1, 1, 1 / 2, true⟩ closestAtOrigin
      fitAlongXVolume0 trackClusterVolume0 shortClusterVolume1 shortClusterVolume1
      ([], [])).2.2.1 rfl (by decide),
    by decide!,
    ((C18_volume_guard_vetoes_iff_identifiers_differ ⟨1, 1, 1 / 2, false⟩ closestAtOrigin
      fitAlongXVolume0 trackClusterVolume0 shortClusterVolume1 shortClusterVolume1
      ([], [])).2.2.2.1 rfl allInVolume7 closestAtOrigin (fun _ => rfl)
      (by simp [mapKeys]) (by simp [mapKeys]) (by decide!)).1,
    by decide!⟩

/-! ## C19 -/

theorem matchParentClusters_relabel (maxD : ℚ) (cd cd1 : Cluster → Cluster → ℚ)
    (g : Cluster → Cluster)
    (hg : ∀ c, (g c).hitType = c.hitType ∧ (g c).lengthSquared = c.lengthSquared)
    (hcd : ∀ a b, cd1 (g a) (g b) = cd a b) (dc : Cluster) (pl : List Cluster) :
    ∀ st, matchParentClusters maxD cd1 (g dc) (pl.map g) st =
      matchParentClusters maxD cd dc pl st := by
  induction pl with
  | nil => intro st; rfl
  | cons pc rest ih =>
    intro st
    simp only [List.map_cons, matchParentClusters, deltaSquared, (hg dc).1, (hg pc).1,
      (hg dc).2, (hg pc).2, hcd, ih]

theorem matchDaughterClusters_relabel (maxD : ℚ) (cd cd1 : Cluster → Cluster → ℚ)
    (g : Cluster → Cluster)
    (hg : ∀ c, (g c).hitType = c.hitType ∧ (g c).lengthSquared = c.lengthSquared)
    (hcd : ∀ a b, cd1 (g a) (g b) = cd a b) (pl : List Cluster) (dl : List Cluster) :
    ∀ st, matchDaughterClusters maxD cd1 (pl.map g) (dl.map g) st =
      matchDaughterClusters maxD cd pl dl st := by
  induction dl with
  | nil => intro st; rfl
  | cons dc rest ih =>
    intro st
    simp only [List.map_cons, matchDaughterClusters, (hg dc).1,
      matchParentClusters_relabel maxD cd cd1 g hg hcd, ih]

theorem IsAssociated_relabel (maxD : ℚ) (cd cd1 : Cluster → Cluster → ℚ)
    (g : Cluster → Cluster)
    (hg : ∀ c, (g c).hitType = c.hitType ∧ (g c).lengthSquared = c.lengthSquared)
    (hcd : ∀ a b, cd1 (g a) (g b) = cd a b) (d p : ParticleFlowObject)
    (hinj : relabelPfo g d = relabelPfo g p → d = p) :
    IsAssociated maxD cd1 (relabelPfo g d) (relabelPfo g p) = IsAssociated maxD cd d p := by
  unfold IsAssociated
  by_cases hdp : d = p
  · rw [if_pos hdp, if_pos (by rw [hdp])]
  · rw [if_neg hdp, if_neg (fun h => hdp (hinj h))]
    simp only [relabelPfo, matchDaughterClusters_relabel maxD cd cd1 g hg hcd]

theorem findBestParent_relabel (maxD : ℚ) (cd cd1 : Cluster → Cluster → ℚ)
    (g : Cluster → Cluster)
    (hg : ∀ c, (g c).hitType = c.hitType ∧ (g c).lengthSquared = c.lengthSquared)
    (hcd : ∀ a b, cd1 (g a) (g b) = cd a b) (d : ParticleFlowObject)
    (cands : List ParticleFlowObject) :
    (∀ x ∈ cands, relabelPfo g d = relabelPfo g x → d = x) →
    ∀ st : Option ParticleFlowObject × ℚ,
      findBestParent maxD cd1 (relabelPfo g d) (cands.map (relabelPfo g))
          (st.1.map (relabelPfo g), st.2) =
        (findBestParent maxD cd d cands st).map (fun r => (r.1.map (relabelPfo g), r.2)) := by
  induction cands with
  | nil => intro _ st; rfl
  | cons x rest ih =>
    intro hinj st
    have hrest : ∀ y ∈ rest, relabelPfo g d = relabelPfo g y → d = y :=
      fun y hy => hinj y (List.mem_cons_of_mem _ hy)
    have hx := hinj x (List.mem_cons_self _ _)
    simp only [List.map_cons]
    unfold findBestParent
    by_cases hdx : d = x
    · rw [if_pos hdx, if_pos (by rw [hdx])]
      exact ih hrest st
    · rw [if_neg hdx, if_neg (fun h => hdx (hx h)),
        IsAssociated_relabel maxD cd cd1 g hg hcd d x hx]
      cases hres : IsAssociated maxD cd d x with
      | error e => rfl
      | ok r =>
        obtain ⟨b, disp⟩ := r
        simp only
        cases b with
        | false =>
          simp only [if_true]
          exact ih hrest st
        | true =>
          simp only [Bool.true_eq_false, if_false]
          by_cases hlt : disp < st.2
          · rw [if_pos hlt, if_pos hlt]
            exact ih hrest (some x, disp)
          · rw [if_neg hlt, if_neg hlt]
            exact ih hrest st

theorem mapInsert_relabel (G : ParticleFlowObject → ParticleFlowObject)
    (d b : ParticleFlowObject) (m : PfoAssociationMap) :
    (∀ e ∈ m, G e.1 = G d → e.1 = d) →
    mapInsert (m.map (Prod.map G G)) (G d) (G b) = (mapInsert m d b).map (Prod.map G G) := by
  induction m with
  | nil => intro _; rfl
  | cons e rest ih =>
    intro hinj
    obtain ⟨k, v⟩ := e
    have hk := hinj (k, v) (List.mem_cons_self _ _)
    have hrest := ih (fun e he => hinj e (List.mem_cons_of_mem _ he))
    unfold mapInsert at hrest ⊢
    simp only [List.map_cons, Prod.map_apply, mapUpdate]
    by_cases hkd : k = d
    · rw [if_pos hkd, if_pos (by rw [hkd])]
      simp
    · rw [if_neg hkd, if_neg (fun h => hkd (hk h))]
      simp only [List.map_cons, Prod.map_apply]
      rw [hrest]

theorem mapInsert_keys_subset (l : List ParticleFlowObject) (m : PfoAssociationMap)
    (d b : ParticleFlowObject) (hd : d ∈ l) (hm : ∀ e ∈ m, e.1 ∈ l) :
    ∀ e ∈ mapInsert m d b, e.1 ∈ l := by
  induction m with
  | nil =>
    intro e he
    simp only [mapInsert, mapUpdate, List.mem_singleton] at he
    rw [he]
    exact hd
  | cons e0 rest ih =>
    intro e he
    obtain ⟨k, v⟩ := e0
    unfold mapInsert at he ih
    simp only [mapUpdate] at he
    split_ifs at he with hkd
    · rcases List.mem_cons.mp he with rfl | he
      · exact hm (k, v) (List.mem_cons_self _ _)
      · exact hm e (List.mem_cons_of_mem _ he)
    · rcases List.mem_cons.mp he with rfl | he
      · exact hm (k, v) (List.mem_cons_self _ _)
      · exact ih (fun e he => hm e (List.mem_cons_of_mem _ he)) e he

theorem buildAssociations_relabel (maxD : ℚ) (cd cd1 : Cluster → Cluster → ℚ)
    (g : Cluster → Cluster)
    (hg : ∀ c, (g c).hitType = c.hitType ∧ (g c).lengthSquared = c.lengthSquared)
    (hcd : ∀ a b, cd1 (g a) (g b) = cd a b) (l : List ParticleFlowObject)
    (hinj : ∀ a ∈ l, ∀ b ∈ l, relabelPfo g a = relabelPfo g b → a = b)
    (ds : List ParticleFlowObject) :
    (∀ d ∈ ds, d ∈ l) → ∀ m : PfoAssociationMap, (∀ e ∈ m, e.1 ∈ l) →
      buildAssociations maxD cd1 (l.map (relabelPfo g)) (ds.map (relabelPfo g))
          (m.map (Prod.map (relabelPfo g) (relabelPfo g))) =
        (buildAssociations maxD cd l ds m).map
          (List.map (Prod.map (relabelPfo g) (relabelPfo g))) := by
  induction ds with
  | nil => intro _ m _; rfl
  | cons d rest ih =>
    intro hds m hm
    have hd : d ∈ l := hds d (List.mem_cons_self _ _)
    have hrest : ∀ x ∈ rest, x ∈ l := fun x hx => hds x (List.mem_cons_of_mem _ hx)
    have hfind := findBestParent_relabel maxD cd cd1 g hg hcd d l
      (fun x hx => hinj d hd x hx) (none, FLT_MAX)
    simp only [Option.map_none'] at hfind
    simp only [List.map_cons]
    unfold buildAssociations
    rw [hfind]
    cases hres : findBestParent maxD cd d l (none, FLT_MAX) with
    | error e => rfl
    | ok r =>
      obtain ⟨best, disp⟩ := r
      cases best with
      | none =>
        simp only [Except.map, Option.map_none']
        exact ih hrest m hm
      | some b =>
        simp only [Except.map, Option.map_some']
        rw [mapInsert_relabel (relabelPfo g) d b m
          (fun e he => hinj e.1 (hm e he) d hd)]
        exact ih hrest (mapInsert m d b) (mapInsert_keys_subset l m d b hd hm)

/-- C19 (amended): `IsAssociated` and `BuildAssociationMap` have no volume-consistency guard
and take no account of volume identifiers. When the clusters of the objects of a list are
replaced by clusters with the same hit type and squared length (for instance with other hits
and other volume identifiers) and the closest distances are unchanged, the result of
`IsAssociated` on every pair of the list is the same, and `BuildAssociationMap` records the
same daughter-parent entries. -/
theorem C19_association_ignores_volume_identifiers (maxD : ℚ)
    (cd cd1 : Cluster → Cluster → ℚ) (g : Cluster → Cluster)
    (hg : ∀ c, (g c).hitType = c.hitType ∧ (g c).lengthSquared = c.lengthSquared)
    (hcd : ∀ a b, cd1 (g a) (g b) = cd a b) (l : List ParticleFlowObject)
    (hinj : ∀ a ∈ l, ∀ b ∈ l, relabelPfo g a = relabelPfo g b → a = b) :
    (∀ d ∈ l, ∀ p ∈ l, IsAssociated maxD cd1 (relabelPfo g d) (relabelPfo g p) =
      IsAssociated maxD cd d p) ∧
    BuildAssociationMap maxD cd1 (l.map (relabelPfo g)) [] =
      (BuildAssociationMap maxD cd l []).map
        (List.map (Prod.map (relabelPfo g) (relabelPfo g))) := by
  constructor
  · intro d hd p hp
    exact IsAssociated_relabel maxD cd cd1 g hg hcd d p (hinj d hd p hp)
  · unfold BuildAssociationMap
    exact buildAssociations_relabel maxD cd cd1 g hg hcd l hinj l (fun d hd => hd) []
      (by simp)

/-- Witness of C19 (amended): moving all hits of the two objects of the volume scenario to
one common volume changes nothing in the recorded association. -/
theorem C19_association_ignores_volume_identifiers_witness :
    (∀ d ∈ [pfoDVolume0, pfoPVolume1], ∀ p ∈ [pfoDVolume0, pfoPVolume1],
      IsAssociated 9 distanceOne (relabelPfo moveToVolume7 d) (relabelPfo moveToVolume7 p) =
        IsAssociated 9 distanceOne d p) ∧
    BuildAssociationMap 9 distanceOne
        ([pfoDVolume0, pfoPVolume1].map (relabelPfo moveToVolume7)) [] =
      (BuildAssociationMap 9 distanceOne [pfoDVolume0, pfoPVolume1] []).map
        (List.map (Prod.map (relabelPfo moveToVolume7) (relabelPfo moveToVolume7))) :=
  C19_association_ignores_volume_identifiers 9 distanceOne distanceOne moveToVolume7
    (fun _ => ⟨rfl, rfl⟩) (fun _ _ => rfl) [pfoDVolume0, pfoPVolume1] (by decide)

/-- Counterexample to C19 as stated: the clusters of the two objects carry differing volume
identifiers (the volume check vetoes the pair of clusters), yet `IsAssociated` accepts the
pair with displacement `1` and `BuildAssociationMap` records it. -/
theorem C19_counterexample_differing_volumes_associated :
    (∀ dc ∈ pfoDVolume0.clusterList, ∀ pc ∈ pfoPVolume1.clusterList,
      CheckInterTPCVolumeAssociations dc pc = false) ∧
    (IsAssociated 9 distanceOne pfoDVolume0 pfoPVolume1).toOption = some (true, 1) ∧
    (BuildAssociationMap 9 distanceOne [pfoDVolume0, pfoPVolume1] []).toOption =
      some [(pfoDVolume0, pfoPVolume1)] :=
  ⟨by decide, by decide!, by decide!⟩

/-! ## Counting the recorded hits -/

theorem totalCount_mapUpdate (m : ClusterToHitMap) (k : Cluster) (f : List CaloHit → List CaloHit)
    (h : CaloHit) :
    totalCount (mapUpdate m k f []) h + (mapAt m k).count h =
      totalCount m h + (f (mapAt m k)).count h := by
  induction m with
  | nil => simp [mapUpdate, totalCount, mapAt, mapFind]
  | cons e rest ih =>
    obtain ⟨k0, l0⟩ := e
    by_cases hk : k0 = k
    · subst hk
      simp only [mapUpdate, if_true, totalCount, List.map_cons, List.sum_cons, mapAt, mapFind,
        Option.getD_some]
      omega
    · simp only [mapUpdate, if_neg hk, totalCount, List.map_cons, List.sum_cons, mapAt, mapFind]
      simp only [totalCount, mapAt] at ih
      omega

theorem totalCount_mapUpdate_id (m : ClusterToHitMap) (k : Cluster) (h : CaloHit) :
    totalCount (mapUpdate m k (fun l => l) []) h = totalCount m h := by
  have := totalCount_mapUpdate m k (fun l => l) h
  simp only at this
  omega

theorem totalCount_mapPushBack (m : ClusterToHitMap) (k : Cluster) (x h : CaloHit) :
    totalCount (mapPushBack m k x) h = totalCount m h + (if x = h then 1 else 0) := by
  have := totalCount_mapUpdate m k (fun l => l ++ [x]) h
  simp only [List.count_append, List.count_singleton] at this
  unfold mapPushBack
  by_cases hx : x = h
  · subst hx
    simp only [beq_self_eq_true, if_true] at this ⊢
    omega
  · have hb : (x == h) = false := by simpa using hx
    simp only [hb, if_neg hx] at this ⊢
    simp only [Bool.false_eq_true, if_false] at this
    omega

theorem mapAt_count_le_totalCount (m : ClusterToHitMap) (k : Cluster) (h : CaloHit) :
    (mapAt m k).count h ≤ totalCount m h := by
  induction m with
  | nil => simp [mapAt, mapFind]
  | cons e rest ih =>
    obtain ⟨k0, l0⟩ := e
    by_cases hk : k0 = k
    · simp [mapAt, mapFind, hk, totalCount]
    · simp only [mapAt, mapFind, if_neg hk, totalCount, List.map_cons, List.sum_cons]
      simp only [mapAt, totalCount] at ih
      omega

theorem mapAt_two_le_totalCount (m : ClusterToHitMap) (k k1 : Cluster) (hne : k ≠ k1)
    (h : CaloHit) : (mapAt m k).count h + (mapAt m k1).count h ≤ totalCount m h := by
  induction m with
  | nil => simp [mapAt, mapFind]
  | cons e rest ih =>
    obtain ⟨k0, l0⟩ := e
    by_cases hk : k0 = k
    · have hk1 : ¬ k0 = k1 := fun e => hne (hk.symm.trans e)
      have h1 := mapAt_count_le_totalCount rest k1 h
      simp only [mapAt, mapFind, if_pos hk, if_neg hk1, totalCount, List.map_cons,
        List.sum_cons, Option.getD_some]
      simp only [mapAt, totalCount] at h1
      omega
    · by_cases hk1 : k0 = k1
      · have h1 := mapAt_count_le_totalCount rest k h
        simp only [mapAt, mapFind, if_neg hk, if_pos hk1, totalCount, List.map_cons,
          List.sum_cons, Option.getD_some]
        simp only [mapAt, totalCount] at h1
        omega
      · simp only [mapAt, mapFind, if_neg hk, if_neg hk1, totalCount, List.map_cons,
          List.sum_cons]
        simp only [mapAt, totalCount] at ih
        omega

/-! ## The invariant of the consolidation -/

theorem transferHits_inv (S : List Cluster)
    (hdisj : ∀ J ∈ S, ∀ J1 ∈ S, ∀ h ∈ J.orderedCaloHitList, h ∈ J1.orderedCaloHitList → J = J1)
    (pClusterI pClusterJ : Cluster) (hJ : pClusterJ ∈ S) (hits : List CaloHit) :
    (∀ h ∈ hits, h ∈ pClusterJ.orderedCaloHitList) →
    ∀ maps, ConsolidationInvariant S maps →
      ConsolidationInvariant S (transferHits pClusterI pClusterJ hits maps) := by
  induction hits with
  | nil => intro _ maps hinv; exact hinv
  | cons h0 rest ih =>
    intro hsub maps hinv
    have hrest : ∀ h ∈ rest, h ∈ pClusterJ.orderedCaloHitList :=
      fun h hh => hsub h (List.mem_cons_of_mem _ hh)
    have h0J : h0 ∈ pClusterJ.orderedCaloHitList := hsub h0 (List.mem_cons_self _ _)
    obtain ⟨hB, hA⟩ := hinv
    unfold transferHits
    rw [mapAt_mapUpdate_id]
    by_cases hin : h0 ∈ mapAt maps.2 pClusterJ
    · rw [if_pos hin]
      apply ih hrest
      refine ⟨?_, ?_⟩
      · intro J
        simp only [mapAt_mapUpdate_id]
        exact hB J
      · intro h
        simp only [mapAt_mapUpdate_id]
        exact hA h
    · rw [if_neg hin]
      apply ih hrest
      have hzero : totalCount maps.1 h0 = 0 := by
        obtain ⟨hle, hone⟩ := hA h0
        by_contra hne
        have h1 : totalCount maps.1 h0 = 1 := by omega
        obtain ⟨J1, hJ1, hmem, hrem⟩ := hone h1
        have : J1 = pClusterJ := hdisj J1 hJ1 pClusterJ hJ h0 hmem h0J
        rw [this] at hrem
        exact hin hrem
      refine ⟨?_, ?_⟩
      · intro J
        simp only [mapAt_mapPushBack, mapAt_mapUpdate_id]
        by_cases hJJ : pClusterJ = J
        · rw [if_pos hJJ]
          exact List.Nodup.append (hB pClusterJ) (List.nodup_singleton h0)
            (by
              intro x hx hx0
              simp only [List.mem_singleton] at hx0
              rw [hx0] at hx
              exact hin hx)
        · rw [if_neg hJJ]
          exact hB J
      · intro h
        simp only [totalCount_mapPushBack, mapAt_mapPushBack, mapAt_mapUpdate_id]
        by_cases hh : h0 = h
        · subst hh
          rw [if_pos rfl, hzero]
          refine ⟨le_refl _, fun _ => ⟨pClusterJ, hJ, h0J, ?_⟩⟩
          rw [if_pos rfl]
          simp
        · rw [if_neg hh]
          obtain ⟨hle, hone⟩ := hA h
          refine ⟨hle, ?_⟩
          intro h1
          obtain ⟨J1, hJ1, hmem, hrem⟩ := hone h1
          refine ⟨J1, hJ1, hmem, ?_⟩
          by_cases hJJ : pClusterJ = J1
          · rw [if_pos hJJ, hJJ]
            exact List.mem_append_left _ hrem
          · rw [if_neg hJJ]
            exact hrem

theorem associationScan_subset (settings : TrackConsolidationSettings)
    (closest : CartesianVector → Cluster → CartesianVector) (fit : TwoDSlidingFitResult)
    (pClusterJ : Cluster) :
    ∀ h ∈ (associationScan settings closest fit pClusterJ).associatedHits,
      h ∈ pClusterJ.orderedCaloHitList := by
  intro h hh
  have := (scanShowerHits_mem settings closest fit h pClusterJ.orderedCaloHitList
    ⟨[], FLT_MAX, FLT_MAX⟩).mp hh
  simp only [List.not_mem_nil, false_or] at this
  exact this.1

theorem GetReclusteredHits_inv (settings : TrackConsolidationSettings)
    (closest : CartesianVector → Cluster → CartesianVector) (S : List Cluster)
    (hdisj : ∀ J ∈ S, ∀ J1 ∈ S, ∀ h ∈ J.orderedCaloHitList, h ∈ J1.orderedCaloHitList → J = J1)
    (fit : TwoDSlidingFitResult) (pClusterJ : Cluster) (hJ : pClusterJ ∈ S)
    (maps : ClusterToHitMap × ClusterToHitMap) (hinv : ConsolidationInvariant S maps) :
    ConsolidationInvariant S (GetReclusteredHits settings closest fit pClusterJ maps) := by
  unfold GetReclusteredHits
  split_ifs
  · exact hinv
  · exact transferHits_inv S hdisj fit.GetCluster pClusterJ hJ _
      (associationScan_subset settings closest fit pClusterJ) maps hinv
  · exact hinv

theorem processPairings_inv (settings : TrackConsolidationSettings)
    (closest : CartesianVector → Cluster → CartesianVector) (S : List Cluster)
    (hdisj : ∀ J ∈ S, ∀ J1 ∈ S, ∀ h ∈ J.orderedCaloHitList, h ∈ J1.orderedCaloHitList → J = J1)
    (pairings : List (TwoDSlidingFitResult × Cluster)) :
    (∀ pr ∈ pairings, pr.2 ∈ S) → ∀ maps, ConsolidationInvariant S maps →
      ConsolidationInvariant S (processPairings settings closest pairings maps) := by
  induction pairings with
  | nil => intro _ maps hinv; exact hinv
  | cons pr rest ih =>
    intro hS maps hinv
    unfold processPairings
    exact ih (fun q hq => hS q (List.mem_cons_of_mem _ hq)) _
      (GetReclusteredHits_inv settings closest S hdisj pr.1 pr.2
        (hS pr (List.mem_cons_self _ _)) maps hinv)

theorem transferHits_add_mono (pClusterI pClusterJ : Cluster) (hits : List CaloHit) :
    ∀ (maps : ClusterToHitMap × ClusterToHitMap) (I0 : Cluster) (h : CaloHit),
      h ∈ mapAt maps.1 I0 → h ∈ mapAt (transferHits pClusterI pClusterJ hits maps).1 I0 := by
  induction hits with
  | nil => intro maps I0 h hh; exact hh
  | cons h0 rest ih =>
    intro maps I0 h hh
    unfold transferHits
    split_ifs
    · exact ih _ I0 h hh
    · apply ih
      simp only [mapAt_mapPushBack]
      by_cases hI : pClusterI = I0
      · rw [if_pos hI, hI]
        exact List.mem_append_left _ hh
      · rw [if_neg hI]
        exact hh

theorem processPairings_add_mono (settings : TrackConsolidationSettings)
    (closest : CartesianVector → Cluster → CartesianVector)
    (pairings : List (TwoDSlidingFitResult × Cluster)) :
    ∀ (maps : ClusterToHitMap × ClusterToHitMap) (I0 : Cluster) (h : CaloHit),
      h ∈ mapAt maps.1 I0 → h ∈ mapAt (processPairings settings closest pairings maps).1 I0 := by
  induction pairings with
  | nil => intro maps I0 h hh; exact hh
  | cons pr rest ih =>
    intro maps I0 h hh
    unfold processPairings
    apply ih
    unfold GetReclusteredHits
    split_ifs
    · exact hh
    · exact transferHits_add_mono _ _ _ maps I0 h hh
    · exact hh

theorem processPairings_append (settings : TrackConsolidationSettings)
    (closest : CartesianVector → Cluster → CartesianVector)
    (ps1 ps2 : List (TwoDSlidingFitResult × Cluster)) :
    ∀ maps, processPairings settings closest (ps1 ++ ps2) maps =
      processPairings settings closest ps2 (processPairings settings closest ps1 maps) := by
  induction ps1 with
  | nil => intro maps; rfl
  | cons pr rest ih =>
    intro maps
    show processPairings settings closest (rest ++ ps2)
        (GetReclusteredHits settings closest pr.1 pr.2 maps) =
      processPairings settings closest ps2
        (processPairings settings closest rest
          (GetReclusteredHits settings closest pr.1 pr.2 maps))
    exact ih _

theorem reclusterShowerClusters_eq (settings : TrackConsolidationSettings)
    (closest : CartesianVector → Cluster → CartesianVector) (fit : TwoDSlidingFitResult)
    (showers : List Cluster) :
    ∀ maps, reclusterShowerClusters settings closest fit showers maps =
      processPairings settings closest
        ((showers.filter (fun J => decide (¬ fit.GetCluster = J ∧
          ¬ 2 * J.lengthSquared > fit.GetCluster.lengthSquared))).map (fun J => (fit, J)))
        maps := by
  induction showers with
  | nil => intro maps; rfl
  | cons J rest ih =>
    intro maps
    unfold reclusterShowerClusters
    by_cases hI : fit.GetCluster = J
    · rw [if_pos hI, ih, List.filter_cons_of_neg (by simp [hI])]
    · rw [if_neg hI]
      by_cases hlen : 2 * J.lengthSquared > fit.GetCluster.lengthSquared
      · rw [if_pos hlen, ih, List.filter_cons_of_neg
          (by simp only [decide_eq_true_eq]; exact fun h => h.2 hlen)]
      · rw [if_neg hlen, ih, List.filter_cons_of_pos
          (by simp only [decide_eq_true_eq]; exact ⟨hI, hlen⟩)]
        rfl

theorem GetReclusteredHitsList_eq (settings : TrackConsolidationSettings)
    (closest : CartesianVector → Cluster → CartesianVector) (fits : List TwoDSlidingFitResult)
    (showers : List Cluster) :
    ∀ maps, GetReclusteredHitsList settings closest fits showers maps =
      processPairings settings closest
        (fits.flatMap (fun fit =>
          (showers.filter (fun J => decide (¬ fit.GetCluster = J ∧
            ¬ 2 * J.lengthSquared > fit.GetCluster.lengthSquared))).map (fun J => (fit, J))))
        maps := by
  induction fits with
  | nil => intro maps; rfl
  | cons fit rest ih =>
    intro maps
    unfold GetReclusteredHitsList
    rw [ih, reclusterShowerClusters_eq, List.flatMap_cons, processPairings_append]

theorem consolidationInvariant_nodup (S : List Cluster)
    (maps : ClusterToHitMap × ClusterToHitMap) (hinv : ConsolidationInvariant S maps) :
    (∀ J, (mapAt maps.2 J).Nodup) ∧ (∀ h, totalCount maps.1 h ≤ 1) ∧
    (∀ I, (mapAt maps.1 I).Nodup) ∧
    (∀ h I I1, h ∈ mapAt maps.1 I → h ∈ mapAt maps.1 I1 → I = I1) := by
  obtain ⟨hB, hA⟩ := hinv
  refine ⟨hB, fun h => (hA h).1, ?_, ?_⟩
  · intro I
    rw [List.nodup_iff_count_le_one]
    intro h
    exact le_trans (mapAt_count_le_totalCount maps.1 I h) (hA h).1
  · intro h I I1 hI hI1
    by_contra hne
    have h1 := mapAt_two_le_totalCount maps.1 I I1 hne h
    have h2 : 0 < (mapAt maps.1 I).count h := List.count_pos_iff.mpr hI
    have h3 : 0 < (mapAt maps.1 I1).count h := List.count_pos_iff.mpr hI1
    have h4 := (hA h).1
    omega

theorem consolidationInvariant_empty (S : List Cluster) : ConsolidationInvariant S ([], []) := by
  refine ⟨?_, ?_⟩
  · intro J
    simp [mapAt, mapFind]
  · intro h
    simp [totalCount]

/-! ## C20: a recorded hit is never recorded again -/

/-- C20 (no re-adding in consolidation): let the short clusters `S` have pairwise disjoint hit
lists and process any sequence of pairings `ps1 ++ ps2` of a sliding fit with a cluster of `S`
by `GetReclusteredHits`, starting from empty output maps. Then every removal list is
duplicate-free; every hit occurs at most once in all the add lists together, so it is in the
add list of at most one track cluster; and a hit that a track cluster holds after the
pairings `ps1` is still held by that cluster, and by no other, after `ps1 ++ ps2`: the first
cluster that claims a hit keeps it. The same holds for the overload over a list of fits and
the list `S` of short clusters (lines 29-50). -/
theorem C20_recorded_hit_is_never_recorded_again (settings : TrackConsolidationSettings)
    (GetClosestPosition : CartesianVector → Cluster → CartesianVector) (S : List Cluster)
    (hdisj : ∀ J ∈ S, ∀ J1 ∈ S, ∀ h ∈ J.orderedCaloHitList, h ∈ J1.orderedCaloHitList → J = J1)
    (ps1 ps2 : List (TwoDSlidingFitResult × Cluster)) (hS : ∀ pr ∈ ps1 ++ ps2, pr.2 ∈ S)
    (fits : List TwoDSlidingFitResult) :
    (∀ J, (mapAt (processPairings settings GetClosestPosition (ps1 ++ ps2) ([], [])).2
      J).Nodup) ∧
    (∀ h, totalCount (processPairings settings GetClosestPosition (ps1 ++ ps2) ([], [])).1 h
      ≤ 1) ∧
    (∀ h I I1,
      h ∈ mapAt (processPairings settings GetClosestPosition (ps1 ++ ps2) ([], [])).1 I →
      h ∈ mapAt (processPairings settings GetClosestPosition (ps1 ++ ps2) ([], [])).1 I1 →
      I = I1) ∧
    (∀ h I, h ∈ mapAt (processPairings settings GetClosestPosition ps1 ([], [])).1 I →
      h ∈ mapAt (processPairings settings GetClosestPosition (ps1 ++ ps2) ([], [])).1 I ∧
      ∀ I1, h ∈ mapAt (processPairings settings GetClosestPosition (ps1 ++ ps2) ([], [])).1
        I1 → I1 = I) ∧
    (∀ J, (mapAt (GetReclusteredHitsList settings GetClosestPosition fits S ([], [])).2
      J).Nodup) ∧
    (∀ h, totalCount (GetReclusteredHitsList settings GetClosestPosition fits S ([], [])).1 h
      ≤ 1) ∧
    (∀ h I I1,
      h ∈ mapAt (GetReclusteredHitsList settings GetClosestPosition fits S ([], [])).1 I →
      h ∈ mapAt (GetReclusteredHitsList settings GetClosestPosition fits S ([], [])).1 I1 →
      I = I1) := by
  have hinv := consolidationInvariant_nodup S _
    (processPairings_inv settings GetClosestPosition S hdisj (ps1 ++ ps2) hS ([], [])
      (consolidationInvariant_empty S))
  have hlist : ConsolidationInvariant S
      (GetReclusteredHitsList settings GetClosestPosition fits S ([], [])) := by
    rw [GetReclusteredHitsList_eq]
    apply processPairings_inv settings GetClosestPosition S hdisj _ _ ([], [])
      (consolidationInvariant_empty S)
    intro pr hpr
    simp only [List.mem_flatMap, List.mem_map, List.mem_filter] at hpr
    obtain ⟨fit, _, J, ⟨hJ, _⟩, rfl⟩ := hpr
    exact hJ
  have hinvList := consolidationInvariant_nodup S _ hlist
  refine ⟨hinv.1, hinv.2.1, hinv.2.2.2, ?_, hinvList.1, hinvList.2.1, hinvList.2.2.2⟩
  intro h I hI
  have hkeep : h ∈ mapAt (processPairings settings GetClosestPosition (ps1 ++ ps2)
      ([], [])).1 I := by
    rw [processPairings_append]
    exact processPairings_add_mono settings GetClosestPosition ps2 _ I h hI
  exact ⟨hkeep, fun I1 hI1 => hinv.2.2.2 h I1 I hI1 hkeep⟩

/-- Witness for C20: the short cluster of two hits is paired with the fit of one track
cluster, then with the fit of a second track cluster, then with the first fit again. The
first track cluster receives both hits once; the later pairings record nothing. -/
theorem C20_recorded_hit_is_never_recorded_again_witness :
    (∀ J ∈ [shortClusterVolume1], ∀ J1 ∈ [shortClusterVolume1],
      ∀ h ∈ J.orderedCaloHitList, h ∈ J1.orderedCaloHitList → J = J1) ∧
    (∀ pr ∈ [(fitAlongX, shortClusterVolume1)] ++
        [(fitAlongXB, shortClusterVolume1), (fitAlongX, shortClusterVolume1)],
      pr.2 ∈ [shortClusterVolume1]) ∧
    processPairings TrackConsolidationSettings.default closestAtOrigin
        ([(fitAlongX, shortClusterVolume1)] ++
          [(fitAlongXB, shortClusterVolume1), (fitAlongX, shortClusterVolume1)]) ([], []) =
      ([(trackCluster, [hitInVolume 21 3 (1 / 2) 1, hitInVolume 22 4 (1 / 2) 1])],
        [(shortClusterVolume1, [hitInVolume 21 3 (1 / 2) 1, hitInVolume 22 4 (1 / 2) 1])]) ∧
    GetReclusteredHitsList TrackConsolidationSettings.default closestAtOrigin
        [fitAlongX, fitAlongXB] [shortClusterVolume1] ([], []) =
      ([(trackCluster, [hitInVolume 21 3 (1 / 2) 1, hitInVolume 22 4 (1 / 2) 1])],
        [(shortClusterVolume1, [hitInVolume 21 3 (1 / 2) 1, hitInVolume 22 4 (1 / 2) 1])]) ∧
    (∀ h, totalCount (processPairings TrackConsolidationSettings.default closestAtOrigin
        ([(fitAlongX, shortClusterVolume1)] ++
          [(fitAlongXB, shortClusterVolume1), (fitAlongX, shortClusterVolume1)])
        ([], [])).1 h ≤ 1) ∧
    (∀ h, totalCount (GetReclusteredHitsList TrackConsolidationSettings.default
        closestAtOrigin [fitAlongX, fitAlongXB] [shortClusterVolume1] ([], [])).1 h ≤ 1) :=
  have hdisj : ∀ J ∈ [shortClusterVolume1], ∀ J1 ∈ [shortClusterVolume1],
      ∀ h ∈ J.orderedCaloHitList, h ∈ J1.orderedCaloHitList → J = J1 := by
    intro J hJ J1 hJ1 _ _ _
    rw [List.mem_singleton] at hJ hJ1
    rw [hJ, hJ1]
  have hS : ∀ pr ∈ [(fitAlongX, shortClusterVolume1)] ++
      [(fitAlongXB, shortClusterVolume1), (fitAlongX, shortClusterVolume1)],
      pr.2 ∈ [shortClusterVolume1] := by
    intro pr hpr
    simp only [List.cons_append, List.nil_append, List.mem_cons, List.mem_singleton,
      List.not_mem_nil, or_false] at hpr
    rcases hpr with rfl | rfl | rfl <;> exact List.mem_singleton.mpr rfl
  ⟨hdisj, hS, by decide!, by decide!,
    (C20_recorded_hit_is_never_recorded_again TrackConsolidationSettings.default
      closestAtOrigin [shortClusterVolume1] hdisj _ _ hS [fitAlongX, fitAlongXB]).2.1,
    (C20_recorded_hit_is_never_recorded_again TrackConsolidationSettings.default
      closestAtOrigin [shortClusterVolume1] hdisj _ _ hS [fitAlongX, fitAlongXB]).2.2.2.2.2.1⟩

/-! ## C21: the invalid-parameter error of GetMCParticleToPfoMatches -/

theorem fillPfoHits_cases (caloHitSet : List CaloHit) (hitToPrimaryMCMap : CaloHitToMCMap)
    (pPfo : ParticleFlowObject) (hits : List CaloHit) :
    ∀ full,
      ((∃ hit ∈ hits, hit.hitType = HitType.TPC_3D) ∧
        fillPfoHits caloHitSet hitToPrimaryMCMap pPfo hits full =
          Except.error StatusCode.STATUS_CODE_INVALID_PARAMETER) ∨
      ((∀ hit ∈ hits, hit.hitType ≠ HitType.TPC_3D) ∧
        ∃ full1, fillPfoHits caloHitSet hitToPrimaryMCMap pPfo hits full = Except.ok full1) := by
  induction hits with
  | nil =>
    intro full
    exact Or.inr ⟨by simp, full, rfl⟩
  | cons hit rest ih =>
    intro full
    unfold fillPfoHits
    by_cases h3 : hit.hitType = HitType.TPC_3D
    · rw [if_pos h3]
      exact Or.inl ⟨⟨hit, List.mem_cons_self _ _, h3⟩, rfl⟩
    · rw [if_neg h3]
      have step : ∀ full2,
          ((∃ x ∈ hit :: rest, x.hitType = HitType.TPC_3D) ∧
            fillPfoHits caloHitSet hitToPrimaryMCMap pPfo rest full2 =
              Except.error StatusCode.STATUS_CODE_INVALID_PARAMETER) ∨
          ((∀ x ∈ hit :: rest, x.hitType ≠ HitType.TPC_3D) ∧
            ∃ full1, fillPfoHits caloHitSet hitToPrimaryMCMap pPfo rest full2 =
              Except.ok full1) := by
        intro full2
        rcases ih full2 with ⟨⟨x, hx, hx3⟩, herr⟩ | ⟨hall, hok⟩
        · exact Or.inl ⟨⟨x, List.mem_cons_of_mem _ hx, hx3⟩, herr⟩
        · refine Or.inr ⟨?_, hok⟩
          intro x hx
          rcases List.mem_cons.mp hx with rfl | hx
          · exact h3
          · exact hall x hx
      split_ifs
      · split
        · exact step full
        · exact step _
      · exact step full

theorem fillMatchingMap_cases (caloHitSet : List CaloHit) (pfoToHitListMap : PfoContributionMap)
    (hitToPrimaryMCMap : CaloHitToMCMap) (pfos : List ParticleFlowObject) :
    ∀ full,
      ((∃ pfo ∈ pfos, ∃ hit ∈ mapAt pfoToHitListMap pfo, hit.hitType = HitType.TPC_3D) ∧
        fillMatchingMap caloHitSet pfoToHitListMap hitToPrimaryMCMap pfos full =
          Except.error StatusCode.STATUS_CODE_INVALID_PARAMETER) ∨
      ((∀ pfo ∈ pfos, ∀ hit ∈ mapAt pfoToHitListMap pfo, hit.hitType ≠ HitType.TPC_3D) ∧
        ∃ full1, fillMatchingMap caloHitSet pfoToHitListMap hitToPrimaryMCMap pfos full =
          Except.ok full1) := by
  induction pfos with
  | nil =>
    intro full
    exact Or.inr ⟨by simp, full, rfl⟩
  | cons pPfo rest ih =>
    intro full
    unfold fillMatchingMap
    rcases fillPfoHits_cases caloHitSet hitToPrimaryMCMap pPfo (mapAt pfoToHitListMap pPfo)
      full with ⟨⟨hit, hhit, h3⟩, herr⟩ | ⟨hall, full2, hok⟩
    · rw [herr]
      exact Or.inl ⟨⟨pPfo, List.mem_cons_self _ _, hit, hhit, h3⟩, rfl⟩
    · rw [hok]
      simp only
      rcases ih full2 with ⟨⟨pfo, hpfo, hex⟩, herr⟩ | ⟨hrest, hok2⟩
      · exact Or.inl ⟨⟨pfo, List.mem_cons_of_mem _ hpfo, hex⟩, herr⟩
      · refine Or.inr ⟨?_, hok2⟩
        intro pfo hpfo
        rcases List.mem_cons.mp hpfo with rfl | hpfo
        · exact hall
        · exact hrest pfo hpfo

theorem mapAt_eq_of_nodup {α γ : Type} [DecidableEq α] (m : Map α (List γ))
    (hnodup : (mapKeys m).Nodup) (e : α × List γ) (he : e ∈ m) : mapAt m e.1 = e.2 := by
  induction m with
  | nil => simp at he
  | cons e0 rest ih =>
    obtain ⟨k0, v0⟩ := e0
    simp only [mapKeys, List.map_cons, List.nodup_cons, List.mem_map, not_exists, not_and]
      at hnodup
    rcases List.mem_cons.mp he with rfl | he
    · simp [mapAt, mapFind]
    · have hne : k0 ≠ e.1 := fun h => hnodup.1 e he h.symm
      have := ih hnodup.2 he
      simp only [mapAt, mapFind, if_neg hne] at this ⊢
      exact this

/-- C21: `GetMCParticleToPfoMatches` raises the invalid-parameter error iff the contributed
hit list of some candidate object (a key of the contribution map, with the hit list the map
gives for it) contains a hit of 3-D view type. Every error it raises is this one, and when no
contributed hit is 3-D it returns normally. When the keys of the map are unique, the
condition is that some entry of the map holds a 3-D hit. -/
theorem C21_invalid_parameter_iff_three_d_hit
    (SortByNHits : ParticleFlowObject → ParticleFlowObject → Bool)
    (SortByMomentum : MCParticle → MCParticle → Bool) (pCaloHitList : List CaloHit)
    (pfoToHitListMap : PfoContributionMap) (hitToPrimaryMCMap : CaloHitToMCMap)
    (out : PfoMatches) :
    (GetMCParticleToPfoMatches SortByNHits SortByMomentum pCaloHitList pfoToHitListMap
        hitToPrimaryMCMap out = Except.error StatusCode.STATUS_CODE_INVALID_PARAMETER ↔
      ∃ pfo ∈ mapKeys pfoToHitListMap, ∃ hit ∈ mapAt pfoToHitListMap pfo,
        hit.hitType = HitType.TPC_3D) ∧
    (∀ e, GetMCParticleToPfoMatches SortByNHits SortByMomentum pCaloHitList pfoToHitListMap
        hitToPrimaryMCMap out = Except.error e →
      e = StatusCode.STATUS_CODE_INVALID_PARAMETER) ∧
    ((∀ pfo ∈ mapKeys pfoToHitListMap, ∀ hit ∈ mapAt pfoToHitListMap pfo,
        hit.hitType ≠ HitType.TPC_3D) →
      ∃ res, GetMCParticleToPfoMatches SortByNHits SortByMomentum pCaloHitList pfoToHitListMap
        hitToPrimaryMCMap out = Except.ok res) ∧
    ((mapKeys pfoToHitListMap).Nodup →
      ((∃ pfo ∈ mapKeys pfoToHitListMap, ∃ hit ∈ mapAt pfoToHitListMap pfo,
          hit.hitType = HitType.TPC_3D) ↔ ¬ NoThreeDHits pfoToHitListMap)) := by
  have hcases := fillMatchingMap_cases pCaloHitList pfoToHitListMap hitToPrimaryMCMap
    (listSort SortByNHits (mapKeys pfoToHitListMap)) out.mcToFullPfoMatchingMap
  simp only [mem_listSort] at hcases
  refine ⟨?_, ?_, ?_, ?_⟩
  · rcases hcases with ⟨hex, herr⟩ | ⟨hall, full, hok⟩
    · unfold GetMCParticleToPfoMatches
      rw [herr]
      exact ⟨fun _ => hex, fun _ => rfl⟩
    · unfold GetMCParticleToPfoMatches
      rw [hok]
      constructor
      · intro h
        simp at h
      · rintro ⟨pfo, hpfo, hit, hhit, h3⟩
        exact absurd h3 (hall pfo hpfo hit hhit)
  · intro e he
    rcases hcases with ⟨-, herr⟩ | ⟨-, full, hok⟩
    · unfold GetMCParticleToPfoMatches at he
      rw [herr] at he
      simp only [Except.error.injEq] at he
      exact he.symm
    · unfold GetMCParticleToPfoMatches at he
      rw [hok] at he
      simp at he
  · intro hall
    rcases hcases with ⟨⟨pfo, hpfo, hit, hhit, h3⟩, -⟩ | ⟨-, full, hok⟩
    · exact absurd h3 (hall pfo hpfo hit hhit)
    · unfold GetMCParticleToPfoMatches
      rw [hok]
      exact ⟨_, rfl⟩
  · intro hnodup
    unfold NoThreeDHits
    constructor
    · rintro ⟨pfo, hpfo, hit, hhit, h3⟩ hno
      exact mapAt_no3D pfoToHitListMap hno pfo hit hhit h3
    · intro hno
      simp only [not_forall, not_not] at hno
      obtain ⟨e, he, hit, hhit, h3⟩ := hno
      refine ⟨e.1, ?_, hit, ?_, h3⟩
      · simp only [mapKeys, List.mem_map]
        exact ⟨e, he, rfl⟩
      · rw [mapAt_eq_of_nodup pfoToHitListMap hnodup e he]
        exact hhit

/-- Witness of C21: with a 3-D hit in the hit list of Y the invalid-parameter error is
raised, and without 3-D hits the call returns normally. -/
theorem C21_invalid_parameter_iff_three_d_hit_witness :
    GetMCParticleToPfoMatches pfoById mcByAddress (hitsX ++ hitsY) threeDPfoToHits
        scenarioHitToMC PfoMatches.empty =
      Except.error StatusCode.STATUS_CODE_INVALID_PARAMETER ∧
    (∃ res, GetMCParticleToPfoMatches pfoById mcByAddress (hitsX ++ hitsY) scenarioPfoToHits
        scenarioHitToMC PfoMatches.empty = Except.ok res) :=
  ⟨(C21_invalid_parameter_iff_three_d_hit pfoById mcByAddress (hitsX ++ hitsY)
      threeDPfoToHits scenarioHitToMC PfoMatches.empty).1.mpr
      ⟨pfoY, by decide, hitThreeD, by decide, rfl⟩,
    (C21_invalid_parameter_iff_three_d_hit pfoById mcByAddress (hitsX ++ hitsY)
      scenarioPfoToHits scenarioHitToMC PfoMatches.empty).2.2.1 (by decide)⟩

/-! ## C22: the invalid-parameter error of GetNeutrinoMatches -/

theorem GetNeutrinoMatches_cases (helpers : PfoHelpers) (GetIso : Cluster → List CaloHit)
    (GetParentMC : MCParticle → MCParticle) (IsNuMC : MCParticle → Bool)
    (SortByMomentum : MCParticle → MCParticle → Bool) (pCaloHitList : List CaloHit)
    (h2mc : CaloHitToMCMap) (recoNeutrinos : List ParticleFlowObject) :
    (∀ p ∈ recoNeutrinos, helpers.IsNeutrino p = true →
      ∃ hits, CollectCaloHits helpers GetIso (helpers.GetAllDownstreamPfosOf p []) [] =
        Except.ok hits) →
    ∀ out,
      ((∃ p ∈ recoNeutrinos, helpers.IsNeutrino p = false) ∧
        GetNeutrinoMatches helpers GetIso GetParentMC IsNuMC SortByMomentum pCaloHitList h2mc
          recoNeutrinos out = Except.error StatusCode.STATUS_CODE_INVALID_PARAMETER) ∨
      ((∀ p ∈ recoNeutrinos, helpers.IsNeutrino p = true) ∧
        ∃ res, GetNeutrinoMatches helpers GetIso GetParentMC IsNuMC SortByMomentum pCaloHitList
          h2mc recoNeutrinos out = Except.ok res) := by
  induction recoNeutrinos with
  | nil =>
    intro _ out
    exact Or.inr ⟨by simp, out, rfl⟩
  | cons p rest ih =>
    intro hcollect out
    have hrest := ih (fun q hq => hcollect q (List.mem_cons_of_mem _ hq))
    unfold GetNeutrinoMatches
    by_cases hnu : helpers.IsNeutrino p = false
    · rw [if_pos hnu]
      exact Or.inl ⟨⟨p, List.mem_cons_self _ _, hnu⟩, rfl⟩
    · rw [if_neg hnu]
      have hnu1 : helpers.IsNeutrino p = true := by simpa using hnu
      obtain ⟨hits, hhits⟩ := hcollect p (List.mem_cons_self _ _) hnu1
      rw [hhits]
      have step : ∀ out1,
          ((∃ q ∈ p :: rest, helpers.IsNeutrino q = false) ∧
            GetNeutrinoMatches helpers GetIso GetParentMC IsNuMC SortByMomentum pCaloHitList
              h2mc rest out1 = Except.error StatusCode.STATUS_CODE_INVALID_PARAMETER) ∨
          ((∀ q ∈ p :: rest, helpers.IsNeutrino q = true) ∧
            ∃ res, GetNeutrinoMatches helpers GetIso GetParentMC IsNuMC SortByMomentum
              pCaloHitList h2mc rest out1 = Except.ok res) := by
        intro out1
        rcases hrest out1 with ⟨⟨q, hq, hqn⟩, herr⟩ | ⟨hall, hok⟩
        · exact Or.inl ⟨⟨q, List.mem_cons_of_mem _ hq, hqn⟩, herr⟩
        · refine Or.inr ⟨?_, hok⟩
          intro q hq
          rcases List.mem_cons.mp hq with rfl | hq
          · exact hnu1
          · exact hall q hq
      simp only
      split
      · exact step _
      · exact step _

/-- C22: when the hit collection succeeds for every neutrino-type object of the input list,
`GetNeutrinoMatches` raises the invalid-parameter error iff the input list contains an
object that is not neutrino-type; every error it raises is this one, and it returns normally
when all objects of the list are neutrino-type. -/
theorem C22_invalid_parameter_iff_non_neutrino_input (helpers : PfoHelpers)
    (GetIso : Cluster → List CaloHit) (GetParentMC : MCParticle → MCParticle)
    (IsNuMC : MCParticle → Bool) (SortByMomentum : MCParticle → MCParticle → Bool)
    (pCaloHitList : List CaloHit) (h2mc : CaloHitToMCMap)
    (recoNeutrinos : List ParticleFlowObject) (out : MCToPfoMap)
    (hcollect : ∀ p ∈ recoNeutrinos, helpers.IsNeutrino p = true →
      ∃ hits, CollectCaloHits helpers GetIso (helpers.GetAllDownstreamPfosOf p []) [] =
        Except.ok hits) :
    (GetNeutrinoMatches helpers GetIso GetParentMC IsNuMC SortByMomentum pCaloHitList h2mc
        recoNeutrinos out = Except.error StatusCode.STATUS_CODE_INVALID_PARAMETER ↔
      ∃ p ∈ recoNeutrinos, helpers.IsNeutrino p = false) ∧
    (∀ e, GetNeutrinoMatches helpers GetIso GetParentMC IsNuMC SortByMomentum pCaloHitList h2mc
        recoNeutrinos out = Except.error e → e = StatusCode.STATUS_CODE_INVALID_PARAMETER) ∧
    ((∀ p ∈ recoNeutrinos, helpers.IsNeutrino p = true) →
      ∃ res, GetNeutrinoMatches helpers GetIso GetParentMC IsNuMC SortByMomentum pCaloHitList
        h2mc recoNeutrinos out = Except.ok res) := by
  have hcases := GetNeutrinoMatches_cases helpers GetIso GetParentMC IsNuMC SortByMomentum
    pCaloHitList h2mc recoNeutrinos hcollect out
  refine ⟨?_, ?_, ?_⟩
  · rcases hcases with ⟨hex, herr⟩ | ⟨hall, res, hok⟩
    · rw [herr]
      exact ⟨fun _ => hex, fun _ => rfl⟩
    · rw [hok]
      constructor
      · intro h
        simp at h
      · rintro ⟨p, hp, hpn⟩
        rw [hall p hp] at hpn
        simp at hpn
  · intro e he
    rcases hcases with ⟨-, herr⟩ | ⟨-, res, hok⟩
    · rw [herr] at he
      simp only [Except.error.injEq] at he
      exact he.symm
    · rw [hok] at he
      simp at he
  · intro hall
    rcases hcases with ⟨⟨p, hp, hpn⟩, -⟩ | ⟨-, hok⟩
    · rw [hall p hp] at hpn
      simp at hpn
    · exact hok

/-- Witness of C22: the input list `[pfoNuWithHits, X]`, in which X is not neutrino-type,
raises the invalid-parameter error although the first object is matched. -/
theorem C22_invalid_parameter_iff_non_neutrino_input_witness :
    GetNeutrinoMatches neutrinoHelpers noIsolatedHits neutrinoParentMC isTruthNeutrino
        mcByAddress [mkHit 0, mkHit 1, mkHit 2] neutrinoHitToMC [pfoNuWithHits, pfoX] [] =
      Except.error StatusCode.STATUS_CODE_INVALID_PARAMETER :=
  (C22_invalid_parameter_iff_non_neutrino_input neutrinoHelpers noIsolatedHits
    neutrinoParentMC isTruthNeutrino mcByAddress [mkHit 0, mkHit 1, mkHit 2] neutrinoHitToMC
    [pfoNuWithHits, pfoX] []
    (by
      intro p hp hnu
      have hp1 : p = pfoNuWithHits := by simpa [neutrinoHelpers] using hnu
      subst hp1
      exact ⟨[mkHit 0, mkHit 1, mkHit 2], by rfl⟩)).1.mpr
    ⟨pfoX, by decide, by decide⟩

/-! ## C23: the fatal branch of IsAssociated -/

theorem IsAssociated_cases (maxD : ℚ) (cd : Cluster → Cluster → ℚ)
    (d p : ParticleFlowObject) (hne : d ≠ p) :
    ((∀ c ∈ d.clusterList, c.hitType = HitType.TPC_3D) ∧
      matchDaughterClusters maxD cd p.clusterList d.clusterList ⟨0, 0, false⟩ =
        some ⟨0, 0, false⟩ ∧
      IsAssociated maxD cd d p = Except.error StatusCode.STATUS_CODE_FAILURE) ∨
    ((∃ c ∈ d.clusterList, c.hitType ≠ HitType.TPC_3D) ∧
      ∃ b x, IsAssociated maxD cd d p = Except.ok (b, x)) := by
  by_cases h2d : ∃ c ∈ d.clusterList, c.hitType ≠ HitType.TPC_3D
  · right
    refine ⟨h2d, ?_⟩
    by_cases hnone : ∃ dc ∈ d.clusterList, dc.hitType ≠ HitType.TPC_3D ∧
        matchedParentClusters maxD cd dc p.clusterList = []
    · refine ⟨false, FLT_MAX, ?_⟩
      unfold IsAssociated
      rw [if_neg hne, matchDaughterClusters_none maxD cd p.clusterList d.clusterList hnone]
    · have hall : ∀ dc ∈ d.clusterList, dc.hitType ≠ HitType.TPC_3D →
          matchedParentClusters maxD cd dc p.clusterList ≠ [] :=
        fun dc hdc h2 hm => hnone ⟨dc, hdc, h2, hm⟩
      obtain ⟨st1, h1, hviews, -⟩ := matchDaughterClusters_some maxD cd p.clusterList
        d.clusterList hall ⟨0, 0, false⟩
      obtain ⟨c, hc, hc2⟩ := h2d
      have hpos : 0 < ((d.clusterList.filter
          (fun c => decide (c.hitType ≠ HitType.TPC_3D))).flatMap
          (fun dc => (matchedParentClusters maxD cd dc p.clusterList).map
            (fun pc => (pc, dc)))).length := by
        cases hm : matchedParentClusters maxD cd c p.clusterList with
        | nil => exact absurd hm (hall c hc hc2)
        | cons pc t =>
          apply List.length_pos_of_mem (a := (pc, c))
          rw [List.mem_flatMap]
          refine ⟨c, ?_, ?_⟩
          · rw [List.mem_filter]
            exact ⟨hc, by simpa using hc2⟩
          · rw [hm]
            simp
      have hge : (1 : ℚ) ≤ st1.sumViews := by
        rw [hviews]
        simp only [zero_add]
        exact_mod_cast hpos
      have heps : ¬ st1.sumViews < FLT_EPSILON := by
        have : FLT_EPSILON < 1 := by unfold FLT_EPSILON; norm_num
        exact not_lt.mpr (le_trans (le_of_lt this) hge)
      unfold IsAssociated
      rw [if_neg hne, h1]
      simp only [if_neg heps]
      split_ifs
      · exact ⟨false, FLT_MAX, rfl⟩
      · exact ⟨true, _, rfl⟩
  · left
    have hall3 : ∀ c ∈ d.clusterList, c.hitType = HitType.TPC_3D := by
      intro c hc
      by_contra h
      exact h2d ⟨c, hc, h⟩
    have hwalk : ∀ (l : List Cluster) (st : ViewSums),
        (∀ c ∈ l, c.hitType = HitType.TPC_3D) →
        matchDaughterClusters maxD cd p.clusterList l st = some st := by
      intro l
      induction l with
      | nil => intro st _; rfl
      | cons c rest ih =>
        intro st h
        unfold matchDaughterClusters
        rw [if_pos (h c (List.mem_cons_self _ _))]
        exact ih st (fun x hx => h x (List.mem_cons_of_mem _ hx))
    have hm := hwalk d.clusterList ⟨0, 0, false⟩ hall3
    refine ⟨hall3, hm, ?_⟩
    unfold IsAssociated
    rw [if_neg hne, hm]
    have : (0 : ℚ) < FLT_EPSILON := by unfold FLT_EPSILON; norm_num
    simp only [if_pos this]

/-- C23: for distinct daughter and parent, `IsAssociated` raises the fatal failure exactly
when the daughter owns no 2-D cluster (its cluster list is empty or holds only 3-D
clusters); the cluster loops then end without a rejection and with zero matched views. It
raises no other error, and when the daughter owns at least one 2-D cluster it returns true
or false. -/
theorem C23_fatal_branch_iff_no_two_d_cluster (maxD : ℚ) (cd : Cluster → Cluster → ℚ)
    (d p : ParticleFlowObject) (hne : d ≠ p) :
    (IsAssociated maxD cd d p = Except.error StatusCode.STATUS_CODE_FAILURE ↔
      ∀ c ∈ d.clusterList, c.hitType = HitType.TPC_3D) ∧
    (∀ e, IsAssociated maxD cd d p = Except.error e →
      e = StatusCode.STATUS_CODE_FAILURE ∧
      ∃ st, matchDaughterClusters maxD cd p.clusterList d.clusterList ⟨0, 0, false⟩ =
        some st ∧ st.sumViews = 0) ∧
    ((∃ c ∈ d.clusterList, c.hitType ≠ HitType.TPC_3D) →
      ∃ b x, IsAssociated maxD cd d p = Except.ok (b, x)) := by
  refine ⟨?_, ?_, ?_⟩
  · rcases IsAssociated_cases maxD cd d p hne with ⟨hall, -, herr⟩ | ⟨⟨c, hc, hc2⟩, b, x, hok⟩
    · exact ⟨fun _ => hall, fun _ => herr⟩
    · rw [hok]
      constructor
      · intro h
        simp at h
      · intro hall
        exact absurd (hall c hc) hc2
  · intro e he
    rcases IsAssociated_cases maxD cd d p hne with ⟨-, hm, herr⟩ | ⟨-, b, x, hok⟩
    · rw [herr] at he
      simp only [Except.error.injEq] at he
      exact ⟨he.symm, _, hm, rfl⟩
    · rw [hok] at he
      simp at he
  · rintro ⟨c, hc, hc2⟩
    rcases IsAssociated_cases maxD cd d p hne with ⟨hall, -, -⟩ | ⟨-, hok⟩
    · exact absurd (hall c hc) hc2
    · exact hok

/-- Witness of C23: the object A, which owns no cluster, raises the fatal failure against
the parent P1; the daughter D, which owns a 2-D cluster, gets an answer. -/
theorem C23_fatal_branch_iff_no_two_d_cluster_witness :
    IsAssociated 9 distanceOne pfoA pfoP1 = Except.error StatusCode.STATUS_CODE_FAILURE ∧
    ∃ b x, IsAssociated 9 distanceOne pfoD pfoP1 = Except.ok (b, x) :=
  ⟨(C23_fatal_branch_iff_no_two_d_cluster 9 distanceOne pfoA pfoP1 (by decide)).1.mpr
      (by decide),
    (C23_fatal_branch_iff_no_two_d_cluster 9 distanceOne pfoD pfoP1 (by decide)).2.2
      ⟨clusterD, by decide, by decide⟩⟩

/-! ## C24: the distance exit of IsAssociated -/

theorem matchedParentClusters_append_far (maxD : ℚ) (cd : Cluster → Cluster → ℚ)
    (dc far : Cluster) (post : List Cluster) (hview : dc.hitType = far.hitType)
    (hfar : deltaSquared cd far dc > floatMul 5 maxD) (pre : List Cluster) :
    matchedParentClusters maxD cd dc (pre ++ far :: post) =
      matchedParentClusters maxD cd dc pre := by
  induction pre with
  | nil =>
    unfold matchedParentClusters
    rw [List.nil_append, List.filter_cons_of_pos (by simpa using hview)]
    rw [List.takeWhile_cons_of_neg (by simp only [decide_eq_true_eq]; exact fun h => h.2 hfar)]
    rfl
  | cons c rest ih =>
    unfold matchedParentClusters at ih ⊢
    rw [List.cons_append]
    by_cases hc : dc.hitType = c.hitType
    · rw [List.filter_cons_of_pos (by simpa using hc),
        List.filter_cons_of_pos (by simpa using hc)]
      by_cases hpass : ¬ dc.lengthSquared > (1 / 2) * c.lengthSquared ∧
          ¬ deltaSquared cd c dc > floatMul 5 maxD
      · rw [List.takeWhile_cons_of_pos (by simp only [decide_eq_true_eq]; exact hpass),
          List.takeWhile_cons_of_pos (by simp only [decide_eq_true_eq]; exact hpass), ih]
      · rw [List.takeWhile_cons_of_neg (by simp only [decide_eq_true_eq]; exact hpass),
          List.takeWhile_cons_of_neg (by simp only [decide_eq_true_eq]; exact hpass)]
    · rw [List.filter_cons_of_neg (by simpa using hc),
        List.filter_cons_of_neg (by simpa using hc), ih]

theorem matchedParentClusters_nil_of_other_views (maxD : ℚ) (cd : Cluster → Cluster → ℚ)
    (dc : Cluster) (pre : List Cluster) (h : ∀ c ∈ pre, c.hitType ≠ dc.hitType) :
    matchedParentClusters maxD cd dc pre = [] := by
  unfold matchedParentClusters
  have : pre.filter (fun pParentCluster => decide (dc.hitType = pParentCluster.hitType)) =
      [] := by
    rw [List.filter_eq_nil_iff]
    intro c hc
    simpa using fun heq : dc.hitType = c.hitType => h c hc heq.symm
  rw [this]
  rfl

/-- C24 (amended): let a 2-D cluster `dc` of the daughter meet, in the cluster list
`pre ++ far :: post` of a distinct parent, the same-view cluster `far` whose squared closest
distance, computed in single precision, is above the single-precision product of five and
the threshold. The scan for `dc` ends at `far`: the parent clusters matched with `dc` are
those matched in `pre` alone. If no cluster of `pre` was matched, in particular if `far` is
the first same-view cluster of the parent, `IsAssociated` returns false with the sentinel
displacement. -/
theorem C24_distance_exit_ends_scan_at_far_cluster (maxD : ℚ) (cd : Cluster → Cluster → ℚ)
    (d p : ParticleFlowObject) (dc far : Cluster) (pre post : List Cluster) (hne : d ≠ p)
    (hdc : dc ∈ d.clusterList) (h2d : dc.hitType ≠ HitType.TPC_3D)
    (hp : p.clusterList = pre ++ far :: post) (hview : dc.hitType = far.hitType)
    (hfar : deltaSquared cd far dc > floatMul 5 maxD) :
    matchedParentClusters maxD cd dc p.clusterList = matchedParentClusters maxD cd dc pre ∧
    (matchedParentClusters maxD cd dc pre = [] →
      IsAssociated maxD cd d p = Except.ok (false, FLT_MAX)) ∧
    ((∀ c ∈ pre, c.hitType ≠ dc.hitType) →
      IsAssociated maxD cd d p = Except.ok (false, FLT_MAX)) := by
  have hm : matchedParentClusters maxD cd dc p.clusterList =
      matchedParentClusters maxD cd dc pre := by
    rw [hp]
    exact matchedParentClusters_append_far maxD cd dc far post hview hfar pre
  have hfalse : matchedParentClusters maxD cd dc pre = [] →
      IsAssociated maxD cd d p = Except.ok (false, FLT_MAX) := by
    intro hnil
    unfold IsAssociated
    rw [if_neg hne, matchDaughterClusters_none maxD cd p.clusterList d.clusterList
      ⟨dc, hdc, h2d, by rw [hm, hnil]⟩]
  exact ⟨hm, hfalse, fun hother =>
    hfalse (matchedParentClusters_nil_of_other_views maxD cd dc pre hother)⟩

/-- Witness of C24 (amended): the parent lists its far U cluster first; the daughter D is
rejected. When the first parent cluster is at the distance `9378749 / 4194304`, whose exact
square is above `5` and whose single-precision square is `5`, with the threshold `1`, the
scan does not end there: the four further clusters at distance `0` are matched as well and
the pair is accepted with displacement `1`. -/
theorem C24_distance_exit_ends_scan_at_far_cluster_witness :
    IsAssociated 9 distanceFarTen pfoD pfoFarNear = Except.ok (false, FLT_MAX) ∧
    (5 : ℚ) < (9378749 / 4194304) * (9378749 / 4194304) ∧
    deltaSquared distanceRootFive clusterFar clusterD = 5 ∧
    floatMul 5 1 = 5 ∧
    (IsAssociated 1 distanceRootFive pfoD pfoFarFour).toOption = some (true, 1) :=
  ⟨(C24_distance_exit_ends_scan_at_far_cluster 9 distanceFarTen pfoD pfoFarNear clusterD
      clusterFar [] [clusterNear] (by decide) (by decide) (by decide) (by rfl) (by rfl)
      (by decide!)).2.2 (by simp),
    by decide!, by decide!, by decide!, by decide!⟩

/-- Counterexample to C24 as stated: the parent owns the U cluster `clusterFar` at squared
closest distance `100 > 5 * 9` from the U cluster of the daughter D, listed after its close U
cluster. `IsAssociated` returns true with displacement `1`; with the two parent clusters
listed in the other order it returns false. -/
theorem C24_counterexample_far_cluster_after_match :
    clusterD ∈ pfoD.clusterList ∧ clusterFar ∈ pfoNearFar.clusterList ∧
    clusterD.hitType = clusterFar.hitType ∧ clusterD.hitType ≠ HitType.TPC_3D ∧
    distanceFarTen clusterFar clusterD * distanceFarTen clusterFar clusterD > 5 * 9 ∧
    deltaSquared distanceFarTen clusterFar clusterD > floatMul 5 9 ∧
    (IsAssociated 9 distanceFarTen pfoD pfoNearFar).toOption = some (true, 1) ∧
    (IsAssociated 9 distanceFarTen pfoD pfoFarNear).toOption = some (false, FLT_MAX) :=
  ⟨by decide, by decide, by decide, by decide, by decide!, by decide!, by decide!, by decide!⟩

/-! ## Termination of the parent walk on a map without cycle -/

theorem walkToParent_none_keys (m : PfoAssociationMap) (fuel : Nat) :
    ∀ (p : ParticleFlowObject) (cur : Option ParticleFlowObject),
      walkToParent m fuel p cur = none →
      ∀ k, k < fuel → ∃ q par, followChain m k p = some q ∧ mapFind m q = some par := by
  induction fuel with
  | zero => intro p cur _ k hk; omega
  | succ fuel ih =>
    intro p cur h k hk
    unfold walkToParent at h
    cases hp : mapFind m p with
    | none =>
      rw [hp] at h
      simp at h
    | some parent =>
      rw [hp] at h
      simp only at h
      cases k with
      | zero => exact ⟨p, parent, rfl, hp⟩
      | succ k =>
        obtain ⟨q, par, hq, hpar⟩ := ih parent (some parent) h k (by omega)
        exact ⟨q, par, by simp only [followChain, hp, hq], hpar⟩

theorem followChain_cycle_of_repeat (m : PfoAssociationMap) (p q : ParticleFlowObject)
    (i j : Nat) (hij : i < j) (hi : followChain m i p = some q)
    (hj : followChain m j p = some q) : followChain m (j - i) q = some q := by
  have h := followChain_add m i (j - i) p
  rw [Nat.add_sub_cancel' (le_of_lt hij), hi, hj] at h
  exact h.symm

theorem walkToParent_some_of_acyclic (m : PfoAssociationMap)
    (hacyc : ∀ p k, 0 < k → followChain m k p ≠ some p) (p : ParticleFlowObject)
    (cur : Option ParticleFlowObject) :
    ∃ r, walkToParent m (m.length + 1) p cur = some r := by
  cases hw : walkToParent m (m.length + 1) p cur with
  | some r => exact ⟨r, rfl⟩
  | none =>
    exfalso
    have hkeys := walkToParent_none_keys m (m.length + 1) p cur hw
    have hcard : ((mapKeys m).toFinset).card < (Finset.range (m.length + 1)).card := by
      rw [Finset.card_range]
      have h1 := List.toFinset_card_le (mapKeys m)
      have h2 : (mapKeys m).length = m.length := by simp [mapKeys]
      omega
    have hmaps : ∀ k ∈ Finset.range (m.length + 1),
        (followChain m k p).getD p ∈ (mapKeys m).toFinset := by
      intro k hk
      obtain ⟨q, par, hq, hpar⟩ := hkeys k (Finset.mem_range.mp hk)
      rw [hq, List.mem_toFinset]
      simp only [Option.getD_some, mapKeys, List.mem_map]
      exact ⟨(q, par), mapFind_mem hpar, rfl⟩
    obtain ⟨i, hi, j, hj, hne, heq⟩ :=
      Finset.exists_ne_map_eq_of_card_lt_of_maps_to hcard hmaps
    obtain ⟨qi, -, hqi, -⟩ := hkeys i (Finset.mem_range.mp hi)
    obtain ⟨qj, -, hqj, -⟩ := hkeys j (Finset.mem_range.mp hj)
    rw [hqi, hqj] at heq
    simp only [Option.getD_some] at heq
    subst heq
    rcases Nat.lt_or_gt_of_ne hne with hlt | hgt
    · exact hacyc qi (j - i) (by omega) (followChain_cycle_of_repeat m p qi i j hlt hqi hqj)
    · exact hacyc qi (i - j) (by omega) (followChain_cycle_of_repeat m p qi j i hgt hqj hqi)

theorem walkToParent_fuel_mono (m : PfoAssociationMap) (fuel : Nat) :
    ∀ (p : ParticleFlowObject) (cur r : Option ParticleFlowObject) (extra : Nat),
      walkToParent m fuel p cur = some r → walkToParent m (fuel + extra) p cur = some r := by
  induction fuel with
  | zero => intro p cur r extra h; simp [walkToParent] at h
  | succ fuel ih =>
    intro p cur r extra h
    rw [Nat.succ_add]
    unfold walkToParent at h ⊢
    cases hp : mapFind m p with
    | none =>
      rw [hp] at h
      exact h
    | some parent =>
      rw [hp] at h
      exact ih parent (some parent) r extra h

theorem GetParent_of_acyclic (m : PfoAssociationMap)
    (hacyc : ∀ p k, 0 < k → followChain m k p ≠ some p) (fuel : Nat)
    (hfuel : m.length + 1 ≤ fuel) (p : ParticleFlowObject) :
    ∃ r, GetParent fuel m p = some r := by
  obtain ⟨r, hr⟩ := walkToParent_some_of_acyclic m hacyc p none
  obtain ⟨extra, rfl⟩ := Nat.exists_eq_add_of_le hfuel
  exact ⟨r, walkToParent_fuel_mono m (m.length + 1) p none r extra hr⟩

theorem GetParent_key_of_acyclic (m : PfoAssociationMap)
    (hacyc : ∀ p k, 0 < k → followChain m k p ≠ some p) (fuel : Nat)
    (hfuel : m.length + 1 ≤ fuel) (d par : ParticleFlowObject)
    (hd : mapFind m d = some par) :
    ∃ root n, GetParent fuel m d = some (some root) ∧ mapFind m root = none ∧ 0 < n ∧
      followChain m n d = some root := by
  obtain ⟨r, hr⟩ := GetParent_of_acyclic m hacyc fuel hfuel d
  obtain ⟨n, root, hn, hchain, hroot, hrr⟩ := GetParent_of_key m fuel d par r hd hr
  subst hrr
  exact ⟨root, n, hr, hroot, hn, hchain⟩

theorem followChain_increases (m : PfoAssociationMap) (mu : ParticleFlowObject → ℚ)
    (hmu : ∀ d par, mapFind m d = some par → mu d < mu par) (k : Nat) :
    ∀ p q, 0 < k → followChain m k p = some q → mu p < mu q := by
  induction k with
  | zero => intro p q hk; omega
  | succ k ih =>
    intro p q _ h
    unfold followChain at h
    cases hp : mapFind m p with
    | none =>
      rw [hp] at h
      simp at h
    | some parent =>
      rw [hp] at h
      simp only at h
      have h1 := hmu p parent hp
      cases k with
      | zero =>
        simp only [followChain, Option.some.injEq] at h
        rw [← h]
        exact h1
      | succ k => exact lt_trans h1 (ih parent q (Nat.succ_pos k) h)

/-! ## C25: the built association map has no cycle -/

theorem ok_of_toOption_eq_some {ε α : Type} (x : Except ε α) (v : α)
    (h : x.toOption = some v) : x = Except.ok v := by
  cases x with
  | error e => simp [Except.toOption] at h
  | ok r =>
    simp only [Except.toOption, Option.some.injEq] at h
    rw [h]

theorem findBestParent_sound (maxD : ℚ) (cd : Cluster → Cluster → ℚ) (d : ParticleFlowObject)
    (l : List ParticleFlowObject) :
    ∀ st st1, findBestParent maxD cd d l st = Except.ok st1 →
      st1.1 = st.1 ∨
        ∃ p, st1.1 = some p ∧ p ∈ l ∧ ∃ disp, IsAssociated maxD cd d p =
          Except.ok (true, disp) := by
  induction l with
  | nil =>
    intro st st1 h
    simp only [findBestParent, Except.ok.injEq] at h
    exact Or.inl (by rw [h])
  | cons p rest ih =>
    intro st st1 h
    have lift : ∀ st0, findBestParent maxD cd d rest st0 = Except.ok st1 →
        st1.1 = st0.1 ∨
          ∃ q, st1.1 = some q ∧ q ∈ p :: rest ∧ ∃ disp, IsAssociated maxD cd d q =
            Except.ok (true, disp) := by
      intro st0 h0
      rcases ih st0 st1 h0 with h1 | ⟨q, hq, hmem, hassoc⟩
      · exact Or.inl h1
      · exact Or.inr ⟨q, hq, List.mem_cons_of_mem _ hmem, hassoc⟩
    unfold findBestParent at h
    split_ifs at h with hdp
    · exact lift st h
    · cases hassoc : IsAssociated maxD cd d p with
      | error e =>
        rw [hassoc] at h
        simp at h
      | ok r =>
        obtain ⟨b, disp⟩ := r
        rw [hassoc] at h
        simp only at h
        split_ifs at h with hb hlt
        · exact lift st h
        · rcases lift _ h with h1 | h1
          · right
            have hb1 : b = true := by simpa using hb
            subst hb1
            exact ⟨p, h1, List.mem_cons_self _ _, disp, hassoc⟩
          · exact Or.inr h1
        · exact lift st h

theorem buildAssociations_sound (maxD : ℚ) (cd : Cluster → Cluster → ℚ)
    (l : List ParticleFlowObject) (ds : List ParticleFlowObject) :
    ∀ m m1, buildAssociations maxD cd l ds m = Except.ok m1 →
      ∀ d par, mapFind m1 d = some par →
        mapFind m d = some par ∨
          (d ∈ ds ∧ par ∈ l ∧ ∃ disp, IsAssociated maxD cd d par = Except.ok (true, disp)) := by
  induction ds with
  | nil =>
    intro m m1 h d par hd
    simp only [buildAssociations, Except.ok.injEq] at h
    subst h
    exact Or.inl hd
  | cons d0 rest ih =>
    intro m m1 h d par hd
    unfold buildAssociations at h
    cases hbest : findBestParent maxD cd d0 l (none, FLT_MAX) with
    | error e =>
      rw [hbest] at h
      simp at h
    | ok st =>
      obtain ⟨best, bd⟩ := st
      rw [hbest] at h
      cases best with
      | none =>
        simp only at h
        rcases ih m m1 h d par hd with h1 | ⟨hmem, hrest⟩
        · exact Or.inl h1
        · exact Or.inr ⟨List.mem_cons_of_mem _ hmem, hrest⟩
      | some b =>
        simp only at h
        rcases ih _ m1 h d par hd with h1 | ⟨hmem, hrest⟩
        · rw [mapFind_mapInsert] at h1
          split_ifs at h1 with hd0
          · subst hd0
            cases hm : mapFind m d0 with
            | some old =>
              rw [hm] at h1
              simp only [Option.getD_some, Option.some.injEq] at h1
              subst h1
              exact Or.inl rfl
            | none =>
              rw [hm] at h1
              simp only [Option.getD_none, Option.some.injEq] at h1
              subst h1
              right
              rcases findBestParent_sound maxD cd d0 l (none, FLT_MAX) (some b, bd) hbest
                with h2 | ⟨q, hq, hql, hassoc⟩
              · simp at h2
              · simp only [Option.some.injEq] at hq
                subst hq
                exact ⟨List.mem_cons_self _ _, hql, hassoc⟩
          · exact Or.inl h1
        · exact Or.inr ⟨List.mem_cons_of_mem _ hmem, hrest⟩

theorem IsAssociated_true_lengths (maxD : ℚ) (cd : Cluster → Cluster → ℚ)
    (d p : ParticleFlowObject) (disp : ℚ)
    (h : IsAssociated maxD cd d p = Except.ok (true, disp)) :
    (∃ dc ∈ d.clusterList, dc.hitType ≠ HitType.TPC_3D) ∧
    ∀ dc ∈ d.clusterList, dc.hitType ≠ HitType.TPC_3D →
      ∃ pc ∈ p.clusterList, pc.hitType = dc.hitType ∧
        dc.lengthSquared ≤ (1 / 2) * pc.lengthSquared := by
  have hne : d ≠ p := by
    intro heq
    unfold IsAssociated at h
    rw [if_pos heq] at h
    simp at h
  constructor
  · rcases IsAssociated_cases maxD cd d p hne with ⟨-, -, herr⟩ | ⟨h2d, -⟩
    · rw [herr] at h
      simp at h
    · exact h2d
  · intro dc hdc h2d
    cases hm : matchedParentClusters maxD cd dc p.clusterList with
    | nil =>
      exfalso
      unfold IsAssociated at h
      rw [if_neg hne, matchDaughterClusters_none maxD cd p.clusterList d.clusterList
        ⟨dc, hdc, h2d, hm⟩] at h
      simp at h
    | cons pc t =>
      have hmem : pc ∈ matchedParentClusters maxD cd dc p.clusterList := by
        rw [hm]
        exact List.mem_cons_self _ _
      unfold matchedParentClusters at hmem
      have hpred := List.mem_takeWhile_imp hmem
      have hfil := (List.takeWhile_sublist _).subset hmem
      rw [List.mem_filter] at hfil
      simp only [decide_eq_true_eq] at hpred hfil
      exact ⟨pc, hfil.1, hfil.2.symm, not_lt.mp hpred.1⟩

theorem le_foldr_max (l : List ℚ) (x : ℚ) (hx : x ∈ l) : x ≤ l.foldr max 0 := by
  induction l with
  | nil => simp at hx
  | cons a t ih =>
    rw [List.foldr_cons]
    rcases List.mem_cons.mp hx with rfl | hx
    · exact le_max_left _ _
    · exact le_trans (ih hx) (le_max_right _ _)

theorem foldr_max_le (l : List ℚ) (b : ℚ) (hb : 0 ≤ b) (h : ∀ x ∈ l, x ≤ b) :
    l.foldr max 0 ≤ b := by
  induction l with
  | nil => exact hb
  | cons a t ih =>
    rw [List.foldr_cons]
    exact max_le (h a (List.mem_cons_self _ _)) (ih (fun x hx => h x (List.mem_cons_of_mem _ hx)))

theorem foldr_max_nonneg (l : List ℚ) : 0 ≤ l.foldr max 0 := by
  induction l with
  | nil => exact le_refl _
  | cons a t ih =>
    rw [List.foldr_cons]
    exact le_trans ih (le_max_right _ _)

theorem le_maxTwoDLengthSquared (p : ParticleFlowObject) (c : Cluster) (hc : c ∈ p.clusterList)
    (h2d : c.hitType ≠ HitType.TPC_3D) : c.lengthSquared ≤ maxTwoDLengthSquared p := by
  unfold maxTwoDLengthSquared
  apply le_foldr_max
  rw [List.mem_map]
  exact ⟨c, List.mem_filter.mpr ⟨hc, by simpa using h2d⟩, rfl⟩

theorem IsAssociated_true_max (maxD : ℚ) (cd : Cluster → Cluster → ℚ)
    (d p : ParticleFlowObject) (disp : ℚ)
    (h : IsAssociated maxD cd d p = Except.ok (true, disp)) :
    2 * maxTwoDLengthSquared d ≤ maxTwoDLengthSquared p := by
  obtain ⟨-, hall⟩ := IsAssociated_true_lengths maxD cd d p disp h
  have hnonneg : 0 ≤ maxTwoDLengthSquared p := foldr_max_nonneg _
  have hle : maxTwoDLengthSquared d ≤ (1 / 2) * maxTwoDLengthSquared p := by
    unfold maxTwoDLengthSquared
    apply foldr_max_le
    · exact mul_nonneg (by norm_num) hnonneg
    · intro x hx
      rw [List.mem_map] at hx
      obtain ⟨dc, hdc, rfl⟩ := hx
      rw [List.mem_filter] at hdc
      obtain ⟨pc, hpc, hty, hlen⟩ := hall dc hdc.1 (by simpa using hdc.2)
      have h2 : pc.hitType ≠ HitType.TPC_3D := by
        rw [hty]
        simpa using hdc.2
      have := le_maxTwoDLengthSquared p pc hpc h2
      calc dc.lengthSquared ≤ (1 / 2) * pc.lengthSquared := hlen
        _ ≤ (1 / 2) * maxTwoDLengthSquared p := by
          apply mul_le_mul_of_nonneg_left this
          norm_num
  linarith

/-- C25: let every 2-D cluster of the objects of a list have a strictly positive squared
length and let `BuildAssociationMap`, started with an empty map, return the map `m`. For
every entry daughter -> parent of `m`, the largest 2-D cluster squared length of the parent
is at least twice that of the daughter, which is positive, so it is strictly larger. Hence
`m` has no cycle, and `GetParent` returns for every object once it is allowed more loop
iterations than `m` has entries. With clusters of squared length zero two objects can be
each other's recorded parent, and `GetParent` then never returns. -/
theorem C25_built_map_has_no_cycle (maxD : ℚ) (cd : Cluster → Cluster → ℚ)
    (l : List ParticleFlowObject) (m : PfoAssociationMap)
    (hpos : ∀ pfo ∈ l, ∀ c ∈ pfo.clusterList, c.hitType ≠ HitType.TPC_3D →
      0 < c.lengthSquared)
    (hbuild : BuildAssociationMap maxD cd l [] = Except.ok m) :
    (∀ d par, mapFind m d = some par →
      0 < maxTwoDLengthSquared d ∧
      2 * maxTwoDLengthSquared d ≤ maxTwoDLengthSquared par ∧
      maxTwoDLengthSquared d < maxTwoDLengthSquared par) ∧
    (∀ p k, 0 < k → followChain m k p ≠ some p) ∧
    (∀ p fuel, m.length + 1 ≤ fuel → ∃ r, GetParent fuel m p = some r) ∧
    (∃ m0, BuildAssociationMap 9 distanceZero [pfoZeroA, pfoZeroB] [] = Except.ok m0 ∧
      mapFind m0 pfoZeroA = some pfoZeroB ∧ mapFind m0 pfoZeroB = some pfoZeroA ∧
      ∀ fuel, GetParent fuel m0 pfoZeroA = none) := by
  have hentry : ∀ d par, mapFind m d = some par →
      0 < maxTwoDLengthSquared d ∧
      2 * maxTwoDLengthSquared d ≤ maxTwoDLengthSquared par ∧
      maxTwoDLengthSquared d < maxTwoDLengthSquared par := by
    intro d par hd
    unfold BuildAssociationMap at hbuild
    rcases buildAssociations_sound maxD cd l l [] m hbuild d par hd with h0 | ⟨hdl, -, disp, hassoc⟩
    · simp [mapFind] at h0
    · obtain ⟨⟨dc, hdc, h2d⟩, -⟩ := IsAssociated_true_lengths maxD cd d par disp hassoc
      have hdpos : 0 < maxTwoDLengthSquared d :=
        lt_of_lt_of_le (hpos d hdl dc hdc h2d) (le_maxTwoDLengthSquared d dc hdc h2d)
      have htwice := IsAssociated_true_max maxD cd d par disp hassoc
      exact ⟨hdpos, htwice, by linarith⟩
  have hacyc : ∀ p k, 0 < k → followChain m k p ≠ some p := by
    intro p k hk hcycle
    exact lt_irrefl _ (followChain_increases m maxTwoDLengthSquared
      (fun d par hd => (hentry d par hd).2.2) k p p hk hcycle)
  refine ⟨hentry, hacyc, fun p fuel hfuel => GetParent_of_acyclic m hacyc fuel hfuel p, ?_⟩
  refine ⟨[(pfoZeroA, pfoZeroB), (pfoZeroB, pfoZeroA)],
    ok_of_toOption_eq_some _ _ (by decide!), by decide, by decide, ?_⟩
  intro fuel
  exact walkToParent_none_of_chain _ fuel pfoZeroA none
    (followChain_cycle_some _ pfoZeroA 2 (by decide) (by rfl))

/-- Witness of C25: the daughter D (squared length `1`) and the parents P1 and P2 (squared
length `4`): the map built records D -> P1, and the walk from D returns P1. -/
theorem C25_built_map_has_no_cycle_witness :
    BuildAssociationMap 9 distanceOne [pfoD, pfoP1, pfoP2] [] = Except.ok [(pfoD, pfoP1)] ∧
    (∀ d par, mapFind [(pfoD, pfoP1)] d = some par →
      0 < maxTwoDLengthSquared d ∧
      2 * maxTwoDLengthSquared d ≤ maxTwoDLengthSquared par ∧
      maxTwoDLengthSquared d < maxTwoDLengthSquared par) ∧
    GetParent 2 [(pfoD, pfoP1)] pfoD = some (some pfoP1) :=
  ⟨ok_of_toOption_eq_some _ _ (by decide!),
    (C25_built_map_has_no_cycle 9 distanceOne [pfoD, pfoP1, pfoP2] [(pfoD, pfoP1)]
      (by decide!) (ok_of_toOption_eq_some _ _ (by decide!))).1,
    by decide⟩

/-! ## C26: every key of a map without cycle is linked -/

theorem mem_setInsert {α : Type} [DecidableEq α] (s : List α) (x y : α) :
    y ∈ setInsert s x ↔ y ∈ s ∨ y = x := by
  unfold setInsert
  split_ifs with h
  · constructor
    · exact Or.inl
    · rintro (hy | rfl)
      · exact hy
      · exact h
  · simp

theorem nodup_setInsert {α : Type} [DecidableEq α] (s : List α) (x : α) (hs : s.Nodup) :
    (setInsert s x).Nodup := by
  unfold setInsert
  split_ifs with h
  · exact hs
  · exact List.Nodup.append hs (List.nodup_singleton x)
      (by
        intro y hy hy1
        simp only [List.mem_singleton] at hy1
        rw [hy1] at hy
        exact h hy)

theorem linkEntries_total (SetRel : ParticleFlowObject → ParticleFlowObject → StatusCode)
    (fuel : Nat) (m : PfoAssociationMap)
    (entries : List (ParticleFlowObject × ParticleFlowObject)) :
    (∀ e ∈ entries, ∃ root, GetParent fuel m e.1 = some (some root)) →
    ∀ st, ∃ r, linkEntries SetRel fuel m entries st = some r ∧
      (∀ code, r = Except.error code → code ≠ StatusCode.STATUS_CODE_SUCCESS ∧
        ∃ entry ∈ entries, ∃ root, GetParent fuel m entry.1 = some (some root) ∧
          SetRel root entry.1 = code) ∧
      (∀ st1, r = Except.ok st1 →
        st1.links.map Prod.snd = st.links.map Prod.snd ++ entries.map Prod.fst ∧
        (∀ x, x ∈ st1.outputPfoList ↔ x ∈ st.outputPfoList ∨ x ∈ entries.map Prod.fst) ∧
        (st.outputPfoList.Nodup → st1.outputPfoList.Nodup)) ∧
      ((∀ a b, SetRel a b = StatusCode.STATUS_CODE_SUCCESS) → ∃ st1, r = Except.ok st1) := by
  induction entries with
  | nil =>
    intro _ st
    refine ⟨Except.ok st, rfl, ?_, ?_, ?_⟩
    · intro code h
      simp at h
    · intro st1 h
      simp only [Except.ok.injEq] at h
      subst h
      simp
    · intro _
      exact ⟨st, rfl⟩
  | cons entry rest ih =>
    intro hterm st
    obtain ⟨root, hroot⟩ := hterm entry (List.mem_cons_self _ _)
    have hrest := ih (fun e he => hterm e (List.mem_cons_of_mem _ he))
    unfold linkEntries
    rw [hroot]
    simp only
    by_cases hset : SetRel root entry.1 ≠ StatusCode.STATUS_CODE_SUCCESS
    · rw [if_pos hset]
      refine ⟨_, rfl, ?_, ?_, ?_⟩
      · intro code h
        simp only [Except.error.injEq] at h
        subst h
        exact ⟨hset, entry, List.mem_cons_self _ _, root, hroot, rfl⟩
      · intro st1 h
        simp at h
      · intro hall
        exact absurd (hall root entry.1) hset
    · rw [if_neg hset]
      obtain ⟨r, hr, herr, hok, hsucc⟩ :=
        hrest ⟨st.links ++ [(root, entry.1)], setInsert st.outputPfoList entry.1⟩
      refine ⟨r, hr, ?_, ?_, hsucc⟩
      · intro code h
        obtain ⟨hcode, e, he, q, hq, hqe⟩ := herr code h
        exact ⟨hcode, e, List.mem_cons_of_mem _ he, q, hq, hqe⟩
      · intro st1 h
        obtain ⟨h1, h2, h3⟩ := hok st1 h
        refine ⟨?_, ?_, ?_⟩
        · rw [h1]
          simp
        · intro x
          rw [h2 x]
          simp only [mem_setInsert, List.map_cons, List.mem_cons]
          tauto
        · intro hnodup
          exact h3 (nodup_setInsert _ _ hnodup)

theorem chainMap_increases (d par : ParticleFlowObject)
    (h : mapFind chainMap d = some par) : (d.id : ℚ) < (par.id : ℚ) := by
  unfold chainMap mapFind at h
  split_ifs at h with h1
  · simp only [Option.some.injEq] at h
    subst h1 h
    decide!
  · unfold mapFind at h
    split_ifs at h with h2
    · simp only [Option.some.injEq] at h
      subst h2 h
      decide!
    · simp [mapFind] at h

/-- C26: let the association map `m` have no cycle and let `GetParent` be allowed more loop
iterations than `m` has entries. For every key, `GetParent` returns a non-null object that
has no entry of its own and is reached from the key by following the map. Hence
`BuildParentDaughterLinks`, started with nothing committed, always returns; an error can
only be the status of a failed framework call, never the missing-parent failure; on normal
return one link was committed per entry, in the order of the entries, each with the parent
that `GetParent` returns, and the output list holds exactly the keys of the map, each once.
With a framework call that always succeeds the return is normal. -/
theorem C26_acyclic_map_links_every_key
    (SetRel : ParticleFlowObject → ParticleFlowObject → StatusCode) (m : PfoAssociationMap)
    (hacyc : ∀ p k, 0 < k → followChain m k p ≠ some p) (fuel : Nat)
    (hfuel : m.length + 1 ≤ fuel) :
    (∀ d par, mapFind m d = some par →
      ∃ root n, GetParent fuel m d = some (some root) ∧ mapFind m root = none ∧ 0 < n ∧
        followChain m n d = some root) ∧
    ∃ r, BuildParentDaughterLinks SetRel fuel m ⟨[], []⟩ = some r ∧
      (∀ code, r = Except.error code → code ≠ StatusCode.STATUS_CODE_SUCCESS ∧
        ∃ entry ∈ m, ∃ root, GetParent fuel m entry.1 = some (some root) ∧
          SetRel root entry.1 = code) ∧
      (∀ st, r = Except.ok st →
        st.links.map Prod.snd = mapKeys m ∧
        (∀ q d, (q, d) ∈ st.links → GetParent fuel m d = some (some q)) ∧
        ((mapKeys m).Nodup → ∀ d ∈ mapKeys m, (st.links.map Prod.snd).count d = 1) ∧
        st.outputPfoList.Nodup ∧
        ∀ x, x ∈ st.outputPfoList ↔ x ∈ mapKeys m) ∧
      ((∀ a b, SetRel a b = StatusCode.STATUS_CODE_SUCCESS) → ∃ st, r = Except.ok st) := by
  have hkey := GetParent_key_of_acyclic m hacyc fuel hfuel
  refine ⟨hkey, ?_⟩
  have hterm : ∀ e ∈ m, ∃ root, GetParent fuel m e.1 = some (some root) := by
    intro e he
    obtain ⟨v, hv⟩ := mapFind_fst_of_mem m e he
    obtain ⟨root, n, hroot, -⟩ := hkey e.1 v hv
    exact ⟨root, hroot⟩
  obtain ⟨r, hr, herr, hok, hsucc⟩ := linkEntries_total SetRel fuel m m hterm ⟨[], []⟩
  refine ⟨r, hr, herr, ?_, hsucc⟩
  intro st hst
  obtain ⟨h1, h2, h3⟩ := hok st hst
  have hkeys : st.links.map Prod.snd = mapKeys m := by
    rw [h1]
    simp [mapKeys]
  refine ⟨hkeys, ?_, ?_, h3 List.nodup_nil, ?_⟩
  · rw [hst] at hr
    exact (linkEntries_spec SetRel fuel m m ⟨[], []⟩ st hr (by simp)).1
  · intro hnodup d hd
    rw [hkeys]
    exact List.count_eq_one_of_mem hnodup hd
  · intro x
    rw [h2 x]
    simp [mapKeys]

/-- Witness of C26 on the chain A -> B, B -> C: both keys are linked to the root C and the
output list is `[A, B]`. -/
theorem C26_acyclic_map_links_every_key_witness :
    BuildParentDaughterLinks alwaysSuccess 3 chainMap ⟨[], []⟩ =
      some (Except.ok ⟨[(pfoC, pfoA), (pfoC, pfoB)], [pfoA, pfoB]⟩) ∧
    ∀ d par, mapFind chainMap d = some par →
      ∃ root n, GetParent 3 chainMap d = some (some root) ∧ mapFind chainMap root = none ∧
        0 < n ∧ followChain chainMap n d = some root :=
  ⟨by rfl,
    (C26_acyclic_map_links_every_key alwaysSuccess chainMap
      (fun p k hk hcycle => lt_irrefl _
        (followChain_increases chainMap (fun x => (x.id : ℚ)) chainMap_increases k p p hk
          hcycle))
      3 (by decide)).1⟩

/-! ## C27: the output of GetNeutrinoMatches is keyed by truth particle -/

theorem GetNeutrinoMatches_eq_foldl (helpers : PfoHelpers) (GetIso : Cluster → List CaloHit)
    (GetParentMC : MCParticle → MCParticle) (IsNuMC : MCParticle → Bool)
    (SortByMomentum : MCParticle → MCParticle → Bool) (pCaloHitList : List CaloHit)
    (h2mc : CaloHitToMCMap) (recoNeutrinos : List ParticleFlowObject) :
    ∀ out out1, GetNeutrinoMatches helpers GetIso GetParentMC IsNuMC SortByMomentum
        pCaloHitList h2mc recoNeutrinos out = Except.ok out1 →
      out1 = recoNeutrinos.foldl (recordNeutrinoMatch (biggestContributorOf helpers GetIso
        GetParentMC IsNuMC SortByMomentum pCaloHitList h2mc)) out := by
  induction recoNeutrinos with
  | nil =>
    intro out out1 h
    simp only [GetNeutrinoMatches, Except.ok.injEq] at h
    exact h.symm
  | cons p rest ih =>
    intro out out1 h
    unfold GetNeutrinoMatches at h
    split_ifs at h with hnu
    rw [List.foldl_cons]
    cases hc : CollectCaloHits helpers GetIso (helpers.GetAllDownstreamPfosOf p []) [] with
    | error e =>
      rw [hc] at h
      simp at h
    | ok clusterHits =>
      rw [hc] at h
      simp only at h
      have hkey : biggestContributorOf helpers GetIso GetParentMC IsNuMC SortByMomentum
          pCaloHitList h2mc p =
          (selectBiggestContributor
            (fillNeutrinoContributions pCaloHitList h2mc GetParentMC IsNuMC clusterHits [])
            (listSort SortByMomentum (mapKeys
              (fillNeutrinoContributions pCaloHitList h2mc GetParentMC IsNuMC clusterHits
                [])))
            (none, [])).1 := by
        unfold biggestContributorOf
        rw [hc]
      split at h
      · rename_i k hk
        have hstep : recordNeutrinoMatch (biggestContributorOf helpers GetIso GetParentMC
            IsNuMC SortByMomentum pCaloHitList h2mc) out p = mapAssign out k p := by
          unfold recordNeutrinoMatch
          rw [hkey, hk]
        rw [hstep]
        exact ih _ out1 h
      · rename_i hk
        have hstep : recordNeutrinoMatch (biggestContributorOf helpers GetIso GetParentMC
            IsNuMC SortByMomentum pCaloHitList h2mc) out p = out := by
          unfold recordNeutrinoMatch
          rw [hkey, hk]
        rw [hstep]
        exact ih _ out1 h

theorem recordNeutrinoMatch_keys (key : ParticleFlowObject → Option MCParticle)
    (l : List ParticleFlowObject) :
    ∀ out : MCToPfoMap, (mapKeys out).Nodup →
      (mapKeys (l.foldl (recordNeutrinoMatch key) out)).Nodup ∧
      ∀ k, k ∈ mapKeys (l.foldl (recordNeutrinoMatch key) out) ↔
        k ∈ mapKeys out ∨ ∃ p ∈ l, key p = some k := by
  induction l with
  | nil =>
    intro out hout
    exact ⟨hout, by simp⟩
  | cons p rest ih =>
    intro out hout
    rw [List.foldl_cons]
    cases hk : key p with
    | none =>
      have hstep : recordNeutrinoMatch key out p = out := by
        unfold recordNeutrinoMatch
        rw [hk]
      rw [hstep]
      obtain ⟨h1, h2⟩ := ih out hout
      refine ⟨h1, ?_⟩
      intro k
      rw [h2 k]
      constructor
      · rintro (h | ⟨q, hq, hqk⟩)
        · exact Or.inl h
        · exact Or.inr ⟨q, List.mem_cons_of_mem _ hq, hqk⟩
      · rintro (h | ⟨q, hq, hqk⟩)
        · exact Or.inl h
        · rcases List.mem_cons.mp hq with rfl | hq
          · rw [hk] at hqk
            simp at hqk
          · exact Or.inr ⟨q, hq, hqk⟩
    | some k0 =>
      have hstep : recordNeutrinoMatch key out p = mapAssign out k0 p := by
        unfold recordNeutrinoMatch
        rw [hk]
      rw [hstep]
      have hkeys : mapKeys (mapAssign out k0 p) =
          if k0 ∈ mapKeys out then mapKeys out else mapKeys out ++ [k0] :=
        mapKeys_mapUpdate out k0 _ _
      have hnodup : (mapKeys (mapAssign out k0 p)).Nodup := by
        rw [hkeys]
        split_ifs with hmem
        · exact hout
        · exact List.Nodup.append hout (List.nodup_singleton k0)
            (by
              intro x hx hx1
              simp only [List.mem_singleton] at hx1
              rw [hx1] at hx
              exact hmem hx)
      have hmemk : ∀ k, k ∈ mapKeys (mapAssign out k0 p) ↔ k ∈ mapKeys out ∨ k = k0 := by
        intro k
        rw [hkeys]
        split_ifs with hmem
        · constructor
          · exact Or.inl
          · rintro (h | rfl)
            · exact h
            · exact hmem
        · simp
      obtain ⟨h1, h2⟩ := ih _ hnodup
      refine ⟨h1, ?_⟩
      intro k
      rw [h2 k, hmemk k]
      constructor
      · rintro ((h | rfl) | ⟨q, hq, hqk⟩)
        · exact Or.inl h
        · exact Or.inr ⟨p, List.mem_cons_self _ _, hk⟩
        · exact Or.inr ⟨q, List.mem_cons_of_mem _ hq, hqk⟩
      · rintro (h | ⟨q, hq, hqk⟩)
        · exact Or.inl (Or.inl h)
        · rcases List.mem_cons.mp hq with rfl | hq
          · rw [hk] at hqk
            simp only [Option.some.injEq] at hqk
            exact Or.inl (Or.inr hqk.symm)
          · exact Or.inr ⟨q, hq, hqk⟩

theorem recordNeutrinoMatch_find_other (key : ParticleFlowObject → Option MCParticle)
    (k : MCParticle) (l : List ParticleFlowObject) :
    (∀ p ∈ l, key p ≠ some k) →
    ∀ out : MCToPfoMap, mapFind (l.foldl (recordNeutrinoMatch key) out) k = mapFind out k := by
  induction l with
  | nil => intro _ out; rfl
  | cons p rest ih =>
    intro h out
    rw [List.foldl_cons, ih (fun q hq => h q (List.mem_cons_of_mem _ hq))]
    have hp := h p (List.mem_cons_self _ _)
    unfold recordNeutrinoMatch
    cases hk : key p with
    | none => rfl
    | some k0 =>
      simp only
      rw [mapFind_mapAssign, if_neg]
      intro heq
      rw [hk, heq] at hp
      exact hp rfl

theorem recordNeutrinoMatch_find_last (key : ParticleFlowObject → Option MCParticle)
    (k : MCParticle) (pre post : List ParticleFlowObject) (p : ParticleFlowObject)
    (hp : key p = some k) (hpost : ∀ q ∈ post, key q ≠ some k) (out : MCToPfoMap) :
    mapFind ((pre ++ p :: post).foldl (recordNeutrinoMatch key) out) k = some p := by
  rw [List.foldl_append, List.foldl_cons, recordNeutrinoMatch_find_other key k post hpost]
  unfold recordNeutrinoMatch
  rw [hp]
  simp only
  rw [mapFind_mapAssign, if_pos rfl]

theorem exists_last_split {α : Type} (P : α → Prop) (l : List α) :
    (∃ x ∈ l, P x) → ∃ pre x post, l = pre ++ x :: post ∧ P x ∧ ∀ y ∈ post, ¬ P y := by
  induction l with
  | nil => intro h; simp at h
  | cons a t ih =>
    intro h
    by_cases ht : ∃ x ∈ t, P x
    · obtain ⟨pre, x, post, hl, hx, hpost⟩ := ih ht
      exact ⟨a :: pre, x, post, by rw [hl]; rfl, hx, hpost⟩
    · obtain ⟨x, hx, hPx⟩ := h
      rcases List.mem_cons.mp hx with rfl | hx
      · exact ⟨[], x, t, rfl, hPx, fun y hy hPy => ht ⟨y, hy, hPy⟩⟩
      · exact absurd ⟨x, hx, hPx⟩ ht

theorem dedup_length_lt {α : Type} [DecidableEq α] (l : List α) (h : ¬ l.Nodup) :
    l.dedup.length < l.length := by
  rcases lt_or_eq_of_le (List.dedup_sublist l).length_le with hlt | heq
  · exact hlt
  · exfalso
    have := (List.dedup_sublist l).eq_of_length heq
    exact h (List.dedup_eq_self.mp this)

/-- C27: let `GetNeutrinoMatches`, started with an empty output, return the map `out`. The
keys of `out` are pairwise different truth particles, and the entry of a truth neutrino `k`
holds the last object of the input list whose biggest contributor is `k`. So when two
objects of the input list have the same biggest contributor `k` and no later object has it,
the single entry of `k` holds the later of the two. The number of entries of `out` is the
number of distinct truth neutrinos found for the objects of the list; it is at most the
number of matched objects, and strictly smaller as soon as two matched objects share their
truth neutrino. -/
theorem C27_later_object_overwrites_earlier (helpers : PfoHelpers)
    (GetIso : Cluster → List CaloHit) (GetParentMC : MCParticle → MCParticle)
    (IsNuMC : MCParticle → Bool) (SortByMomentum : MCParticle → MCParticle → Bool)
    (pCaloHitList : List CaloHit) (h2mc : CaloHitToMCMap)
    (recoNeutrinos : List ParticleFlowObject) (out : MCToPfoMap)
    (h : GetNeutrinoMatches helpers GetIso GetParentMC IsNuMC SortByMomentum pCaloHitList h2mc
      recoNeutrinos [] = Except.ok out) :
    (mapKeys out).Nodup ∧
    (∀ k p, mapFind out k = some p ↔
      ∃ pre post, recoNeutrinos = pre ++ p :: post ∧
        biggestContributorOf helpers GetIso GetParentMC IsNuMC SortByMomentum pCaloHitList
          h2mc p = some k ∧
        ∀ q ∈ post, biggestContributorOf helpers GetIso GetParentMC IsNuMC SortByMomentum
          pCaloHitList h2mc q ≠ some k) ∧
    (∀ pre p1 mid p2 post k, recoNeutrinos = pre ++ p1 :: (mid ++ p2 :: post) →
      biggestContributorOf helpers GetIso GetParentMC IsNuMC SortByMomentum pCaloHitList
        h2mc p1 = some k →
      biggestContributorOf helpers GetIso GetParentMC IsNuMC SortByMomentum pCaloHitList
        h2mc p2 = some k →
      (∀ q ∈ post, biggestContributorOf helpers GetIso GetParentMC IsNuMC SortByMomentum
        pCaloHitList h2mc q ≠ some k) →
      mapFind out k = some p2 ∧ (mapKeys out).count k = 1) ∧
    out.length = ((recoNeutrinos.filterMap (biggestContributorOf helpers GetIso GetParentMC
      IsNuMC SortByMomentum pCaloHitList h2mc)).dedup).length ∧
    out.length ≤ (recoNeutrinos.filterMap (biggestContributorOf helpers GetIso GetParentMC
      IsNuMC SortByMomentum pCaloHitList h2mc)).length ∧
    (¬ (recoNeutrinos.filterMap (biggestContributorOf helpers GetIso GetParentMC
        IsNuMC SortByMomentum pCaloHitList h2mc)).Nodup →
      out.length < (recoNeutrinos.filterMap (biggestContributorOf helpers GetIso GetParentMC
        IsNuMC SortByMomentum pCaloHitList h2mc)).length) := by
  have hfold := GetNeutrinoMatches_eq_foldl helpers GetIso GetParentMC IsNuMC SortByMomentum
    pCaloHitList h2mc recoNeutrinos [] out h
  generalize biggestContributorOf helpers GetIso GetParentMC IsNuMC SortByMomentum
    pCaloHitList h2mc = key at hfold ⊢
  obtain ⟨hnodup, hmem⟩ := recordNeutrinoMatch_keys key recoNeutrinos [] List.nodup_nil
  rw [← hfold] at hnodup hmem
  have hlast : ∀ pre p post k, recoNeutrinos = pre ++ p :: post → key p = some k →
      (∀ q ∈ post, key q ≠ some k) → mapFind out k = some p := by
    intro pre p post k hl hp hpost
    rw [hfold, hl]
    exact recordNeutrinoMatch_find_last key k pre post p hp hpost []
  have hlen : out.length = ((recoNeutrinos.filterMap key).dedup).length := by
    have hperm : List.Perm (mapKeys out) ((recoNeutrinos.filterMap key).dedup) := by
      rw [List.perm_ext_iff_of_nodup hnodup (List.nodup_dedup _)]
      intro k
      rw [hmem k, List.mem_dedup, List.mem_filterMap]
      simp [mapKeys]
    have := hperm.length_eq
    simpa [mapKeys] using this
  refine ⟨hnodup, ?_, ?_, hlen, ?_, ?_⟩
  · intro k p
    constructor
    · intro hfind
      have hk : k ∈ mapKeys out := (mapFind_isSome_iff out k).mp ⟨p, hfind⟩
      rcases (hmem k).mp hk with h0 | hex
      · simp [mapKeys] at h0
      · obtain ⟨pre, x, post, hl, hx, hpost⟩ :=
          exists_last_split (fun q => key q = some k) recoNeutrinos hex
        have hx1 := hlast pre x post k hl hx hpost
        rw [hfind] at hx1
        simp only [Option.some.injEq] at hx1
        subst hx1
        exact ⟨pre, post, hl, hx, hpost⟩
    · rintro ⟨pre, post, hl, hp, hpost⟩
      exact hlast pre p post k hl hp hpost
  · intro pre p1 mid p2 post k hl _ hp2 hpost
    have hl1 : recoNeutrinos = (pre ++ p1 :: mid) ++ p2 :: post := by
      rw [hl]
      simp
    have hfind := hlast (pre ++ p1 :: mid) p2 post k hl1 hp2 hpost
    exact ⟨hfind, List.count_eq_one_of_mem hnodup
      ((mapFind_isSome_iff out k).mp ⟨p2, hfind⟩)⟩
  · rw [hlen]
    exact (List.dedup_sublist _).length_le
  · intro hdup
    rw [hlen]
    exact dedup_length_lt _ hdup

/-- Witness of C27: the two reconstructed neutrinos `pfoNuWithHits` and `pfoNuSecond` both
have the truth neutrino `50` as biggest contributor; the output holds the single entry
`(50, pfoNuSecond)`, the later object. -/
theorem C27_later_object_overwrites_earlier_witness :
    GetNeutrinoMatches neutrinoPairHelpers noIsolatedHits neutrinoParentMC isTruthNeutrino
        mcByAddress [mkHit 0, mkHit 1, mkHit 2] neutrinoHitToMC [pfoNuWithHits, pfoNuSecond]
        [] = Except.ok [(50, pfoNuSecond)] ∧
    biggestContributorOf neutrinoPairHelpers noIsolatedHits neutrinoParentMC isTruthNeutrino
        mcByAddress [mkHit 0, mkHit 1, mkHit 2] neutrinoHitToMC pfoNuWithHits = some 50 ∧
    biggestContributorOf neutrinoPairHelpers noIsolatedHits neutrinoParentMC isTruthNeutrino
        mcByAddress [mkHit 0, mkHit 1, mkHit 2] neutrinoHitToMC pfoNuSecond = some 50 ∧
    (mapFind [(50, pfoNuSecond)] 50 = some pfoNuSecond ∧
      (mapKeys [((50 : MCParticle), pfoNuSecond)]).count 50 = 1) :=
  ⟨by rfl, by rfl, by rfl,
    (C27_later_object_overwrites_earlier neutrinoPairHelpers noIsolatedHits neutrinoParentMC
      isTruthNeutrino mcByAddress [mkHit 0, mkHit 1, mkHit 2] neutrinoHitToMC
      [pfoNuWithHits, pfoNuSecond] [(50, pfoNuSecond)] (by rfl)).2.2.1
      [] pfoNuWithHits [] pfoNuSecond [] 50 (by rfl) (by rfl) (by rfl) (by simp)⟩

end LArContent
